import Mathlib

/-!
Verification development for bank-statement-processor.

Shallow embedding of the in-memory repositories, the CSV ingestion use case, the balance
and issues queries, the event bus and the reconciliation consumer of
`mj3smile/bank-statement-processor`, with theorems about them.

Conventions of the embedding

* Go `int`, `int64` and `time.Duration` values are Lean `Int`s; every arithmetic
  operation of the source is followed by `wrap64`, the two's-complement wrap-around of a
  64 bit machine word.
* Go `string`s are Lean `String`s (sequences of Unicode code points, that is, valid UTF-8).
* A Go `map[K]V` with string keys is an association list `GoMap V` with unique keys, read
  with `mapGet` and written with `mapSet`.
* A pointer that may be `nil` is an `Option`; a returned `error` is an `Option String`
  holding the error text (`none` is Go `nil`); a run-time panic is the result `none` of a
  function returning `Option`.
* Methods that mutate their receiver return the new receiver state.
* Channels live in a heap of the bus state and are named by their index; a call that may
  block or panic returns an `Outcome`. Calls are taken one at a time.
-/

/-! ## Machine integers -/

/-- Two's-complement wrap-around of an integer to the range of a Go `int64`. -/
def wrap64 (x : Int) : Int := (x + 2 ^ 63) % 2 ^ 64 - 2 ^ 63

/-- Largest value of a Go `int64` (and of `int` on a 64 bit platform). -/
def maxInt64 : Int := 2 ^ 63 - 1

/-- Smallest value of a Go `int64`. -/
def minInt64 : Int := -(2 ^ 63)

/-- Predicate saying that an integer is the value of some Go `int64`. -/
def isInt64 (x : Int) : Prop := minInt64 ≤ x ∧ x ≤ maxInt64

instance (x : Int) : Decidable (isInt64 x) := by unfold isInt64; exact inferInstance

/-! ## Go maps with string keys -/

/-- Association list standing for a Go map with string keys. -/
abbrev GoMap (V : Type) := List (String × V)

/-- Map read `m[k]` in its two-valued form: `none` when the key is absent. -/
def mapGet {V : Type} : GoMap V → String → Option V
  | [], _ => none
  | (k', v) :: rest, k => if k' = k then some v else mapGet rest k

/-- Map write `m[k] = v`: replaces the binding of `k`, or adds one after the others. -/
def mapSet {V : Type} : GoMap V → String → V → GoMap V
  | [], k, v => [(k, v)]
  | (k', v') :: rest, k, v => if k' = k then (k, v) :: rest else (k', v') :: mapSet rest k v

/-- Keys bound in a map, in the order of the association list. -/
def mapKeys {V : Type} (m : GoMap V) : List String := m.map Prod.fst

/-! ## Package `model/transaction` and `model/upload` -/

/-- Constant `transaction.TypeCredit`. -/
def transaction.TypeCredit : String := "CREDIT"

/-- Constant `transaction.TypeDebit`. -/
def transaction.TypeDebit : String := "DEBIT"

/-- Constant `transaction.StatusSuccess`. -/
def transaction.StatusSuccess : String := "SUCCESS"

/-- Constant `transaction.StatusFailed`. -/
def transaction.StatusFailed : String := "FAILED"

/-- Constant `transaction.StatusPending`. -/
def transaction.StatusPending : String := "PENDING"

/-- Struct `transaction.Transaction`; `ID`, `Type` and `Status` are string types in the
source, `UploadID` is an `upload.ID`, also a string type. The field `Type` is spelled
`Type_` here. -/
structure Transaction where
  ID : String
  UploadID : String
  Timestamp : Int
  Counterparty : String
  Type_ : String
  Amount : Int
  Status : String
  Description : String
  deriving DecidableEq, Repr

/-- Struct `transaction.IssuesFilters`; the pointer fields are `Option`s. -/
structure IssuesFilters where
  UploadID : String
  Status : Option String
  MinAmount : Option Int
  MaxAmount : Option Int
  FromDate : Option Int
  ToDate : Option Int
  Page : Int
  PageSize : Int
  deriving DecidableEq, Repr

/-! ## Package `repository/memory`: the transaction repository -/

/-- Struct `memory.transactionRepository` without its mutex. -/
structure transactionRepository where
  transactions : GoMap Transaction
  uploadIdToIssues : GoMap (List Transaction)
  uploadIdToBalance : GoMap Int
  deriving DecidableEq

/-- Constructor `NewTransactionRepository`: three empty maps. -/
def NewTransactionRepository : transactionRepository :=
  { transactions := [], uploadIdToIssues := [], uploadIdToBalance := [] }

/-- Method `transactionRepository.Save`. The result is the repository after the call and
the returned error. -/
def transactionRepository.Save (tr : transactionRepository) (t : Option Transaction) :
    transactionRepository × Option String :=
  match t with
  | none => (tr, some "transaction cannot be nil")
  | some t =>
    if t.ID = "" then (tr, some "transaction ID cannot be empty")
    else if t.UploadID = "" then (tr, some "upload ID cannot be empty")
    else if (mapGet tr.transactions t.ID).isSome then (tr, some "transaction already exists")
    else
      let transactions := mapSet tr.transactions t.ID t
      if t.Status = transaction.StatusSuccess then
        let balance := (mapGet tr.uploadIdToBalance t.UploadID).getD 0
        let balance :=
          if t.Type_ = transaction.TypeCredit then wrap64 (balance + t.Amount)
          else if t.Type_ = transaction.TypeDebit then wrap64 (balance - t.Amount)
          else balance
        ({ transactions := transactions
           uploadIdToIssues := tr.uploadIdToIssues
           uploadIdToBalance := mapSet tr.uploadIdToBalance t.UploadID balance }, none)
      else
        ({ transactions := transactions
           uploadIdToIssues := mapSet tr.uploadIdToIssues t.UploadID
             ((mapGet tr.uploadIdToIssues t.UploadID).getD [] ++ [t])
           uploadIdToBalance := tr.uploadIdToBalance }, none)

/-- Method `transactionRepository.GetBalanceByUploadID`: the map read yields the zero value
for an absent key. -/
def transactionRepository.GetBalanceByUploadID (tr : transactionRepository)
    (uploadID : String) : Int :=
  (mapGet tr.uploadIdToBalance uploadID).getD 0

/-- Body of the filtering loop of `GetIssuesWithFilters`: `true` when no `continue` is
taken for the transaction, so that it is appended to `filtered`. -/
def issueMatches (filters : IssuesFilters) (t : Transaction) : Bool :=
  if filters.Status.isSome ∧ some t.Status ≠ filters.Status then false
  else if (match filters.MinAmount with | some m => decide (t.Amount < m) | none => false) then false
  else if (match filters.MaxAmount with | some m => decide (t.Amount > m) | none => false) then false
  else if (match filters.FromDate with | some d => decide (t.Timestamp < d) | none => false) then false
  else if (match filters.ToDate with | some d => decide (t.Timestamp > d) | none => false) then false
  else true

/-- Slice expression `s[low:high]` for `0 ≤ low ≤ high ≤ len(s)`. -/
def sliceOf {α : Type} (s : List α) (low high : Int) : List α :=
  (s.drop low.toNat).take (high - low).toNat

/-- The pagination that ends `GetIssuesWithFilters` (from `totalCount := len(filtered)` to
the final `return`): the page, the total count and the returned error (always `nil`). The
result is `none` when the slice expression `filtered[offset:end]` panics, that is when
`offset < 0` or `end < offset` (`end` never exceeds the length). `offset` and `end` are
computed in wrapping `int` arithmetic. -/
def paginate (filtered : List Transaction) (page pageSize : Int) :
    Option (List Transaction × Int × Option String) :=
  let totalCount : Int := filtered.length
  let offset := wrap64 (wrap64 (page - 1) * pageSize)
  if offset ≥ totalCount then some ([], totalCount, none)
  else
    let end0 := wrap64 (offset + pageSize)
    let end1 := if end0 > totalCount then totalCount else end0
    if 0 ≤ offset ∧ offset ≤ end1 then some (sliceOf filtered offset end1, totalCount, none)
    else none

/-- Method `transactionRepository.GetIssuesWithFilters`, for non-nil `filters`: the early
return for an upload without issues list, the filtering loop, and the pagination. -/
def transactionRepository.GetIssuesWithFilters (tr : transactionRepository)
    (filters : IssuesFilters) : Option (List Transaction × Int × Option String) :=
  match mapGet tr.uploadIdToIssues filters.UploadID with
  | none => some ([], 0, none)
  | some allTransactions =>
    paginate (allTransactions.filter (issueMatches filters)) filters.Page filters.PageSize

/-- The repository after a sequence of `Save` calls whose errors are discarded, as the
repository tests do with `_ = tr.Save(ctx, t)`. -/
def saveAll (tr : transactionRepository) (ts : List Transaction) : transactionRepository :=
  ts.foldl (fun r t => (r.Save (some t)).1) tr

/-- The condition under which `Save` stores a transaction. -/
def SaveOk (tr : transactionRepository) (t : Transaction) : Prop :=
  t.ID ≠ "" ∧ t.UploadID ≠ "" ∧ mapGet tr.transactions t.ID = none

/-- The transactions that a sequence of `Save` calls on a fresh repository stores, in save
order, described without reference to the repository: a transaction is stored when its ID
and upload ID are non-empty and no earlier stored transaction has its ID. -/
def accepted (ts : List Transaction) : List Transaction :=
  ts.foldl (fun acc t =>
    if t.ID ≠ "" ∧ t.UploadID ≠ "" ∧ t.ID ∉ acc.map (fun s => s.ID) then acc ++ [t] else acc) []

/-- Sum of the amounts of a list of transactions, as a mathematical integer. -/
def sumAmounts (ts : List Transaction) : Int := (ts.map (fun t => t.Amount)).sum

/-- The transactions of upload `u` with status `SUCCESS` and the given type. -/
def successfulOf (u ty : String) (ts : List Transaction) : List Transaction :=
  ts.filter (fun t => t.UploadID = u ∧ t.Status = transaction.StatusSuccess ∧ t.Type_ = ty)

/-- Sum of the successful credits of upload `u` minus the sum of its successful debits, as
a mathematical integer. -/
def netAmount (u : String) (ts : List Transaction) : Int :=
  sumAmounts (successfulOf u transaction.TypeCredit ts)
    - sumAmounts (successfulOf u transaction.TypeDebit ts)

/-- The transactions of upload `u` whose status is not `SUCCESS`, in list order. -/
def issuesOf (u : String) (ts : List Transaction) : List Transaction :=
  ts.filter (fun t => t.UploadID = u ∧ t.Status ≠ transaction.StatusSuccess)

/-- The page of a list that the pagination is meant to return: the sublist starting at
index `(page - 1) * pageSize` with at most `pageSize` elements, in unbounded arithmetic. -/
def pageOf {α : Type} (l : List α) (page pageSize : Nat) : List α :=
  (l.drop ((page - 1) * pageSize)).take pageSize

/-- Filters with the given upload ID and paging fields and no optional filter. -/
def plainFilters (u : String) (page pageSize : Int) : IssuesFilters :=
  { UploadID := u, Status := none, MinAmount := none, MaxAmount := none,
    FromDate := none, ToDate := none, Page := page, PageSize := pageSize }

/-- A transaction with the given ID, upload ID, type, status and amount and zero values in
the other fields, as the repository tests build them. -/
def mkTransaction (id uploadID type status : String) (amount : Int) : Transaction :=
  { ID := id, UploadID := uploadID, Timestamp := 0, Counterparty := "", Type_ := type,
    Amount := amount, Status := status, Description := "" }

/-- The transactions of the repository test with statuses `SUCCESS`, `FAILED` and
`PENDING`. -/
def testTransactions : List Transaction :=
  [ mkTransaction "1234" "ABCDEFG" "CREDIT" "SUCCESS" 125,
    mkTransaction "5678" "ABCDEFG" "DEBIT" "FAILED" 25,
    mkTransaction "9102" "ABCDEFG" "DEBIT" "SUCCESS" 50,
    mkTransaction "2123" "ABCDEFG" "DEBIT" "PENDING" 25,
    mkTransaction "1123" "ABCDEFG" "CREDIT" "SUCCESS" 11 ]

/-- The two issues among `testTransactions`, in save order. -/
def testIssues : List Transaction :=
  [ mkTransaction "5678" "ABCDEFG" "DEBIT" "FAILED" 25,
    mkTransaction "2123" "ABCDEFG" "DEBIT" "PENDING" 25 ]

/-- A transaction whose `Status` is the zero value of the string type. -/
def statuslessTransaction : Transaction := mkTransaction "1" "u" "DEBIT" "" 30

/-- A `FAILED` debit of upload `u`. -/
def failedTransaction : Transaction := mkTransaction "1" "u" "DEBIT" "FAILED" 30

/-- Number of pages of a list of `n` elements: `n / pageSize` rounded up. -/
def pageCount (n pageSize : Nat) : Nat := (n + pageSize - 1) / pageSize

/-! ## Package `repository/memory`: the upload repository -/

/-- Constant `upload.StatusCompleted`. -/
def upload.StatusCompleted : String := "completed"

/-- Constant `upload.StatusFailed`. -/
def upload.StatusFailed : String := "failed"

/-- Constant `upload.StatusProcessing`. -/
def upload.StatusProcessing : String := "processing"

/-- Constant `upload.MessageProcessing`. -/
def upload.MessageProcessing : String := "CSV is still being processed"

/-- Struct `upload.Task`; a `time.Time` is an integer, the zero time being `0`. -/
structure upload.Task where
  ID : String
  Status : String
  Filename : String
  Message : String
  StartedAt : Int
  CompletedAt : Int
  deriving DecidableEq, Repr

/-- Struct `memory.uploadRepository` without its mutex. -/
structure uploadRepository where
  task : GoMap upload.Task
  deriving DecidableEq

/-- Constructor `NewUploadRepository`. -/
def NewUploadRepository : uploadRepository := { task := [] }

/-- Method `uploadRepository.Save`. -/
def uploadRepository.Save (u : uploadRepository) (uploadTask : Option upload.Task) :
    uploadRepository × Option String :=
  match uploadTask with
  | none => (u, some "upload task is nil")
  | some uploadTask =>
    if uploadTask.ID = "" then (u, some "upload id is empty")
    else if (mapGet u.task uploadTask.ID).isSome then (u, some "upload task already exists")
    else ({ task := mapSet u.task uploadTask.ID uploadTask }, none)

/-- Method `uploadRepository.Update`, for a non-nil `updateValue`: only `Message`, `Status`
and `CompletedAt` of the stored task are assigned. -/
def uploadRepository.Update (u : uploadRepository) (updateValue : upload.Task) :
    uploadRepository × Option String :=
  let id := updateValue.ID
  match mapGet u.task id with
  | none => (u, some "upload task not found")
  | some stored =>
    ({ task := mapSet u.task id
        { stored with
          Message := updateValue.Message
          Status := updateValue.Status
          CompletedAt := updateValue.CompletedAt } }, none)

/-- Method `uploadRepository.GetByID`. -/
def uploadRepository.GetByID (u : uploadRepository) (uploadID : String) :
    Except String upload.Task :=
  match mapGet u.task uploadID with
  | none => .error "upload ID not found"
  | some task => .ok task

/-! ## Standard library functions used by `parseTransaction` -/

/-- Function `unicode.IsSpace`: the code points with the Unicode White_Space property. -/
def isSpace (c : Char) : Bool :=
  let n := c.toNat
  (9 ≤ n ∧ n ≤ 13) ∨ n = 32 ∨ n = 0x85 ∨ n = 0xA0 ∨ n = 0x1680 ∨ (0x2000 ≤ n ∧ n ≤ 0x200A)
    ∨ n = 0x2028 ∨ n = 0x2029 ∨ n = 0x202F ∨ n = 0x205F ∨ n = 0x3000

/-- Function `strings.TrimSpace`: the string without its leading and trailing white space. -/
def TrimSpace (s : String) : String :=
  String.mk ((s.data.dropWhile isSpace).reverse.dropWhile isSpace).reverse

/-- Function `unicode.ToUpper` on the code points that matter for comparing an upper-cased
string with an ASCII word: the ASCII lower-case letters, and the two other code points whose
upper case is an ASCII letter (U+0131 to `I`, U+017F to `S`). Other code points are returned
unchanged, where the library upper-cases further non-ASCII letters. -/
def toUpperRune (c : Char) : Char :=
  if 97 ≤ c.toNat ∧ c.toNat ≤ 122 then Char.ofNat (c.toNat - 32)
  else if c.toNat = 0x131 then 'I'
  else if c.toNat = 0x17F then 'S'
  else c

/-- Function `strings.ToUpper`: `toUpperRune` applied to every code point. -/
def ToUpper (s : String) : String := String.mk (s.data.map toUpperRune)

/-- The two kinds of error of `strconv.ParseInt`: `ErrSyntax` and `ErrRange`. -/
inductive NumErr where
  | invalid
  | outOfRange
  deriving DecidableEq, Repr

/-- Digit loop of `strconv.ParseUint(s, 10, 64)` with accumulator `n`: a character that is
not a decimal digit is a syntax error, a value above `2^64 - 1` a range error, reported at
the first character where either happens. -/
def parseUintLoop : List Char → Nat → Except NumErr Nat
  | [], n => .ok n
  | c :: cs, n =>
    if 48 ≤ c.toNat ∧ c.toNat ≤ 57 then
      if n ≥ (2 ^ 64 - 1) / 10 + 1 then .error .outOfRange
      else
        let n1 := n * 10 + (c.toNat - 48)
        if n1 > 2 ^ 64 - 1 then .error .outOfRange else parseUintLoop cs n1
    else .error .invalid

/-- Function `strconv.ParseUint(s, 10, 64)`. -/
def ParseUint (s : List Char) : Except NumErr Nat :=
  match s with
  | [] => .error .invalid
  | _ => parseUintLoop s 0

/-- Function `strconv.ParseInt(s, 10, 64)`: an optional sign, then `ParseUint`, then the
check against the range of `int64`. -/
def ParseInt (s : String) : Except NumErr Int :=
  match s.data with
  | [] => .error .invalid
  | c :: cs =>
    let neg := decide (c = '-')
    let rest := if c = '+' ∨ c = '-' then cs else c :: cs
    match ParseUint rest with
    | .error e => .error e
    | .ok un =>
      if ¬ neg ∧ un ≥ 2 ^ 63 then .error .outOfRange
      else if neg ∧ un > 2 ^ 63 then .error .outOfRange
      else .ok (if neg then -(un : Int) else (un : Int))

/-- Text of `(*strconv.NumError).Error()` for `ParseInt`; the quoting of the input by
`strconv.Quote` is rendered by enclosing it in double quotes. -/
def numErrorText (s : String) (e : NumErr) : String :=
  "strconv.ParseInt: parsing \"" ++ s ++ "\": " ++
    (match e with
     | .invalid => "invalid syntax"
     | .outOfRange => "value out of range")

/-- Value of a sequence of decimal digits read as a natural number. -/
def decimalValue (ds : List Char) : Nat :=
  ds.foldl (fun n c => n * 10 + (c.toNat - 48)) 0

/-- The string `s` is a base-10 signed 64 bit integer with value `v`: an optional sign `+`
or `-`, then one or more decimal digits, denoting a value in the range of `int64`. -/
def IsBase10Int64 (s : String) (v : Int) : Prop :=
  ∃ sign ds : List Char, s.data = sign ++ ds
    ∧ (sign = [] ∨ sign = ['+'] ∨ sign = ['-'])
    ∧ ds ≠ [] ∧ (∀ c ∈ ds, 48 ≤ c.toNat ∧ c.toNat ≤ 57)
    ∧ v = (if sign = ['-'] then -(decimalValue ds : Int) else (decimalValue ds : Int))
    ∧ isInt64 v

/-- A record whose type and status are not in upper case and whose fields carry white
space. -/
def mixedCaseRecord : List String :=
  ["1674507883", " JOHN DOE ", "debit", " 250000", "Success", "restaurant\t"]

/-- The transaction that `parseTransaction` makes of `mixedCaseRecord` for upload `u` with
the generated ID `id1`. -/
def mixedCaseTransaction : Transaction :=
  { ID := "id1", UploadID := "u", Timestamp := 1674507883, Counterparty := "JOHN DOE",
    Type_ := "DEBIT", Amount := 250000, Status := "SUCCESS", Description := "restaurant" }

/-! ## Package `event` -/

/-- Struct `event.FailedTransactionEvent`. -/
structure FailedTransactionEvent where
  TransactionID : String
  UploadID : String
  Timestamp : Int
  Counterparty : String
  Amount : Int
  Description : String
  PublishedAt : Int
  deriving DecidableEq, Repr

/-- Method `FailedTransactionEvent.EventType`. -/
def FailedTransactionEvent.EventType (_e : FailedTransactionEvent) : String :=
  "failed_transaction"

/-- Constructor `NewFailedTransactionEvent`; `now` is the value of `time.Now()`. -/
def NewFailedTransactionEvent (transactionID uploadID counterparty description : String)
    (timestamp amount : Int) (now : Int) : FailedTransactionEvent :=
  { TransactionID := transactionID
    UploadID := uploadID
    Timestamp := timestamp
    Counterparty := counterparty
    Amount := amount
    Description := description
    PublishedAt := now }

/-! ## Package `usecase`: statement ingestion -/

/-- Method `statement.parseTransaction`. `newID` is the value that `uuid.NewString()`
returns when the record is valid. -/
def statement.parseTransaction (record : List String) (uploadID : String) (newID : String) :
    Except String Transaction :=
  match record with
  | [r0, r1, r2, r3, r4, r5] =>
    let timestampStr := TrimSpace r0
    match ParseInt timestampStr with
    | .error err =>
      .error ("invalid timestamp '" ++ timestampStr ++ "': " ++ numErrorText timestampStr err)
    | .ok timestamp =>
      let counterparty := TrimSpace r1
      if counterparty = "" then .error "counterparty cannot be empty"
      else
        let transactionType := ToUpper (TrimSpace r2)
        if transactionType ≠ transaction.TypeCredit ∧ transactionType ≠ transaction.TypeDebit then
          .error ("invalid transaction type '" ++ transactionType ++ "': must be CREDIT or DEBIT")
        else
          let amountStr := TrimSpace r3
          match ParseInt amountStr with
          | .error err =>
            .error ("invalid amount '" ++ amountStr ++ "': " ++ numErrorText amountStr err)
          | .ok amount =>
            if amount ≤ 0 then .error ("amount must be positive, got " ++ toString amount)
            else
              let status := ToUpper (TrimSpace r4)
              if status ≠ transaction.StatusSuccess ∧ status ≠ transaction.StatusFailed
                  ∧ status ≠ transaction.StatusPending then
                .error ("invalid status '" ++ status ++ "': must be SUCCESS, FAILED, or PENDING")
              else
                let description := TrimSpace r5
                if description = "" then .error "description cannot be empty"
                else
                  .ok { ID := newID
                        UploadID := uploadID
                        Timestamp := timestamp
                        Counterparty := counterparty
                        Type_ := transactionType
                        Amount := amount
                        Status := status
                        Description := description }
  | _ =>
    .error ("invalid CSV format: expected 6 columns, got " ++ toString record.length)

deriving instance DecidableEq for Except

/-- A call that `processStatement` makes on one of its collaborators, with its outcome:
`csvReader.Read` (`none` is `io.EOF`), `transactionRepo.Save`, `eventBus.Publish` and
`uploadRepo.Update`. -/
inductive Effect where
  | read (result : Option (Except String (List String)))
  | save (t : Transaction) (err : Option String)
  | publish (e : FailedTransactionEvent)
  | update (info : upload.Task) (err : Option String)
  deriving DecidableEq, Repr

/-- Struct `usecase.statement`: the state of the two repositories it holds, and in place of
the `event.Bus` interface value the calls made so far on the collaborators, oldest first. -/
structure statement where
  transactionRepo : transactionRepository
  uploadRepo : uploadRepository
  trace : List Effect
  deriving DecidableEq

/-- What a run of `processStatement` takes from its surroundings: whether the context is
done at the check that precedes reading data row `k` (counted from 0), the string that
`uuid.NewString()` returns for data row `k`, and the value of `time.Now()` as a function of
the number of collaborator calls made so far. -/
structure RunEnv where
  ctxDone : Nat → Bool
  newID : Nat → String
  now : Nat → Int

/-- Method `statement.markUploadAsFailed`; the error of `Update` is only logged. -/
def statement.markUploadAsFailed (env : RunEnv) (uc : statement) (uploadID reason : String) :
    statement :=
  let info : upload.Task :=
    { ID := uploadID, Status := upload.StatusFailed, Filename := "", Message := reason,
      StartedAt := 0, CompletedAt := env.now uc.trace.length }
  let res := uc.uploadRepo.Update info
  { uc with uploadRepo := res.1, trace := uc.trace ++ [Effect.update info res.2] }

/-- Method `statement.markUploadAsCompleted`; the error of `Update` is only logged. -/
def statement.markUploadAsCompleted (env : RunEnv) (uc : statement) (uploadID : String) :
    statement :=
  let info : upload.Task :=
    { ID := uploadID, Status := upload.StatusCompleted, Filename := "", Message := "",
      StartedAt := 0, CompletedAt := env.now uc.trace.length }
  let res := uc.uploadRepo.Update info
  { uc with uploadRepo := res.1, trace := uc.trace ++ [Effect.update info res.2] }

/-- The `for` loop of `processStatement`. `rows` is what the remaining calls of
`csvReader.Read` return before `io.EOF`; `lineNumber` is the variable of the source, so
that `lineNumber - 1` data rows have been processed when an iteration starts. -/
def statement.processRows (env : RunEnv) (uploadID : String) :
    statement → Nat → List (Except String (List String)) → statement
  | uc, lineNumber, rows =>
    if env.ctxDone (lineNumber - 1) then
      statement.markUploadAsFailed env uc uploadID "processing cancelled"
    else
      match rows with
      | [] =>
        statement.markUploadAsCompleted env { uc with trace := uc.trace ++ [Effect.read none] }
          uploadID
      | .error err :: _ =>
        statement.markUploadAsFailed env
          { uc with trace := uc.trace ++ [Effect.read (some (.error err))] } uploadID
          ("error at line " ++ toString lineNumber ++ ": " ++ err)
      | .ok record :: rest =>
        let uc := { uc with trace := uc.trace ++ [Effect.read (some (.ok record))] }
        let lineNumber1 := lineNumber + 1
        match statement.parseTransaction record uploadID (env.newID (lineNumber - 1)) with
        | .error err =>
          statement.markUploadAsFailed env uc uploadID
            ("invalid data at line " ++ toString lineNumber1 ++ ": " ++ err)
        | .ok t =>
          match uc.transactionRepo.Save (some t) with
          | (repo, some err) =>
            statement.markUploadAsFailed env
              { uc with transactionRepo := repo, trace := uc.trace ++ [Effect.save t (some err)] }
              uploadID
              ("failed to save transaction at line " ++ toString lineNumber1 ++ ": " ++ err)
          | (repo, none) =>
            let uc := { uc with transactionRepo := repo, trace := uc.trace ++ [Effect.save t none] }
            let uc :=
              if t.Status = transaction.StatusFailed then
                let failedEvent := NewFailedTransactionEvent t.ID uploadID t.Counterparty
                  t.Description t.Timestamp t.Amount (env.now uc.trace.length)
                { uc with trace := uc.trace ++ [Effect.publish failedEvent] }
              else uc
            statement.processRows env uploadID uc lineNumber1 rest

/-- Method `statement.processStatement`. `file` is the sequence of results that the calls
of `csvReader.Read` return before `io.EOF`, the header first. -/
def statement.processStatement (env : RunEnv) (uc : statement) (uploadID : String)
    (file : List (Except String (List String))) : statement :=
  match file with
  | [] =>
    statement.markUploadAsFailed env { uc with trace := uc.trace ++ [Effect.read none] } uploadID
      ("failed to read CSV header: " ++ "EOF")
  | .error err :: _ =>
    statement.markUploadAsFailed env
      { uc with trace := uc.trace ++ [Effect.read (some (.error err))] } uploadID
      ("failed to read CSV header: " ++ err)
  | .ok header :: rows =>
    statement.processRows env uploadID
      { uc with trace := uc.trace ++ [Effect.read (some (.ok header))] } 1 rows

/-- The transactions that the calls of a trace persisted: those of the `Save` calls that
returned `nil`, in order. -/
def savedOf (tr : List Effect) : List Transaction :=
  tr.filterMap (fun e => match e with
    | Effect.save t none => some t
    | _ => none)

/-- The events that the calls of a trace published, in order. -/
def publishedOf (tr : List Effect) : List FailedTransactionEvent :=
  tr.filterMap (fun e => match e with
    | Effect.publish ev => some ev
    | _ => none)

/-- The calls that one run of `processStatement` makes, in order. -/
def statement.runTrace (env : RunEnv) (uc : statement) (uploadID : String)
    (file : List (Except String (List String))) : List Effect :=
  (statement.processStatement env uc uploadID file).trace.drop uc.trace.length

/-- Number of transactions stored in the repository for an upload ID. -/
def storedCount (tr : transactionRepository) (uploadID : String) : Nat :=
  (tr.transactions.filter (fun p => p.2.UploadID = uploadID)).length

/-- Surroundings of a run of `processStatement` without cancellation, with the generated
IDs `tx0`, `tx1`, ... for the first rows and the clock showing the number of calls made. -/
def sampleEnv : RunEnv :=
  { ctxDone := fun _ => false
    newID := fun k => ["tx0", "tx1", "tx2", "tx3", "tx4"].getD k "tx"
    now := fun n => n }

/-- A use case state with fresh repositories in which the upload `u` is registered as
`Upload` does it. -/
def sampleStatement : statement :=
  { transactionRepo := NewTransactionRepository
    uploadRepo := (NewUploadRepository.Save (some
      { ID := "u", Status := upload.StatusProcessing, Filename := "test.csv",
        Message := upload.MessageProcessing, StartedAt := 5, CompletedAt := 0 })).1
    trace := [] }

/-- Header row of the statement files. -/
def csvHeader : List String :=
  ["timestamp", "counterparty", "type", "amount", "status", "description"]

/-- The data rows of the CSV file of the integration test. -/
def testRows : List (List String) :=
  [ ["1674507883", "JOHN DOE", "DEBIT", "250000", "SUCCESS", "restaurant"],
    ["1674508123", "ACME CORP", "CREDIT", "1500000", "SUCCESS", "salary"],
    ["1674508456", "JANE SMITH", "DEBIT", "75000", "FAILED", "payment failed"],
    ["1674508789", "BOB BROWN", "DEBIT", "100000", "PENDING", "processing"],
    ["1674509012", "ALICE GREEN", "CREDIT", "500000", "SUCCESS", "consulting"] ]

/-- A file with the header and one `PENDING` row. -/
def pendingFile : List (Except String (List String)) :=
  [.ok csvHeader, .ok ["1674508789", "BOB BROWN", "DEBIT", "100000", "PENDING", "processing"]]

/-- The transaction parsed from the row of `pendingFile` in `sampleEnv` for upload `u`. -/
def pendingTransaction : Transaction :=
  { ID := "tx0", UploadID := "u", Timestamp := 1674508789, Counterparty := "BOB BROWN",
    Type_ := "DEBIT", Amount := 100000, Status := "PENDING", Description := "processing" }

/-- A file with the header and one `FAILED` row. -/
def failedFile : List (Except String (List String)) :=
  [.ok csvHeader, .ok ["1674508456", "JANE SMITH", "DEBIT", "75000", "FAILED", "payment failed"]]

/-- The transaction parsed from the row of `failedFile` in `sampleEnv` for upload `u`. -/
def failedRowTransaction : Transaction :=
  { ID := "tx0", UploadID := "u", Timestamp := 1674508456, Counterparty := "JANE SMITH",
    Type_ := "DEBIT", Amount := 75000, Status := "FAILED", Description := "payment failed" }

/-- The task under which the upload `u` is registered in `sampleStatement`. -/
def sampleTask : upload.Task :=
  { ID := "u", Status := upload.StatusProcessing, Filename := "test.csv",
    Message := upload.MessageProcessing, StartedAt := 5, CompletedAt := 0 }

/-! ## Package `event/consumer`: the reconciliation consumer -/

/-- Struct `consumer.ReconciliationConsumer` without the bus reference and the wait group;
`processedCache` is the `sync.Map` from transaction ID to `true`, `baseBackoff` a
`time.Duration` in nanoseconds. -/
structure ReconciliationConsumer where
  workerCount : Int
  maxRetries : Int
  baseBackoff : Int
  processedCache : GoMap Bool
  deriving DecidableEq

/-- Constant `time.Second` in nanoseconds. -/
def time.Second : Int := 1000000000

/-- Constructor `NewReconciliationConsumer`. -/
def NewReconciliationConsumer (workerCount : Int) : ReconciliationConsumer :=
  { workerCount := workerCount, maxRetries := 3, baseBackoff := time.Second,
    processedCache := [] }

/-- Method `calculateBackoff`: `baseBackoff` doubled `attempt` times, each doubling in
wrapping `int` arithmetic (`for _ = range attempt` runs `attempt` times, and not at all
for a negative `attempt`). -/
def ReconciliationConsumer.calculateBackoff (c : ReconciliationConsumer) (attempt : Int) :
    Int :=
  Nat.iterate (fun backOffTime => wrap64 (backOffTime * 2)) attempt.toNat c.baseBackoff

/-- Method `isAlreadyProcessed`. -/
def ReconciliationConsumer.isAlreadyProcessed (c : ReconciliationConsumer)
    (transactionID : String) : Bool :=
  (mapGet c.processedCache transactionID).isSome

/-- Method `markAsProcessed`. -/
def ReconciliationConsumer.markAsProcessed (c : ReconciliationConsumer)
    (transactionID : String) : ReconciliationConsumer :=
  { c with processedCache := mapSet c.processedCache transactionID true }

/-- Method `GetProcessedCount`: the number of entries of the cache. -/
def ReconciliationConsumer.GetProcessedCount (c : ReconciliationConsumer) : Int :=
  c.processedCache.length

/-- What a run of `processEvent` takes from its surroundings, per attempt index: whether
the context is done at the check that opens the iteration, whether the context wins the
`select` of the backoff wait, and the error that `reconcile` returns (`none` is success). -/
structure EventEnv where
  ctxDone : Nat → Bool
  ctxDoneInBackoff : Nat → Bool
  reconcile : Nat → Option String

/-- What `processEvent` does, in order: a backoff wait started with the given duration, or
a call of `reconcile` in the iteration with the given attempt index. -/
inductive ConsumerAction where
  | backoff (d : Int)
  | reconcile (attempt : Nat)
  deriving DecidableEq, Repr

/-- Result of `processEvent`: the consumer afterwards, the returned error and the actions. -/
structure EventResult where
  consumer : ReconciliationConsumer
  err : Option String
  actions : List ConsumerAction
  deriving DecidableEq

/-- The retry loop of `processEvent`, from the iteration with index `attempt`, with the
current `lastErr` and the actions so far. `fuel` bounds the number of iterations left; the
loop condition `attempt < c.maxRetries` is tested as in the source. -/
def ReconciliationConsumer.retryLoop (c : ReconciliationConsumer) (env : EventEnv)
    (evt : FailedTransactionEvent) :
    Nat → Nat → Option String → List ConsumerAction → EventResult
  | 0, _, lastErr, acts => { consumer := c, err := lastErr, actions := acts }
  | fuel + 1, attempt, lastErr, acts =>
    if ¬ ((attempt : Int) < c.maxRetries) then
      { consumer := c, err := lastErr, actions := acts }
    else if env.ctxDone attempt then
      { consumer := c
        err := some ("reconciliation cancelled for transaction " ++ evt.TransactionID)
        actions := acts }
    else
      let backoffDuration := c.calculateBackoff attempt
      let acts1 := if attempt > 0 then acts ++ [ConsumerAction.backoff backoffDuration] else acts
      if attempt > 0 ∧ env.ctxDoneInBackoff attempt then
        { consumer := c
          err := some ("reconciliation cancelled during backoff for transaction "
            ++ evt.TransactionID)
          actions := acts1 }
      else
        let acts2 := acts1 ++ [ConsumerAction.reconcile attempt]
        match env.reconcile attempt with
        | some err =>
          if (attempt : Int) = c.maxRetries - 1 then
            { consumer := c
              err := some ("failed to reconcile transaction " ++ evt.TransactionID ++ " after "
                ++ toString c.maxRetries ++ " attempts: " ++ err)
              actions := acts2 }
          else c.retryLoop env evt fuel (attempt + 1) (some err) acts2
        | none =>
          { consumer := c.markAsProcessed evt.TransactionID, err := none, actions := acts2 }

/-- Method `processEvent`. The fuel `c.maxRetries.toNat` is the number of iterations the
loop `for attempt := 0; attempt < c.maxRetries; attempt++` can make. -/
def ReconciliationConsumer.processEvent (c : ReconciliationConsumer) (env : EventEnv)
    (evt : FailedTransactionEvent) : EventResult :=
  if c.isAlreadyProcessed evt.TransactionID then
    { consumer := c, err := none, actions := [] }
  else c.retryLoop env evt c.maxRetries.toNat 0 none []

/-- The actions of the retry loop when no attempt succeeds and nothing is cancelled, for the
`n` iterations from attempt index `attempt` on: before every attempt but attempt 0 a backoff
of `calculateBackoff attempt`, then the call of `reconcile`. -/
def ReconciliationConsumer.scheduleFrom (c : ReconciliationConsumer) :
    Nat → Nat → List ConsumerAction
  | _, 0 => []
  | attempt, n + 1 =>
    (if attempt > 0 then [ConsumerAction.backoff (c.calculateBackoff attempt)] else [])
      ++ ConsumerAction.reconcile attempt :: c.scheduleFrom (attempt + 1) n

/-- Surroundings of `processEvent` without cancellation in which `reconcile` fails in the
attempts with index below `k` and succeeds from attempt `k` on. -/
def failingFirst (k : Nat) : EventEnv :=
  { ctxDone := fun _ => false
    ctxDoneInBackoff := fun _ => false
    reconcile := fun a =>
      if a < k then some "reconciliation failed (simulated transient error)" else none }

/-- An event for a failed transaction `t2` of upload `u`. -/
def sampleEvent : FailedTransactionEvent :=
  NewFailedTransactionEvent "t2" "u" "B" "x" 1674508456 30 0

/-- A value of the interface `event.Event`: a `FailedTransactionEvent`, or a value of some
other type that implements the interface, given by its event type and event time. -/
inductive Event where
  | failedTransaction (e : FailedTransactionEvent)
  | other (eventType : String) (eventTime : Int)
  deriving DecidableEq, Repr

/-- Method `EventType` of the interface `event.Event`. -/
def Event.EventType : Event → String
  | .failedTransaction e => e.EventType
  | .other eventType _ => eventType

/-- What the `worker` loop does with one event received from the channel: a
`FailedTransactionEvent` goes to `processEvent`, whose error is only logged; an event of
another type is logged and dropped. -/
def ReconciliationConsumer.handleEvent (c : ReconciliationConsumer) (env : EventEnv)
    (evt : Event) : EventResult :=
  match evt with
  | .failedTransaction e => c.processEvent env e
  | .other _ _ => { consumer := c, err := none, actions := [] }

/-- The consumer after a sequence of deliveries handled one after the other, each with its
own surroundings. -/
def ReconciliationConsumer.handleAll (c : ReconciliationConsumer) :
    List (EventEnv × Event) → ReconciliationConsumer
  | [] => c
  | (env, evt) :: rest => (c.handleEvent env evt).consumer.handleAll rest

/-- Whether a reconciliation attempt recorded in the result returned success. -/
def EventResult.reconciled (env : EventEnv) (r : EventResult) : Bool :=
  r.actions.any (fun a =>
    match a with
    | .reconcile attempt => (env.reconcile attempt).isNone
    | .backoff _ => false)

/-- The transaction IDs of the deliveries of a sequence in whose handling a reconciliation
attempt returned success, in order of delivery. -/
def ReconciliationConsumer.reconciledIDs (c : ReconciliationConsumer) :
    List (EventEnv × Event) → List String
  | [] => []
  | (env, evt) :: rest =>
    (match evt with
      | .failedTransaction e =>
        if (c.processEvent env e).reconciled env then [e.TransactionID] else []
      | .other _ _ => [])
      ++ (c.handleEvent env evt).consumer.reconciledIDs rest

/-- Surroundings of `processEvent` without cancellation in which every attempt fails. -/
def alwaysFailing : EventEnv :=
  { ctxDone := fun _ => false
    ctxDoneInBackoff := fun _ => false
    reconcile := fun _ => some "reconciliation failed (simulated transient error)" }

/-! ## Package `event`: the bus -/

/-- A channel of events, `chan Event`: the buffered events, oldest first, the capacity it
was made with, and whether it has been closed. -/
structure Chan where
  buffer : List Event
  capacity : Int
  closed : Bool
  deriving DecidableEq, Repr

/-- Result of an operation that may not return: it returns a value, or blocks on a channel
with no room (nothing in this development receives), or panics. -/
inductive Outcome (α : Type) where
  | done (a : α)
  | blocks
  | panics
  deriving DecidableEq, Repr

/-- Struct `event.bus` without its context and mutex. `chans` holds every channel made by
`Subscribe`, in order of creation; a channel value is its index in `chans`, and
`subscribers` is the slice of channel values. -/
structure bus where
  chans : List Chan
  subscribers : List Nat
  bufferSize : Int
  closed : Bool
  deriving DecidableEq, Repr

/-- Constructor `NewBusWithBuffer`. -/
def NewBusWithBuffer (bufferSize : Int) : bus :=
  { chans := [], subscribers := [], bufferSize := bufferSize, closed := false }

/-- Constructor `NewBus`. -/
def NewBus : bus := NewBusWithBuffer 100

/-- Send statement `ch <- event`: panics on a closed channel, blocks when the buffer has no
room, and otherwise appends the event to the buffer. -/
def chanSend (chans : List Chan) (ch : Nat) (event : Event) : Outcome (List Chan) :=
  match chans[ch]? with
  | none => .panics
  | some c =>
    if c.closed then .panics
    else if (c.buffer.length : Int) ≥ c.capacity then .blocks
    else .done (chans.set ch { c with buffer := c.buffer ++ [event] })

/-- The loop `for _, ch := range b.subscribers { ch <- event }` of `Publish`. -/
def publishLoop (event : Event) : List Nat → List Chan → Outcome (List Chan)
  | [], chans => .done chans
  | ch :: rest, chans =>
    match chanSend chans ch event with
    | .done chans1 => publishLoop event rest chans1
    | .blocks => .blocks
    | .panics => .panics

/-- Method `bus.Publish`. -/
def bus.Publish (b : bus) (event : Event) : Outcome bus :=
  if b.closed then .done b
  else
    match publishLoop event b.subscribers b.chans with
    | .done chans => .done { b with chans := chans }
    | .blocks => .blocks
    | .panics => .panics

/-- Method `bus.Subscribe`: the bus afterwards and the returned channel. On a closed bus the
channel is made without buffer and closed at once; `make` panics for a negative size. -/
def bus.Subscribe (b : bus) : Outcome (bus × Nat) :=
  if b.closed then
    .done ({ b with chans := b.chans ++ [{ buffer := [], capacity := 0, closed := true }] },
      b.chans.length)
  else if b.bufferSize < 0 then .panics
  else
    .done ({ b with
        chans := b.chans ++ [{ buffer := [], capacity := b.bufferSize, closed := false }]
        subscribers := b.subscribers ++ [b.chans.length] },
      b.chans.length)

/-- Statement `close(ch)`: panics on a channel that is closed already. -/
def chanClose (chans : List Chan) (ch : Nat) : Outcome (List Chan) :=
  match chans[ch]? with
  | none => .panics
  | some c => if c.closed then .panics else .done (chans.set ch { c with closed := true })

/-- The loop `for i, ch := range b.subscribers { close(ch) }` of `Close`. -/
def closeLoop : List Nat → List Chan → Outcome (List Chan)
  | [], chans => .done chans
  | ch :: rest, chans =>
    match chanClose chans ch with
    | .done chans1 => closeLoop rest chans1
    | .blocks => .blocks
    | .panics => .panics

/-- Method `bus.Close`. -/
def bus.Close (b : bus) : Outcome bus :=
  if b.closed then .done b
  else
    match closeLoop b.subscribers b.chans with
    | .done chans => .done { b with closed := true, chans := chans, subscribers := [] }
    | .blocks => .blocks
    | .panics => .panics

/-- Method `bus.GetSubscriberCount`. -/
def bus.GetSubscriberCount (b : bus) : Int := b.subscribers.length

/-- A call on the bus. -/
inductive BusOp where
  | subscribe
  | publish (event : Event)
  | close
  deriving DecidableEq, Repr

/-- One call on the bus; the channel returned by `Subscribe` is dropped. -/
def bus.step (b : bus) : BusOp → Outcome bus
  | .subscribe =>
    match b.Subscribe with
    | .done (b1, _) => .done b1
    | .blocks => .blocks
    | .panics => .panics
  | .publish event => b.Publish event
  | .close => b.Close

/-- A sequence of calls on the bus, one at a time. -/
def bus.exec (b : bus) : List BusOp → Outcome bus
  | [] => .done b
  | op :: rest =>
    match b.step op with
    | .done b1 => b1.exec rest
    | .blocks => .blocks
    | .panics => .panics

/-- The events of the `Publish` calls of a sequence of calls, in order. -/
def eventsOf (ops : List BusOp) : List Event :=
  ops.filterMap (fun op => match op with
    | .publish event => some event
    | _ => none)

/-- Number of `Subscribe` calls in a sequence of calls. -/
def subscribeCount (ops : List BusOp) : Nat :=
  ops.countP (fun op => op = BusOp.subscribe)

/-- The well-formedness of the states of the bus: the subscriber list holds pairwise
distinct channels, each of them a channel of `chans` that is open, and the list of a closed
bus is empty. -/
def bus.WF (b : bus) : Prop :=
  b.subscribers.Nodup
    ∧ (∀ ch ∈ b.subscribers, ∃ c, b.chans[ch]? = some c ∧ c.closed = false)
    ∧ (b.closed = true → b.subscribers = [])

/-- The event `sampleEvent` as a value of the interface. -/
def sampleBusEvent : Event := Event.failedTransaction sampleEvent

/-- A sequence of calls: a subscriber, an event, a second subscriber, a second event. -/
def sampleOps : List BusOp :=
  [BusOp.subscribe, BusOp.publish sampleBusEvent, BusOp.subscribe,
    BusOp.publish (Event.other "heartbeat" 7)]

/-- The bus after `sampleOps` on a bus with buffers of 100 events. -/
def sampleBus : bus :=
  { chans :=
      [ { buffer := [sampleBusEvent, Event.other "heartbeat" 7], capacity := 100,
          closed := false },
        { buffer := [Event.other "heartbeat" 7], capacity := 100, closed := false } ]
    subscribers := [0, 1]
    bufferSize := 100
    closed := false }

/-- The bus after `sampleOps` and `Close`. -/
def sampleClosedBus : bus :=
  { chans :=
      [ { buffer := [sampleBusEvent, Event.other "heartbeat" 7], capacity := 100,
          closed := true },
        { buffer := [Event.other "heartbeat" 7], capacity := 100, closed := true } ]
    subscribers := []
    bufferSize := 100
    closed := true }

/-! ## Package `usecase`: balance and issues -/

/-- Struct `usecase.GetBalanceResult`; the pointer `Balance` is an `Option`. -/
structure GetBalanceResult where
  UploadID : String
  Balance : Option Int
  UploadTaskStatus : String
  UploadTaskMessage : String
  deriving DecidableEq, Repr

/-- Method `balance.Get` on the two repositories the use case holds. -/
def balance.Get (transactionRepo : transactionRepository) (uploadRepo : uploadRepository)
    (uploadID : String) : Except String GetBalanceResult :=
  match uploadRepo.GetByID uploadID with
  | .error err => .error err
  | .ok task =>
    let response : GetBalanceResult :=
      { UploadID := uploadID, Balance := none, UploadTaskStatus := task.Status,
        UploadTaskMessage := task.Message }
    if task.Status ≠ upload.StatusCompleted then .ok response
    else .ok { response with Balance := some (transactionRepo.GetBalanceByUploadID uploadID) }

/-- Struct `usecase.IssuesResult`. -/
structure IssuesResult where
  Transactions : List Transaction
  TotalCount : Int
  deriving DecidableEq, Repr

/-- Method `issues.GetIssues` on the two repositories the use case holds; `none` when the
repository call panics. -/
def issues.GetIssues (transactionRepo : transactionRepository) (uploadRepo : uploadRepository)
    (filters : IssuesFilters) : Option (Except String IssuesResult) :=
  match uploadRepo.GetByID filters.UploadID with
  | .error _ => some (.error "upload not found")
  | .ok _ =>
    match transactionRepo.GetIssuesWithFilters filters with
    | none => none
    | some (_, _, some err) => some (.error err)
    | some (transactions, totalCount, none) =>
      some (.ok { Transactions := transactions, TotalCount := totalCount })

/-- The `Update` calls of a trace, in order. -/
def updatesOf (tr : List Effect) : List (upload.Task × Option String) :=
  tr.filterMap (fun e => match e with
    | Effect.update info err => some (info, err)
    | _ => none)

/-- The records that the calls of a trace read, in order (the header included). -/
def recordsReadOf (tr : List Effect) : List (List String) :=
  tr.filterMap (fun e => match e with
    | Effect.read (some (.ok record)) => some record
    | _ => none)

/-- The transactions that `parseTransaction` makes of the rows of a file for an upload,
the row with index `j` in the list getting the generated ID `env.newID (k + j)`; a row that
does not parse contributes nothing. -/
def statement.parseRows (env : RunEnv) (uploadID : String) :
    Nat → List (List String) → List Transaction
  | _, [] => []
  | k, row :: rest =>
    (match statement.parseTransaction row uploadID (env.newID k) with
      | .ok t => [t]
      | .error _ => [])
      ++ statement.parseRows env uploadID (k + 1) rest

/-- The state of the use case after an iteration of the row loop that read `record`,
parsed it into `t` and persisted `t`, `repo` being the transaction repository after the
`Save`: the calls are recorded, with the `Publish` call when the status is `FAILED`. -/
def statement.afterRow (env : RunEnv) (uc : statement) (uploadID : String)
    (record : List String) (t : Transaction) (repo : transactionRepository) : statement :=
  let uc1 : statement :=
    { uc with
      transactionRepo := repo
      trace := uc.trace ++ [Effect.read (some (.ok record))] ++ [Effect.save t none] }
  if t.Status = transaction.StatusFailed then
    { uc1 with
      trace := uc1.trace ++ [Effect.publish (NewFailedTransactionEvent t.ID uploadID
        t.Counterparty t.Description t.Timestamp t.Amount (env.now uc1.trace.length))] }
  else uc1

/-- Every `Save` of a sequence of `Save` calls stores its transaction. -/
def SavesOk : transactionRepository → List Transaction → Prop
  | _, [] => True
  | tr, t :: ts => SaveOk tr t ∧ SavesOk (tr.Save (some t)).1 ts

instance (tr : transactionRepository) (t : Transaction) : Decidable (SaveOk tr t) := by
  unfold SaveOk; exact inferInstance

instance SavesOk.decidable : ∀ (tr : transactionRepository) (ts : List Transaction),
    Decidable (SavesOk tr ts)
  | _, [] => isTrue trivial
  | tr, t :: ts =>
    have := SavesOk.decidable (tr.Save (some t)).1 ts
    (inferInstance : Decidable (SaveOk tr t ∧ SavesOk (tr.Save (some t)).1 ts))

/-- The rows of the worked example: a successful credit of 100 and a failed debit of 30. -/
def exampleRows : List (List String) :=
  [ ["1", "A", "CREDIT", "100", "SUCCESS", "pay"],
    ["2", "B", "DEBIT", "30", "FAILED", "x"] ]

/-! ## Further definitions for the statements about retries, updates and paging -/

/-- The attempt indices of the `reconcile` calls among the actions of `processEvent`, in
order. -/
def attemptsOf (acts : List ConsumerAction) : List Nat :=
  acts.filterMap (fun a => match a with
    | ConsumerAction.reconcile attempt => some attempt
    | ConsumerAction.backoff _ => none)

/-- The upload repository after a sequence of `Update` calls whose errors are discarded. -/
def updateAll (u : uploadRepository) (infos : List upload.Task) : uploadRepository :=
  infos.foldl (fun r info => (r.Update info).1) u

/-- A stored task after an `Update` with the given value. -/
def upload.Task.updatedWith (stored updateValue : upload.Task) : upload.Task :=
  { stored with
    Message := updateValue.Message
    Status := updateValue.Status
    CompletedAt := updateValue.CompletedAt }

/-- A `SUCCESS` credit of upload `u` with amount 0. -/
def zeroCredit : Transaction := mkTransaction "1" "u" "CREDIT" "SUCCESS" 0

/-- A page number and a page size within the ranges of the HTTP handler (`Page ≥ 1`,
`1 ≤ PageSize ≤ 100`) whose offset `(Page - 1) * PageSize` is `2^63`. -/
def overflowFilters : IssuesFilters := plainFilters "u" 144115188075855873 64

/-- Surroundings of a run of `processStatement` as `sampleEnv`, but with the context done
from the check before the data record with index `k` on. -/
def cancelledAt (k : Nat) : RunEnv :=
  { sampleEnv with ctxDone := fun j => decide (k ≤ j) }

/-- A well-formed data row with status `FAILED`. -/
def failedRow : List String :=
  ["1674508456", "JANE SMITH", "DEBIT", "75000", "FAILED", "payment failed"]

/-- A well-formed data row with status `SUCCESS`. -/
def successRow : List String :=
  ["1674507883", "JOHN DOE", "DEBIT", "250000", "SUCCESS", "restaurant"]

/-! ## Lemmas: machine integers and maps -/

theorem wrap64_add_wrap (a b : Int) : wrap64 (wrap64 a + b) = wrap64 (a + b) := by
  unfold wrap64; omega

theorem wrap64_sub_wrap (a b : Int) : wrap64 (wrap64 a - b) = wrap64 (a - b) := by
  unfold wrap64; omega

theorem wrap64_wrap (a : Int) : wrap64 (wrap64 a) = wrap64 a := by
  unfold wrap64; omega

theorem wrap64_of_isInt64 (a : Int) (h : isInt64 a) : wrap64 a = a := by
  unfold isInt64 minInt64 maxInt64 at h; unfold wrap64; omega

theorem wrap64_isInt64 (a : Int) : isInt64 (wrap64 a) := by
  unfold isInt64 minInt64 maxInt64 wrap64; omega

theorem mapGet_mapSet {V : Type} (m : GoMap V) (k k' : String) (v : V) :
    mapGet (mapSet m k v) k' = if k = k' then some v else mapGet m k' := by
  induction m with
  | nil => simp [mapSet, mapGet]
  | cons p rest ih =>
    obtain ⟨k0, v0⟩ := p
    by_cases h : k0 = k
    · subst h
      by_cases h2 : k0 = k' <;> simp [mapSet, mapGet, h2]
    · by_cases h2 : k0 = k'
      · subst h2
        simp [mapSet, mapGet, h, Ne.symm h]
      · simp [mapSet, mapGet, h, h2, ih]

theorem mapSet_of_get_none {V : Type} (m : GoMap V) (k : String) (v : V)
    (h : mapGet m k = none) : mapSet m k v = m ++ [(k, v)] := by
  induction m with
  | nil => simp [mapSet]
  | cons p rest ih =>
    obtain ⟨k0, v0⟩ := p
    by_cases h0 : k0 = k
    · simp [mapGet, h0] at h
    · simp [mapGet, h0] at h
      simp [mapSet, h0, ih h]

theorem mapGet_isSome_iff {V : Type} (m : GoMap V) (k : String) :
    (mapGet m k).isSome ↔ k ∈ mapKeys m := by
  induction m with
  | nil => simp [mapGet, mapKeys]
  | cons p rest ih =>
    obtain ⟨k0, v0⟩ := p
    by_cases h0 : k0 = k
    · simp [mapGet, mapKeys, h0]
    · simp only [mapKeys] at ih
      simp [mapGet, mapKeys, h0, ih, Ne.symm h0]

/-! ## Lemmas: one `Save` on the transaction repository -/

theorem Save_err_none_iff (tr : transactionRepository) (t : Transaction) :
    (tr.Save (some t)).2 = none ↔ SaveOk tr t := by
  unfold SaveOk transactionRepository.Save
  by_cases h1 : t.ID = ""
  · simp [h1]
  · by_cases h2 : t.UploadID = ""
    · simp [h1, h2]
    · cases h3 : mapGet tr.transactions t.ID with
      | none => by_cases h4 : t.Status = transaction.StatusSuccess <;> simp [h1, h2, h3, h4]
      | some x => simp [h1, h2, h3]

theorem Save_state_of_not_ok (tr : transactionRepository) (t : Transaction)
    (h : ¬ SaveOk tr t) : (tr.Save (some t)).1 = tr := by
  unfold SaveOk at h
  unfold transactionRepository.Save
  by_cases h1 : t.ID = ""
  · simp [h1]
  · by_cases h2 : t.UploadID = ""
    · simp [h1, h2]
    · cases h3 : mapGet tr.transactions t.ID with
      | none => exact absurd ⟨h1, h2, h3⟩ h
      | some x => simp [h1, h2, h3]

theorem Save_transactions (tr : transactionRepository) (t : Transaction) (h : SaveOk tr t) :
    (tr.Save (some t)).1.transactions = tr.transactions ++ [(t.ID, t)] := by
  obtain ⟨h1, h2, h3⟩ := h
  unfold transactionRepository.Save
  by_cases h4 : t.Status = transaction.StatusSuccess <;>
    simp [h1, h2, h3, h4, mapSet_of_get_none]

theorem Save_balance (tr : transactionRepository) (t : Transaction) (h : SaveOk tr t)
    (u : String) :
    (tr.Save (some t)).1.GetBalanceByUploadID u =
      if t.UploadID = u ∧ t.Status = transaction.StatusSuccess then
        (if t.Type_ = transaction.TypeCredit then
          wrap64 (tr.GetBalanceByUploadID u + t.Amount)
        else if t.Type_ = transaction.TypeDebit then
          wrap64 (tr.GetBalanceByUploadID u - t.Amount)
        else tr.GetBalanceByUploadID u)
      else tr.GetBalanceByUploadID u := by
  obtain ⟨h1, h2, h3⟩ := h
  unfold transactionRepository.Save transactionRepository.GetBalanceByUploadID
  by_cases h4 : t.Status = transaction.StatusSuccess
  · by_cases h5 : t.UploadID = u
    · subst h5
      simp [h1, h2, h3, h4, mapGet_mapSet]
    · simp [h1, h2, h3, h4, h5, mapGet_mapSet]
  · simp [h1, h2, h3, h4]

theorem Save_issues (tr : transactionRepository) (t : Transaction) (h : SaveOk tr t)
    (u : String) :
    mapGet (tr.Save (some t)).1.uploadIdToIssues u =
      if t.UploadID = u ∧ t.Status ≠ transaction.StatusSuccess then
        some ((mapGet tr.uploadIdToIssues u).getD [] ++ [t])
      else mapGet tr.uploadIdToIssues u := by
  obtain ⟨h1, h2, h3⟩ := h
  unfold transactionRepository.Save
  by_cases h4 : t.Status = transaction.StatusSuccess
  · simp [h1, h2, h3, h4]
  · by_cases h5 : t.UploadID = u
    · subst h5
      simp [h1, h2, h3, h4, mapGet_mapSet]
    · simp [h1, h2, h3, h4, h5, mapGet_mapSet]

/-! ## Lemmas: sequences of `Save` calls on a fresh repository -/

theorem saveAll_append_singleton (tr : transactionRepository) (ts : List Transaction)
    (t : Transaction) : saveAll tr (ts ++ [t]) = ((saveAll tr ts).Save (some t)).1 := by
  simp [saveAll, List.foldl_append]

theorem accepted_append_singleton (ts : List Transaction) (t : Transaction) :
    accepted (ts ++ [t]) =
      if t.ID ≠ "" ∧ t.UploadID ≠ "" ∧ t.ID ∉ (accepted ts).map (fun s => s.ID) then
        accepted ts ++ [t]
      else accepted ts := by
  simp [accepted, List.foldl_append]

/-- The stored transactions after a sequence of `Save` calls on a fresh repository are the
accepted ones, each under its own ID, in save order. -/
theorem saveAll_transactions (ts : List Transaction) :
    (saveAll NewTransactionRepository ts).transactions =
      (accepted ts).map (fun t => (t.ID, t)) := by
  induction ts using List.reverseRecOn with
  | nil => simp [saveAll, accepted, NewTransactionRepository]
  | append_singleton l t ih =>
    rw [saveAll_append_singleton, accepted_append_singleton]
    have hkeys : mapGet (saveAll NewTransactionRepository l).transactions t.ID = none ↔
        t.ID ∉ (accepted l).map (fun s => s.ID) := by
      rw [← Option.not_isSome_iff_eq_none, mapGet_isSome_iff, ih]
      simp [mapKeys]
    by_cases hok : SaveOk (saveAll NewTransactionRepository l) t
    · rw [Save_transactions _ _ hok, ih]
      have h3 := hkeys.mp hok.2.2
      rw [if_pos ⟨hok.1, hok.2.1, h3⟩]
      simp
    · rw [Save_state_of_not_ok _ _ hok, ih]
      have : ¬ (t.ID ≠ "" ∧ t.UploadID ≠ "" ∧ t.ID ∉ (accepted l).map (fun s => s.ID)) := by
        intro h
        exact hok ⟨h.1, h.2.1, hkeys.mpr h.2.2⟩
      rw [if_neg this]

theorem saveOk_saveAll_iff (ts : List Transaction) (t : Transaction) :
    SaveOk (saveAll NewTransactionRepository ts) t ↔
      t.ID ≠ "" ∧ t.UploadID ≠ "" ∧ t.ID ∉ (accepted ts).map (fun s => s.ID) := by
  unfold SaveOk
  rw [← Option.not_isSome_iff_eq_none, mapGet_isSome_iff, saveAll_transactions]
  simp [mapKeys]

theorem filter_append_singleton {α : Type} (p : α → Bool) (l : List α) (a : α) :
    (l ++ [a]).filter p = if p a = true then l.filter p ++ [a] else l.filter p := by
  rw [List.filter_append]
  by_cases h : p a = true
  · rw [if_pos h, List.filter_cons_of_pos h, List.filter_nil]
  · rw [if_neg h, List.filter_cons_of_neg h, List.filter_nil, List.append_nil]

theorem sumAmounts_successfulOf_append_singleton (u ty : String) (ts : List Transaction)
    (t : Transaction) :
    sumAmounts (successfulOf u ty (ts ++ [t])) =
      sumAmounts (successfulOf u ty ts) +
        (if t.UploadID = u ∧ t.Status = transaction.StatusSuccess ∧ t.Type_ = ty then t.Amount
         else 0) := by
  unfold successfulOf
  rw [filter_append_singleton]
  by_cases h : t.UploadID = u ∧ t.Status = transaction.StatusSuccess ∧ t.Type_ = ty
  · rw [if_pos (decide_eq_true h), if_pos h]
    simp [sumAmounts]
  · rw [if_neg (by simpa using h), if_neg h]
    simp

theorem typeCredit_ne_typeDebit : transaction.TypeCredit ≠ transaction.TypeDebit := by decide

theorem netAmount_append_singleton (u : String) (ts : List Transaction) (t : Transaction) :
    netAmount u (ts ++ [t]) =
      if t.UploadID = u ∧ t.Status = transaction.StatusSuccess then
        (if t.Type_ = transaction.TypeCredit then netAmount u ts + t.Amount
        else if t.Type_ = transaction.TypeDebit then netAmount u ts - t.Amount
        else netAmount u ts)
      else netAmount u ts := by
  unfold netAmount
  rw [sumAmounts_successfulOf_append_singleton, sumAmounts_successfulOf_append_singleton]
  by_cases h1 : t.UploadID = u ∧ t.Status = transaction.StatusSuccess
  · rw [if_pos h1]
    by_cases h3 : t.Type_ = transaction.TypeCredit
    · have h4 : t.Type_ ≠ transaction.TypeDebit := by
        rw [h3]; exact typeCredit_ne_typeDebit
      rw [if_pos h3, if_pos ⟨h1.1, h1.2, h3⟩, if_neg (fun h => h4 h.2.2)]
      ring
    · rw [if_neg h3, if_neg (fun h => h3 h.2.2)]
      by_cases h4 : t.Type_ = transaction.TypeDebit
      · rw [if_pos h4, if_pos ⟨h1.1, h1.2, h4⟩]
        ring
      · rw [if_neg h4, if_neg (fun h => h4 h.2.2)]
        ring
  · rw [if_neg h1, if_neg (fun h => h1 ⟨h.1, h.2.1⟩), if_neg (fun h => h1 ⟨h.1, h.2.1⟩)]
    ring

/-- The balance of every upload after a sequence of `Save` calls on a fresh repository is
the wrapped net amount of the accepted transactions. -/
theorem saveAll_balance (ts : List Transaction) (u : String) :
    (saveAll NewTransactionRepository ts).GetBalanceByUploadID u =
      wrap64 (netAmount u (accepted ts)) := by
  induction ts using List.reverseRecOn with
  | nil =>
    simp [saveAll, accepted, NewTransactionRepository, netAmount, successfulOf, sumAmounts,
      transactionRepository.GetBalanceByUploadID, mapGet, wrap64]
  | append_singleton l t ih =>
    rw [saveAll_append_singleton, accepted_append_singleton]
    by_cases hok : SaveOk (saveAll NewTransactionRepository l) t
    · rw [Save_balance _ _ hok, if_pos ((saveOk_saveAll_iff l t).mp hok),
        netAmount_append_singleton, ih]
      by_cases h1 : t.UploadID = u ∧ t.Status = transaction.StatusSuccess
      · rw [if_pos h1, if_pos h1]
        by_cases h3 : t.Type_ = transaction.TypeCredit
        · rw [if_pos h3, if_pos h3, wrap64_add_wrap]
        · rw [if_neg h3, if_neg h3]
          by_cases h4 : t.Type_ = transaction.TypeDebit
          · rw [if_pos h4, if_pos h4, wrap64_sub_wrap]
          · rw [if_neg h4, if_neg h4]
      · rw [if_neg h1, if_neg h1]
    · rw [Save_state_of_not_ok _ _ hok,
        if_neg (fun h => hok ((saveOk_saveAll_iff l t).mpr h)), ih]

theorem issuesOf_append_singleton (u : String) (ts : List Transaction) (t : Transaction) :
    issuesOf u (ts ++ [t]) =
      if t.UploadID = u ∧ t.Status ≠ transaction.StatusSuccess then issuesOf u ts ++ [t]
      else issuesOf u ts := by
  unfold issuesOf
  rw [filter_append_singleton]
  by_cases h : t.UploadID = u ∧ t.Status ≠ transaction.StatusSuccess
  · rw [if_pos (decide_eq_true h), if_pos h]
  · rw [if_neg (by simpa using h), if_neg h]

/-- The issues list of every upload after a sequence of `Save` calls on a fresh repository:
absent when no accepted transaction of the upload is an issue, and otherwise the accepted
non-`SUCCESS` transactions of the upload in save order. -/
theorem saveAll_issues (ts : List Transaction) (u : String) :
    mapGet (saveAll NewTransactionRepository ts).uploadIdToIssues u =
      if issuesOf u (accepted ts) = [] then none else some (issuesOf u (accepted ts)) := by
  induction ts using List.reverseRecOn with
  | nil => simp [saveAll, accepted, NewTransactionRepository, issuesOf, mapGet]
  | append_singleton l t ih =>
    rw [saveAll_append_singleton, accepted_append_singleton]
    by_cases hok : SaveOk (saveAll NewTransactionRepository l) t
    · rw [Save_issues _ _ hok, if_pos ((saveOk_saveAll_iff l t).mp hok),
        issuesOf_append_singleton, ih]
      by_cases h1 : t.UploadID = u ∧ t.Status ≠ transaction.StatusSuccess
      · rw [if_pos h1, if_pos h1]
        by_cases h2 : issuesOf u (accepted l) = [] <;> simp [h2]
      · rw [if_neg h1, if_neg h1]
    · rw [Save_state_of_not_ok _ _ hok,
        if_neg (fun h => hok ((saveOk_saveAll_iff l t).mpr h)), ih]

theorem accepted_subset (ts : List Transaction) : ∀ t ∈ accepted ts, t ∈ ts := by
  induction ts using List.reverseRecOn with
  | nil => simp [accepted]
  | append_singleton l a ih =>
    intro t ht
    rw [accepted_append_singleton] at ht
    split at ht
    · rcases List.mem_append.mp ht with h | h
      · exact List.mem_append_left _ (ih t h)
      · exact List.mem_append_right _ h
    · exact List.mem_append_left _ (ih t ht)

/-- With pairwise distinct IDs, the accepted transactions are those with a non-empty ID and
a non-empty upload ID. -/
theorem accepted_eq_filter_of_nodup (ts : List Transaction)
    (hnd : (ts.map (fun t => t.ID)).Nodup) :
    accepted ts = ts.filter (fun t => t.ID ≠ "" ∧ t.UploadID ≠ "") := by
  induction ts using List.reverseRecOn with
  | nil => simp [accepted]
  | append_singleton l a ih =>
    rw [List.map_append, List.nodup_append] at hnd
    obtain ⟨hl, -, hdis⟩ := hnd
    have hnot : a.ID ∉ (accepted l).map (fun s => s.ID) := by
      intro hmem
      obtain ⟨s, hs, hsid⟩ := List.mem_map.mp hmem
      have h1 : a.ID ∈ l.map (fun t => t.ID) :=
        List.mem_map.mpr ⟨s, accepted_subset l s hs, hsid⟩
      exact hdis h1 (by simp)
    rw [accepted_append_singleton, filter_append_singleton, ih hl]
    by_cases h : a.ID ≠ "" ∧ a.UploadID ≠ ""
    · rw [if_pos ⟨h.1, h.2, by rw [← ih hl]; exact hnot⟩, if_pos (decide_eq_true h)]
    · rw [if_neg (fun h' => h ⟨h'.1, h'.2.1⟩), if_neg (by simpa using h)]

theorem accepted_eq_self (ts : List Transaction) (hid : ∀ t ∈ ts, t.ID ≠ "")
    (hup : ∀ t ∈ ts, t.UploadID ≠ "") (hnd : (ts.map (fun t => t.ID)).Nodup) :
    accepted ts = ts := by
  rw [accepted_eq_filter_of_nodup ts hnd, List.filter_eq_self]
  intro t ht
  exact decide_eq_true ⟨hid t ht, hup t ht⟩

theorem netAmount_perm (u : String) (l l' : List Transaction) (h : l.Perm l') :
    netAmount u l = netAmount u l' := by
  unfold netAmount successfulOf sumAmounts
  rw [((h.filter _).map _).sum_eq, ((h.filter _).map _).sum_eq]

theorem netAmount_filter_success (u : String) (ts : List Transaction) :
    netAmount u (ts.filter (fun t => t.Status = transaction.StatusSuccess)) = netAmount u ts := by
  unfold netAmount successfulOf
  rw [List.filter_filter, List.filter_filter]
  have e : ∀ ty : String,
      (fun t : Transaction =>
        (decide (t.UploadID = u ∧ t.Status = transaction.StatusSuccess ∧ t.Type_ = ty)
          && decide (t.Status = transaction.StatusSuccess))) =
      (fun t : Transaction =>
        decide (t.UploadID = u ∧ t.Status = transaction.StatusSuccess ∧ t.Type_ = ty)) := by
    intro ty
    funext t
    by_cases h : t.Status = transaction.StatusSuccess <;> simp [h]
  rw [e, e]

/-! ## Theorems: balance of the transaction repository -/

/-- C1: after saving, into a fresh transaction repository, any transactions with non-empty
IDs, non-empty upload IDs and pairwise distinct IDs, the balance of every upload ID `u` is
the sum of the amounts of the saved `SUCCESS` `CREDIT` transactions of `u` minus the sum of
the amounts of its saved `SUCCESS` `DEBIT` transactions, in `int64` arithmetic; the
transactions whose status is not `SUCCESS` contribute nothing (dropping them from the
sequence leaves the balance unchanged), and an upload ID with no saved transaction has
balance 0. -/
theorem getBalance_eq_credits_minus_debits (ts : List Transaction)
    (hid : ∀ t ∈ ts, t.ID ≠ "") (hup : ∀ t ∈ ts, t.UploadID ≠ "")
    (hnd : (ts.map (fun t => t.ID)).Nodup) (u : String) :
    (saveAll NewTransactionRepository ts).GetBalanceByUploadID u =
        wrap64 (sumAmounts (successfulOf u transaction.TypeCredit ts)
          - sumAmounts (successfulOf u transaction.TypeDebit ts))
      ∧ (saveAll NewTransactionRepository ts).GetBalanceByUploadID u =
          (saveAll NewTransactionRepository
            (ts.filter (fun t => t.Status = transaction.StatusSuccess))).GetBalanceByUploadID u
      ∧ ((∀ t ∈ ts, t.UploadID ≠ u) →
          (saveAll NewTransactionRepository ts).GetBalanceByUploadID u = 0) := by
  have hbal : (saveAll NewTransactionRepository ts).GetBalanceByUploadID u =
      wrap64 (netAmount u ts) := by
    rw [saveAll_balance, accepted_eq_self ts hid hup hnd]
  refine ⟨hbal, ?_, ?_⟩
  · have hsub : ∀ t ∈ ts.filter (fun t => t.Status = transaction.StatusSuccess), t ∈ ts :=
      fun t ht => (List.mem_filter.mp ht).1
    rw [hbal, saveAll_balance,
      accepted_eq_self _ (fun t ht => hid t (hsub t ht)) (fun t ht => hup t (hsub t ht))
        ((List.filter_sublist ts).map _ |>.nodup hnd),
      netAmount_filter_success]
  · intro hnone
    rw [hbal]
    have hempty : ∀ ty : String, successfulOf u ty ts = [] := by
      intro ty
      unfold successfulOf
      rw [List.filter_eq_nil_iff]
      intro t ht
      have := hnone t ht
      simp [this]
    unfold netAmount
    rw [hempty, hempty]
    simp [sumAmounts, wrap64]

/-- C4: the balance is order-independent: saving a collection of transactions with pairwise
distinct IDs into a fresh transaction repository in two different orders gives the same
balance for every upload ID. -/
theorem getBalance_order_independent (ts ts' : List Transaction)
    (hnd : (ts.map (fun t => t.ID)).Nodup) (hperm : ts.Perm ts') (u : String) :
    (saveAll NewTransactionRepository ts).GetBalanceByUploadID u =
      (saveAll NewTransactionRepository ts').GetBalanceByUploadID u := by
  have hnd' : (ts'.map (fun t => t.ID)).Nodup := (hperm.map _).nodup_iff.mp hnd
  rw [saveAll_balance, saveAll_balance, accepted_eq_filter_of_nodup ts hnd,
    accepted_eq_filter_of_nodup ts' hnd']
  exact congrArg wrap64 (netAmount_perm u _ _ (hperm.filter _))

/-! ## Theorems: the issues query -/

theorem mem_sliceOf {α : Type} (s : List α) (low high : Int) (a : α)
    (h : a ∈ sliceOf s low high) : a ∈ s :=
  List.mem_of_mem_drop (List.mem_of_mem_take h)

/-- Whatever `GetIssuesWithFilters` returns, the error is `nil` and every returned
transaction is in the issues list of the upload and passes the filtering loop. -/
theorem getIssues_mem (tr : transactionRepository) (filters : IssuesFilters)
    (P : List Transaction) (n : Int) (e : Option String)
    (h : tr.GetIssuesWithFilters filters = some (P, n, e)) :
    e = none ∧ ∀ t ∈ P,
      t ∈ (mapGet tr.uploadIdToIssues filters.UploadID).getD [] ∧
        issueMatches filters t = true := by
  unfold transactionRepository.GetIssuesWithFilters at h
  cases hget : mapGet tr.uploadIdToIssues filters.UploadID with
  | none =>
    rw [hget] at h
    simp only [Option.some.injEq, Prod.mk.injEq] at h
    obtain ⟨hP, -, he⟩ := h
    subst hP
    exact ⟨he.symm, by simp⟩
  | some all =>
    rw [hget] at h
    dsimp only [paginate] at h
    split_ifs at h
    all_goals
      simp only [Option.some.injEq, Prod.mk.injEq] at h
      obtain ⟨hP, -, he⟩ := h
      subst hP
      refine ⟨he.symm, fun t ht => ?_⟩
      first
      | exact absurd ht (List.not_mem_nil t)
      | (have hmem := mem_sliceOf _ _ _ t ht
         rw [List.mem_filter] at hmem
         exact ⟨by simpa using hmem.1, hmem.2⟩)

theorem saveAll_issues_getD (ts : List Transaction) (u : String) :
    (mapGet (saveAll NewTransactionRepository ts).uploadIdToIssues u).getD [] =
      issuesOf u (accepted ts) := by
  rw [saveAll_issues]
  by_cases h : issuesOf u (accepted ts) = []
  · rw [if_pos h, h]; rfl
  · rw [if_neg h]; rfl

/-- C5 (amended): every transaction that `GetIssuesWithFilters` returns after a sequence of
`Save` calls on a fresh repository has a status other than `SUCCESS`; it has status `FAILED`
or `PENDING` whenever every saved transaction carries one of the three statuses `SUCCESS`,
`FAILED`, `PENDING`; and an upload whose saved transactions are all `SUCCESS` yields the
empty list and total count 0. -/
theorem getIssues_status (ts : List Transaction) (filters : IssuesFilters)
    (P : List Transaction) (n : Int) (e : Option String)
    (h : (saveAll NewTransactionRepository ts).GetIssuesWithFilters filters = some (P, n, e)) :
    (∀ t ∈ P, t.Status ≠ transaction.StatusSuccess)
    ∧ ((∀ t ∈ ts, t.Status = transaction.StatusSuccess ∨ t.Status = transaction.StatusFailed
          ∨ t.Status = transaction.StatusPending) →
        ∀ t ∈ P, t.Status = transaction.StatusFailed ∨ t.Status = transaction.StatusPending)
    ∧ ((∀ t ∈ ts, t.UploadID = filters.UploadID → t.Status = transaction.StatusSuccess) →
        P = [] ∧ n = 0) := by
  have hmem := (getIssues_mem _ _ _ _ _ h).2
  have hissue : ∀ t ∈ P, t ∈ ts ∧ t.UploadID = filters.UploadID ∧
      t.Status ≠ transaction.StatusSuccess := by
    intro t ht
    have h1 := (hmem t ht).1
    rw [saveAll_issues_getD] at h1
    unfold issuesOf at h1
    rw [List.mem_filter] at h1
    have h2 : t.UploadID = filters.UploadID ∧ t.Status ≠ transaction.StatusSuccess :=
      of_decide_eq_true h1.2
    exact ⟨accepted_subset ts t h1.1, h2.1, h2.2⟩
  refine ⟨fun t ht => (hissue t ht).2.2, ?_, ?_⟩
  · intro hvalid t ht
    obtain ⟨hts, -, hns⟩ := hissue t ht
    rcases hvalid t hts with h1 | h1 | h1
    · exact absurd h1 hns
    · exact Or.inl h1
    · exact Or.inr h1
  · intro hall
    have hnil : issuesOf filters.UploadID (accepted ts) = [] := by
      unfold issuesOf
      rw [List.filter_eq_nil_iff]
      intro t ht hc
      have hc' : t.UploadID = filters.UploadID ∧ t.Status ≠ transaction.StatusSuccess :=
        of_decide_eq_true hc
      exact hc'.2 (hall t (accepted_subset ts t ht) hc'.1)
    have hget := saveAll_issues ts filters.UploadID
    rw [if_pos hnil] at hget
    unfold transactionRepository.GetIssuesWithFilters at h
    rw [hget] at h
    simp only [Option.some.injEq, Prod.mk.injEq] at h
    exact ⟨h.1.symm, h.2.1.symm⟩

theorem accepted_length_le (ts : List Transaction) : (accepted ts).length ≤ ts.length := by
  induction ts using List.reverseRecOn with
  | nil => simp [accepted]
  | append_singleton l a ih =>
    rw [accepted_append_singleton]
    split <;> simp <;> omega

/-- Without overflow, the pagination returns the page that `pageOf` describes, and the
length of the list as total count. -/
theorem paginate_eq_pageOf (F : List Transaction) (page pageSize : Int)
    (hp : 1 ≤ page) (hs : 1 ≤ pageSize) (hmax : pageSize ≤ maxInt64)
    (hmul : (page - 1) * pageSize ≤ maxInt64) (hlen : (F.length : Int) < 2 ^ 62) :
    paginate F page pageSize =
      some (pageOf F page.toNat pageSize.toNat, (F.length : Int), none) := by
  obtain ⟨p', hp'⟩ : ∃ p' : Nat, page - 1 = (p' : Int) := ⟨(page - 1).toNat, by omega⟩
  obtain ⟨s', hs'⟩ : ∃ s' : Nat, pageSize = (s' : Int) := ⟨pageSize.toNat, by omega⟩
  have hpage : page.toNat - 1 = p' := by omega
  have hsize : pageSize.toNat = s' := by omega
  have hs1 : 1 ≤ s' := by omega
  have hoff : (page - 1) * pageSize = ((p' * s' : Nat) : Int) := by
    rw [hp', hs']; push_cast; ring
  have hle : p' ≤ p' * s' := Nat.le_mul_of_pos_right p' hs1
  unfold maxInt64 at hmax hmul
  have hw1 : wrap64 (page - 1) = page - 1 := by
    apply wrap64_of_isInt64
    unfold isInt64 minInt64 maxInt64
    omega
  have hw2 : wrap64 ((page - 1) * pageSize) = ((p' * s' : Nat) : Int) := by
    rw [hoff]
    apply wrap64_of_isInt64
    unfold isInt64 minInt64 maxInt64
    omega
  unfold paginate pageOf
  rw [hw1, hw2, hpage, hsize]
  dsimp only
  by_cases h1 : ((p' * s' : Nat) : Int) ≥ (F.length : Int)
  · rw [if_pos h1]
    have : F.length ≤ p' * s' := by omega
    rw [List.drop_of_length_le this]
    simp
  · rw [if_neg h1]
    have hlt : p' * s' < F.length := by omega
    have hsum : ((p' * s' : Nat) : Int) + pageSize ≤ 2 ^ 63 - 1 := by
      rcases Nat.eq_zero_or_pos p' with h0 | h0
      · subst h0
        simp only [Nat.zero_mul, Nat.cast_zero, zero_add]
        exact hmax
      · have : s' ≤ p' * s' := Nat.le_mul_of_pos_left s' h0
        omega
    have hw3 : wrap64 (((p' * s' : Nat) : Int) + pageSize) = ((p' * s' + s' : Nat) : Int) := by
      rw [wrap64_of_isInt64]
      · rw [hs']; push_cast; ring
      · unfold isInt64 minInt64 maxInt64
        omega
    rw [hw3]
    by_cases h2 : ((p' * s' + s' : Nat) : Int) > (F.length : Int)
    · rw [if_pos h2, if_pos ⟨by omega, by omega⟩]
      have hlen1 : (F.drop (p' * s')).length ≤ s' := by
        rw [List.length_drop]; omega
      have hlen2 : (F.drop (p' * s')).length ≤ ((F.length : Int) - ((p' * s' : Nat) : Int)).toNat := by
        rw [List.length_drop]; omega
      unfold sliceOf
      rw [Int.toNat_ofNat, List.take_of_length_le hlen1, List.take_of_length_le hlen2]
    · rw [if_neg h2, if_pos ⟨by omega, by omega⟩]
      unfold sliceOf
      have : (((p' * s' + s' : Nat) : Int) - ((p' * s' : Nat) : Int)).toNat = s' := by omega
      rw [Int.toNat_ofNat, this]

/-- The list that the issues query pages through: the accepted transactions of the upload
whose status is not `SUCCESS` and that pass every filter present, in save order. -/
theorem getIssues_saveAll (ts : List Transaction) (filters : IssuesFilters) :
    (saveAll NewTransactionRepository ts).GetIssuesWithFilters filters =
      if issuesOf filters.UploadID (accepted ts) = [] then some ([], 0, none)
      else paginate ((issuesOf filters.UploadID (accepted ts)).filter (issueMatches filters))
        filters.Page filters.PageSize := by
  unfold transactionRepository.GetIssuesWithFilters
  rw [saveAll_issues]
  by_cases h : issuesOf filters.UploadID (accepted ts) = []
  · rw [if_pos h, if_pos h]
  · rw [if_neg h, if_neg h]

/-- The issues query on the states reached by `Save` calls on a fresh repository, for
`Page ≥ 1`, `PageSize ≥ 1` and no overflow of `(Page - 1) * PageSize`: the result is the
page `pageOf` of the filtered issues list with its length as total count, and no error. -/
theorem getIssues_eq_pageOf (ts : List Transaction) (filters : IssuesFilters)
    (hp : 1 ≤ filters.Page) (hs : 1 ≤ filters.PageSize) (hmax : filters.PageSize ≤ maxInt64)
    (hmul : (filters.Page - 1) * filters.PageSize ≤ maxInt64)
    (hlen : (ts.length : Int) < 2 ^ 62) :
    (saveAll NewTransactionRepository ts).GetIssuesWithFilters filters =
      some (pageOf ((issuesOf filters.UploadID (accepted ts)).filter (issueMatches filters))
          filters.Page.toNat filters.PageSize.toNat,
        (((issuesOf filters.UploadID (accepted ts)).filter (issueMatches filters)).length : Int),
        none) := by
  rw [getIssues_saveAll]
  by_cases h : issuesOf filters.UploadID (accepted ts) = []
  · rw [if_pos h, h]
    simp [pageOf]
  · rw [if_neg h]
    apply paginate_eq_pageOf _ _ _ hp hs hmax hmul
    have h1 := List.length_filter_le (issueMatches filters)
      (issuesOf filters.UploadID (accepted ts))
    have h2 : (issuesOf filters.UploadID (accepted ts)).length ≤ (accepted ts).length := by
      unfold issuesOf; exact List.length_filter_le _ _
    have h3 := accepted_length_le ts
    omega

/-- C5 (counterexample): a saved transaction whose status is the empty string is returned
by the issues query, and its status is neither `FAILED` nor `PENDING`. -/
theorem getIssues_status_counterexample :
    (saveAll NewTransactionRepository [statuslessTransaction]).GetIssuesWithFilters
        (plainFilters "u" 1 20) = some ([statuslessTransaction], 1, none)
      ∧ statuslessTransaction.Status ≠ transaction.StatusFailed
      ∧ statuslessTransaction.Status ≠ transaction.StatusPending := by
  decide

/-- C5 (witness): the repository test with two `SUCCESS` credits, a `SUCCESS` debit, a
`FAILED` and a `PENDING` debit. -/
theorem getIssues_status_witness :
    (saveAll NewTransactionRepository testTransactions).GetIssuesWithFilters
        (plainFilters "ABCDEFG" 1 20) = some (testIssues, 2, none)
      ∧ (∀ t ∈ testIssues, t.Status ≠ transaction.StatusSuccess) :=
  ⟨by decide,
    (getIssues_status testTransactions (plainFilters "ABCDEFG" 1 20) testIssues 2 none
      (by decide)).1⟩

/-- C1 (witness): the balance of the repository test is `125 - 50 + 11 = 86`. -/
theorem getBalance_eq_credits_minus_debits_witness :
    (saveAll NewTransactionRepository testTransactions).GetBalanceByUploadID "ABCDEFG" =
        wrap64 (sumAmounts (successfulOf "ABCDEFG" transaction.TypeCredit testTransactions)
          - sumAmounts (successfulOf "ABCDEFG" transaction.TypeDebit testTransactions))
      ∧ wrap64 (sumAmounts (successfulOf "ABCDEFG" transaction.TypeCredit testTransactions)
          - sumAmounts (successfulOf "ABCDEFG" transaction.TypeDebit testTransactions)) = 86 :=
  ⟨(getBalance_eq_credits_minus_debits testTransactions (by decide) (by decide) (by decide)
      "ABCDEFG").1, by decide⟩

/-- C4 (witness): the repository test saved in reverse order has the same balance. -/
theorem getBalance_order_independent_witness :
    (saveAll NewTransactionRepository testTransactions).GetBalanceByUploadID "ABCDEFG" =
      (saveAll NewTransactionRepository testTransactions.reverse).GetBalanceByUploadID
        "ABCDEFG" :=
  getBalance_order_independent testTransactions testTransactions.reverse (by decide)
    (List.reverse_perm testTransactions).symm "ABCDEFG"

/-- C6 (failing input): with one `FAILED` transaction stored, `Page = 2^61 + 1` and
`PageSize = 4`, the product `(Page - 1) * PageSize = 2^63` wraps to `-2^63`; the offset is
negative, the guard `offset >= totalCount` does not fire and the slice expression panics,
where the specified result is the empty page with total count 1. -/
theorem getIssues_overflow_panics :
    (1 : Int) ≤ 2305843009213693953 ∧ (1 : Int) ≤ 4
      ∧ (saveAll NewTransactionRepository [failedTransaction]).GetIssuesWithFilters
          (plainFilters "u" 2305843009213693953 4) = none := by
  decide

/-- C7 (failing input): with one `FAILED` transaction stored and `PageSize = 4` there is one
page; for `Page = 2^62 + 1` the product `(Page - 1) * PageSize = 2^64` wraps to `0` and the
query returns the first page again instead of the empty list. -/
theorem getIssues_overflow_repeats_first_page :
    pageCount 1 4 = 1 ∧ (1 : Int) < 4611686018427387905
      ∧ (saveAll NewTransactionRepository [failedTransaction]).GetIssuesWithFilters
          (plainFilters "u" 4611686018427387905 4) = some ([failedTransaction], 1, none) := by
  decide

/-! ## Theorems: stability of the pagination without overflow -/

theorem join_pageOf {α : Type} (l : List α) (s m : Nat) :
    ((List.range m).map (fun k => pageOf l (k + 1) s)).flatten = l.take (m * s) := by
  induction m with
  | zero => simp
  | succ m ih =>
    rw [List.range_succ, List.map_append, List.flatten_append, ih]
    simp only [List.map_cons, List.map_nil, List.flatten_cons, List.flatten_nil, List.append_nil,
      pageOf, Nat.add_sub_cancel]
    rw [Nat.succ_mul, List.take_add]

theorem pageCount_mul_ge (n s : Nat) (hs : 1 ≤ s) : n ≤ pageCount n s * s := by
  unfold pageCount
  have h := Nat.lt_succ_iff.mpr (le_refl ((n + s - 1) / s))
  rw [Nat.div_lt_iff_lt_mul (by omega)] at h
  rw [Nat.succ_mul] at h
  omega

theorem lt_pageCount_mul_lt (n s k : Nat) (hs : 1 ≤ s) (hk : k < pageCount n s) :
    k * s < n := by
  unfold pageCount at hk
  have h : k + 1 ≤ (n + s - 1) / s := hk
  rw [Nat.le_div_iff_mul_le (by omega), Nat.succ_mul] at h
  omega

theorem issueMatches_setPage (filters : IssuesFilters) (page : Int) :
    issueMatches { filters with Page := page } = issueMatches filters := rfl

/-- The pages of the issues query without overflow: with `PageSize ≥ 1`, every page up to
the last one, `pageCount n PageSize`, is the page `pageOf` of the filtered issues list `F`
with total count `n`, these pages concatenated in order are `F`, and every later page whose
offset `(Page - 1) * PageSize` does not exceed the largest `int` is empty. -/
theorem getIssues_pages_concat (ts : List Transaction) (filters : IssuesFilters)
    (hs : 1 ≤ filters.PageSize) (hmax : filters.PageSize ≤ maxInt64)
    (hlen : (ts.length : Int) < 2 ^ 62) :
    (∀ k : Nat, k < pageCount
          ((issuesOf filters.UploadID (accepted ts)).filter (issueMatches filters)).length
          filters.PageSize.toNat →
        (saveAll NewTransactionRepository ts).GetIssuesWithFilters
            { filters with Page := (k : Int) + 1 } =
          some (pageOf ((issuesOf filters.UploadID (accepted ts)).filter (issueMatches filters))
              (k + 1) filters.PageSize.toNat,
            (((issuesOf filters.UploadID (accepted ts)).filter
              (issueMatches filters)).length : Int), none))
    ∧ ((List.range (pageCount
          ((issuesOf filters.UploadID (accepted ts)).filter (issueMatches filters)).length
          filters.PageSize.toNat)).map
        (fun k => pageOf ((issuesOf filters.UploadID (accepted ts)).filter
          (issueMatches filters)) (k + 1) filters.PageSize.toNat)).flatten =
        (issuesOf filters.UploadID (accepted ts)).filter (issueMatches filters)
    ∧ (∀ page : Int, (pageCount
          ((issuesOf filters.UploadID (accepted ts)).filter (issueMatches filters)).length
          filters.PageSize.toNat : Int) < page →
        (page - 1) * filters.PageSize ≤ maxInt64 →
        (saveAll NewTransactionRepository ts).GetIssuesWithFilters
            { filters with Page := page } =
          some ([], (((issuesOf filters.UploadID (accepted ts)).filter
              (issueMatches filters)).length : Int), none)) := by
  obtain ⟨s', hs'⟩ : ∃ s' : Nat, filters.PageSize = (s' : Int) :=
    ⟨filters.PageSize.toNat, by omega⟩
  have hsize : filters.PageSize.toNat = s' := by omega
  have hs1 : 1 ≤ s' := by omega
  rw [hsize]
  generalize hF : (issuesOf filters.UploadID (accepted ts)).filter (issueMatches filters) = F
  have hFlen : (F.length : Int) < 2 ^ 62 := by
    have h1 := List.length_filter_le (issueMatches filters)
      (issuesOf filters.UploadID (accepted ts))
    have h2 : (issuesOf filters.UploadID (accepted ts)).length ≤ (accepted ts).length := by
      unfold issuesOf; exact List.length_filter_le _ _
    have h3 := accepted_length_le ts
    rw [hF] at h1
    omega
  refine ⟨?_, ?_, ?_⟩
  · intro k hk
    have hlt := lt_pageCount_mul_lt F.length s' k hs1 hk
    have hmul : (((k : Int) + 1) - 1) * filters.PageSize ≤ maxInt64 := by
      have : (((k : Int) + 1) - 1) * filters.PageSize = ((k * s' : Nat) : Int) := by
        rw [hs']; push_cast; ring
      rw [this]
      unfold maxInt64
      omega
    have h := getIssues_eq_pageOf ts { filters with Page := (k : Int) + 1 }
      (by show (1 : Int) ≤ (k : Int) + 1; omega) hs hmax hmul hlen
    rw [h]
    simp only [issueMatches_setPage]
    rw [hF, hsize]
    have : ((k : Int) + 1).toNat = k + 1 := by omega
    rw [this]
  · rw [join_pageOf]
    exact List.take_of_length_le (pageCount_mul_ge F.length s' hs1)
  · intro page hpage hmul
    have hge := pageCount_mul_ge F.length s' hs1
    have h := getIssues_eq_pageOf ts { filters with Page := page }
      (by show (1 : Int) ≤ page; omega) hs hmax hmul hlen
    rw [h]
    simp only [issueMatches_setPage]
    rw [hF, hsize]
    have hdrop : F.length ≤ (page.toNat - 1) * s' := by
      have h1 : pageCount F.length s' ≤ page.toNat - 1 := by omega
      exact le_trans hge (Nat.mul_le_mul_right s' h1)
    simp only [pageOf, List.drop_of_length_le hdrop, List.take_nil]

/-! ## Theorems: backoff of the reconciliation consumer -/

theorem wrap64_mul_two_wrap (x : Int) : wrap64 (wrap64 x * 2) = wrap64 (x * 2) := by
  unfold wrap64; omega

/-- The backoff before a retry is `baseBackoff` doubled once per attempt index, wrapped. -/
theorem calculateBackoff_eq (c : ReconciliationConsumer) (a : Nat) (ha : 1 ≤ a) :
    c.calculateBackoff a = wrap64 (c.baseBackoff * 2 ^ a) := by
  unfold ReconciliationConsumer.calculateBackoff
  rw [Int.toNat_ofNat]
  induction a with
  | zero => omega
  | succ n ih =>
    rw [Function.iterate_succ_apply']
    rcases Nat.eq_zero_or_pos n with h0 | h0
    · subst h0
      simp
    · rw [ih h0, wrap64_mul_two_wrap, pow_succ, mul_assoc]

theorem retryLoop_actions (c : ReconciliationConsumer) (env : EventEnv)
    (evt : FailedTransactionEvent) :
    ∀ (fuel attempt : Nat) (lastErr : Option String) (acts : List ConsumerAction),
      ∃ r, (c.retryLoop env evt fuel attempt lastErr acts).actions = acts ++ r ∧
        r <+: c.scheduleFrom attempt fuel := by
  intro fuel
  induction fuel with
  | zero =>
    intro attempt lastErr acts
    exact ⟨[], by simp [ReconciliationConsumer.retryLoop], List.nil_prefix⟩
  | succ fuel ih =>
    intro attempt lastErr acts
    unfold ReconciliationConsumer.retryLoop
    by_cases hguard : (attempt : Int) < c.maxRetries
    · by_cases hdone : env.ctxDone attempt = true
      · exact ⟨[], by simp [hguard, hdone], List.nil_prefix⟩
      · by_cases hpos : attempt > 0
        · by_cases hback : env.ctxDoneInBackoff attempt = true
          · refine ⟨[ConsumerAction.backoff (c.calculateBackoff attempt)], ?_, ?_⟩
            · simp [hguard, hdone, hpos, hback]
            · simp [ReconciliationConsumer.scheduleFrom, hpos]
          · cases hrec : env.reconcile attempt with
            | none =>
              refine ⟨[ConsumerAction.backoff (c.calculateBackoff attempt),
                ConsumerAction.reconcile attempt], ?_, ?_⟩
              · simp [hguard, hdone, hpos, hback, hrec]
              · simp [ReconciliationConsumer.scheduleFrom, hpos]
            | some err =>
              by_cases hlast : (attempt : Int) = c.maxRetries - 1
              · refine ⟨[ConsumerAction.backoff (c.calculateBackoff attempt),
                  ConsumerAction.reconcile attempt], ?_, ?_⟩
                · simp [hguard, hdone, hpos, hback, hrec, hlast]
                · simp [ReconciliationConsumer.scheduleFrom, hpos]
              · obtain ⟨r, hr, hpre⟩ := ih (attempt + 1) (some err)
                  (acts ++ [ConsumerAction.backoff (c.calculateBackoff attempt)]
                    ++ [ConsumerAction.reconcile attempt])
                refine ⟨ConsumerAction.backoff (c.calculateBackoff attempt) ::
                  ConsumerAction.reconcile attempt :: r, ?_, ?_⟩
                · simp only [List.append_assoc, List.singleton_append] at hr
                  simp [hguard, hdone, hpos, hback, hrec, hlast, hr]
                · simpa [ReconciliationConsumer.scheduleFrom, hpos] using hpre
        · cases hrec : env.reconcile attempt with
          | none =>
            refine ⟨[ConsumerAction.reconcile attempt], ?_, ?_⟩
            · simp [hguard, hdone, hpos, hrec]
            · simp [ReconciliationConsumer.scheduleFrom, hpos]
          | some err =>
            by_cases hlast : (attempt : Int) = c.maxRetries - 1
            · refine ⟨[ConsumerAction.reconcile attempt], ?_, ?_⟩
              · simp [hguard, hdone, hpos, hrec, hlast]
              · simp [ReconciliationConsumer.scheduleFrom, hpos]
            · obtain ⟨r, hr, hpre⟩ := ih (attempt + 1) (some err)
                (acts ++ [ConsumerAction.reconcile attempt])
              refine ⟨ConsumerAction.reconcile attempt :: r, ?_, ?_⟩
              · simp [hguard, hdone, hpos, hrec, hlast, hr]
              · simpa [ReconciliationConsumer.scheduleFrom, hpos] using hpre
    · exact ⟨[], by simp [hguard], List.nil_prefix⟩

theorem scheduleFrom_split (c : ReconciliationConsumer) :
    ∀ (n s : Nat) (pre : List ConsumerAction) (a : Nat) (post : List ConsumerAction),
      c.scheduleFrom s n = pre ++ ConsumerAction.reconcile a :: post →
      s ≤ a ∧ a < s + n ∧ (a = 0 → pre = []) ∧
        (1 ≤ a → ∃ pre', pre = pre' ++ [ConsumerAction.backoff (c.calculateBackoff a)]) := by
  intro n
  induction n with
  | zero =>
    intro s pre a post h
    simp [ReconciliationConsumer.scheduleFrom] at h
  | succ n ih =>
    intro s pre a post h
    unfold ReconciliationConsumer.scheduleFrom at h
    by_cases hs : s > 0
    · rw [if_pos hs] at h
      match pre, h with
      | [], h => simp at h
      | [x], h =>
        simp only [List.singleton_append, List.nil_append, List.cons_append, List.cons.injEq,
          ConsumerAction.reconcile.injEq] at h
        have hx := h.1
        have hsa := h.2.1
        subst hsa
        exact ⟨le_refl _, by omega, fun h0 => by omega, fun _ => ⟨[], by simp [hx]⟩⟩
      | x :: y :: pre'', h =>
        simp only [List.singleton_append, List.nil_append, List.cons_append, List.cons.injEq] at h
        obtain ⟨h1, h2, -, h4⟩ := ih (s + 1) pre'' a post h.2.2
        refine ⟨by omega, by omega, fun h0 => by omega, fun ha => ?_⟩
        obtain ⟨p, hp⟩ := h4 ha
        exact ⟨x :: y :: p, by simp [hp]⟩
    · rw [if_neg hs] at h
      have hs0 : s = 0 := by omega
      subst hs0
      match pre, h with
      | [], h =>
        simp only [List.nil_append, List.cons.injEq, ConsumerAction.reconcile.injEq] at h
        have hsa := h.1
        subst hsa
        exact ⟨le_refl _, by omega, fun _ => rfl, fun h1 => by omega⟩
      | x :: pre'', h =>
        simp only [List.nil_append, List.cons_append, List.cons.injEq] at h
        obtain ⟨h1, h2, -, h4⟩ := ih (0 + 1) pre'' a post h.2
        refine ⟨by omega, by omega, fun h0 => by omega, fun ha => ?_⟩
        obtain ⟨p, hp⟩ := h4 ha
        exact ⟨x :: p, by simp [hp]⟩

/-- C3 (amended): in every run of `processEvent`, nothing (so no wait) precedes attempt 0,
and for every attempt index `a ≥ 1` that is made (then `a < maxRetries`) the action just
before it is the backoff wait, of duration `calculateBackoff a`, which is
`baseBackoff × 2^a` in wrapping `int` arithmetic: the first retry waits `2 × baseBackoff`,
the second `4 × baseBackoff`. -/
theorem processEvent_backoff (c : ReconciliationConsumer) (env : EventEnv)
    (evt : FailedTransactionEvent) (pre post : List ConsumerAction) (a : Nat)
    (h : (c.processEvent env evt).actions = pre ++ ConsumerAction.reconcile a :: post) :
    (a = 0 → pre = [])
    ∧ (1 ≤ a → ∃ pre', pre = pre' ++ [ConsumerAction.backoff (c.calculateBackoff a)]
        ∧ c.calculateBackoff a = wrap64 (c.baseBackoff * 2 ^ a))
    ∧ (a : Int) < c.maxRetries := by
  unfold ReconciliationConsumer.processEvent at h
  by_cases hp : c.isAlreadyProcessed evt.TransactionID = true
  · rw [if_pos hp] at h
    simp at h
  · rw [if_neg hp] at h
    obtain ⟨r, hr, t, ht⟩ := retryLoop_actions c env evt c.maxRetries.toNat 0 none []
    rw [hr, List.nil_append] at h
    rw [h, List.append_assoc, List.cons_append] at ht
    obtain ⟨-, h2, h3, h4⟩ := scheduleFrom_split c _ _ _ _ _ ht.symm
    refine ⟨h3, fun ha => ?_, by omega⟩
    obtain ⟨p, hp'⟩ := h4 ha
    exact ⟨p, hp', calculateBackoff_eq c a ha⟩

/-- C3 (counterexample): for the consumer built by `NewReconciliationConsumer`
(`baseBackoff` one second) whose first attempt fails, the wait before attempt 1 lasts two
seconds, not `baseBackoff × 2^(1-1)`, one second. -/
theorem processEvent_backoff_counterexample :
    ((NewReconciliationConsumer 3).processEvent (failingFirst 1) sampleEvent).actions =
        [ConsumerAction.reconcile 0, ConsumerAction.backoff 2000000000,
          ConsumerAction.reconcile 1]
      ∧ (2000000000 : Int) ≠ (NewReconciliationConsumer 3).baseBackoff * 2 ^ (1 - 1) := by
  decide

/-- C3 (witness): a run with two failed attempts; the wait before attempt 2 is four
seconds. -/
theorem processEvent_backoff_witness :
    ((NewReconciliationConsumer 3).processEvent (failingFirst 2) sampleEvent).actions =
        [ConsumerAction.reconcile 0, ConsumerAction.backoff 2000000000,
          ConsumerAction.reconcile 1, ConsumerAction.backoff 4000000000]
          ++ ConsumerAction.reconcile 2 :: []
      ∧ (NewReconciliationConsumer 3).calculateBackoff 2 = 4000000000
      ∧ ((2 : Nat) : Int) < (NewReconciliationConsumer 3).maxRetries :=
  ⟨by decide, by decide,
    (processEvent_backoff (NewReconciliationConsumer 3) (failingFirst 2) sampleEvent
      [ConsumerAction.reconcile 0, ConsumerAction.backoff 2000000000,
        ConsumerAction.reconcile 1, ConsumerAction.backoff 4000000000] [] 2 (by decide)).2.2⟩

/-! ## Theorems: `strconv.ParseInt` accepts the base-10 signed 64 bit integers -/

theorem foldl_digits_ge (cs : List Char) (n : Nat) :
    n ≤ cs.foldl (fun n c => n * 10 + (c.toNat - 48)) n := by
  induction cs generalizing n with
  | nil => simp
  | cons c cs ih =>
    simp only [List.foldl_cons]
    exact le_trans (by omega) (ih (n * 10 + (c.toNat - 48)))

theorem parseUintLoop_ok_iff (cs : List Char) (n m : Nat) (hn : n ≤ 2 ^ 64 - 1) :
    parseUintLoop cs n = .ok m ↔
      (∀ c ∈ cs, 48 ≤ c.toNat ∧ c.toNat ≤ 57)
        ∧ m = cs.foldl (fun n c => n * 10 + (c.toNat - 48)) n ∧ m ≤ 2 ^ 64 - 1 := by
  induction cs generalizing n with
  | nil =>
    simp only [parseUintLoop, Except.ok.injEq, List.not_mem_nil, false_implies, implies_true,
      List.foldl_nil, true_and]
    constructor
    · intro h; subst h; exact ⟨rfl, hn⟩
    · intro h; exact h.1.symm
  | cons c cs ih =>
    unfold parseUintLoop
    simp only [List.foldl_cons, List.mem_cons, forall_eq_or_imp]
    by_cases hd : 48 ≤ c.toNat ∧ c.toNat ≤ 57
    · rw [if_pos hd]
      have hge := foldl_digits_ge cs (n * 10 + (c.toNat - 48))
      by_cases h1 : n ≥ (2 ^ 64 - 1) / 10 + 1
      · rw [if_pos h1]
        constructor
        · intro h; cases h
        · rintro ⟨-, hm, hle⟩
          norm_num at h1
          omega
      · rw [if_neg h1]
        by_cases h2 : n * 10 + (c.toNat - 48) > 2 ^ 64 - 1
        · rw [if_pos h2]
          constructor
          · intro h; cases h
          · rintro ⟨-, hm, hle⟩
            omega
        · rw [if_neg h2, ih _ (by omega)]
          constructor
          · rintro ⟨h3, h4, h5⟩
            exact ⟨⟨hd, h3⟩, h4, h5⟩
          · rintro ⟨⟨-, h3⟩, h4, h5⟩
            exact ⟨h3, h4, h5⟩
    · rw [if_neg hd]
      constructor
      · intro h; cases h
      · rintro ⟨⟨h3, -⟩, -⟩
        exact absurd h3 hd

theorem ParseUint_ok_iff (cs : List Char) (m : Nat) :
    ParseUint cs = .ok m ↔
      cs ≠ [] ∧ (∀ c ∈ cs, 48 ≤ c.toNat ∧ c.toNat ≤ 57)
        ∧ m = decimalValue cs ∧ m ≤ 2 ^ 64 - 1 := by
  cases cs with
  | nil => simp [ParseUint]
  | cons c cs =>
    simp only [ParseUint, ne_eq, reduceCtorEq, not_false_eq_true, true_and]
    rw [parseUintLoop_ok_iff _ _ _ (by norm_num)]
    rfl

theorem ParseInt_cons_ok_iff (s : String) (c : Char) (cs : List Char) (hs : s.data = c :: cs)
    (v : Int) :
    ParseInt s = .ok v ↔
      ∃ un : Nat, ParseUint (if c = '+' ∨ c = '-' then cs else c :: cs) = .ok un
        ∧ v = (if c = '-' then -(un : Int) else (un : Int))
        ∧ (if c = '-' then un ≤ 2 ^ 63 else un < 2 ^ 63) := by
  unfold ParseInt
  rw [hs]
  dsimp only
  cases hu : ParseUint (if c = '+' ∨ c = '-' then cs else c :: cs) with
  | error e => simp
  | ok un =>
    simp only [Except.ok.injEq, exists_eq_left']
    by_cases hneg : c = '-'
    · simp only [hneg, decide_True, not_true_eq_false, false_and, if_false, true_and, if_true]
      by_cases h : un > 2 ^ 63
      · simp only [h, if_true]
        constructor
        · intro h'; cases h'
        · rintro ⟨-, h2⟩; omega
      · simp only [h, if_false, Except.ok.injEq]
        constructor
        · intro h'; exact ⟨h'.symm, by omega⟩
        · rintro ⟨h1, -⟩; exact h1.symm
    · have hd : decide (c = '-') = false := decide_eq_false hneg
      rw [hd]
      rw [if_neg hneg, if_neg hneg]
      by_cases h : un ≥ 2 ^ 63
      · rw [if_pos ⟨by simp, h⟩]
        constructor
        · intro h'; cases h'
        · rintro ⟨-, h2⟩; omega
      · rw [if_neg (fun hh => h hh.2), if_neg (fun hh => by simp at hh)]
        simp only [Bool.false_eq_true, if_false, Except.ok.injEq]
        constructor
        · intro h'; exact ⟨h'.symm, by omega⟩
        · rintro ⟨h1, -⟩; exact h1.symm

/-- The model of `strconv.ParseInt(s, 10, 64)` succeeds with value `v` exactly when `s` is
a base-10 signed 64 bit integer with value `v`. -/
theorem ParseInt_ok_iff (s : String) (v : Int) : ParseInt s = .ok v ↔ IsBase10Int64 s v := by
  cases hs : s.data with
  | nil =>
    constructor
    · intro h
      unfold ParseInt at h
      rw [hs] at h
      cases h
    · rintro ⟨sign, ds, h1, -, h3, -⟩
      rw [hs] at h1
      have h4 : sign = [] ∧ ds = [] := by simpa using h1.symm
      exact absurd h4.2 h3
  | cons c cs =>
    rw [ParseInt_cons_ok_iff s c cs hs]
    unfold IsBase10Int64 isInt64 minInt64 maxInt64
    rw [hs]
    have hminus : (['+'] : List Char) ≠ ['-'] := by decide
    have hnil : ([] : List Char) ≠ ['-'] := by decide
    by_cases hplus : c = '+'
    · subst hplus
      have hne : ¬ ('+' : Char) = '-' := by decide
      simp only [true_or, if_true, hne, if_false]
      constructor
      · rintro ⟨un, hu, hv, hlt⟩
        rw [ParseUint_ok_iff] at hu
        obtain ⟨h1, h2, h3, -⟩ := hu
        refine ⟨['+'], cs, rfl, Or.inr (Or.inl rfl), h1, h2, ?_, ?_⟩
        · rw [if_neg hminus, hv, h3]
        · omega
      · rintro ⟨sign, ds, h1, h2, h3, h4, h5, h6⟩
        rcases h2 with h2 | h2 | h2
        · subst h2
          simp only [List.nil_append] at h1
          subst h1
          have := h4 '+' (List.mem_cons_self _ _)
          exact absurd this (by decide)
        · subst h2
          simp only [List.singleton_append, List.cons.injEq, true_and] at h1
          subst h1
          rw [if_neg hminus] at h5
          refine ⟨decimalValue cs, ?_, h5, by omega⟩
          rw [ParseUint_ok_iff]
          exact ⟨h3, h4, rfl, by omega⟩
        · subst h2
          simp only [List.singleton_append, List.cons.injEq] at h1
          exact absurd h1.1 (by decide)
    · by_cases hneg : c = '-'
      · subst hneg
        simp only [or_true, if_true]
        constructor
        · rintro ⟨un, hu, hv, hlt⟩
          rw [ParseUint_ok_iff] at hu
          obtain ⟨h1, h2, h3, -⟩ := hu
          refine ⟨['-'], cs, rfl, Or.inr (Or.inr rfl), h1, h2, ?_, ?_⟩
          · rw [if_pos rfl, hv, h3]
          · omega
        · rintro ⟨sign, ds, h1, h2, h3, h4, h5, h6⟩
          rcases h2 with h2 | h2 | h2
          · subst h2
            simp only [List.nil_append] at h1
            subst h1
            have := h4 '-' (List.mem_cons_self _ _)
            exact absurd this (by decide)
          · subst h2
            simp only [List.singleton_append, List.cons.injEq] at h1
            exact absurd h1.1 (by decide)
          · subst h2
            simp only [List.singleton_append, List.cons.injEq, true_and] at h1
            subst h1
            rw [if_pos rfl] at h5
            refine ⟨decimalValue cs, ?_, h5, by omega⟩
            rw [ParseUint_ok_iff]
            exact ⟨h3, h4, rfl, by omega⟩
      · simp only [hplus, hneg, or_self, if_false]
        constructor
        · rintro ⟨un, hu, hv, hlt⟩
          rw [ParseUint_ok_iff] at hu
          obtain ⟨h1, h2, h3, -⟩ := hu
          refine ⟨[], c :: cs, rfl, Or.inl rfl, h1, h2, ?_, ?_⟩
          · rw [if_neg hnil, hv, h3]
          · omega
        · rintro ⟨sign, ds, h1, h2, h3, h4, h5, h6⟩
          rcases h2 with h2 | h2 | h2
          · subst h2
            simp only [List.nil_append] at h1
            subst h1
            rw [if_neg hnil] at h5
            refine ⟨decimalValue (c :: cs), ?_, h5, by omega⟩
            rw [ParseUint_ok_iff]
            exact ⟨h3, h4, rfl, by omega⟩
          · subst h2
            simp only [List.singleton_append, List.cons.injEq] at h1
            exact absurd h1.1 hplus
          · subst h2
            simp only [List.singleton_append, List.cons.injEq] at h1
            exact absurd h1.1 hneg

theorem ParseInt_error_iff (s : String) :
    (∃ e, ParseInt s = .error e) ↔ ¬ ∃ v, IsBase10Int64 s v := by
  constructor
  · rintro ⟨e, he⟩ ⟨v, hv⟩
    rw [← ParseInt_ok_iff, he] at hv
    cases hv
  · intro h
    cases hp : ParseInt s with
    | error e => exact ⟨e, rfl⟩
    | ok v => exact absurd ⟨v, (ParseInt_ok_iff s v).mp hp⟩ h

/-! ## Theorems: `parseTransaction` -/

theorem parseTransaction_six_error_iff (r0 r1 r2 r3 r4 r5 uploadID newID : String) :
    (∃ msg, statement.parseTransaction [r0, r1, r2, r3, r4, r5] uploadID newID = .error msg) ↔
      (∃ e, ParseInt (TrimSpace r0) = .error e)
      ∨ TrimSpace r1 = ""
      ∨ (ToUpper (TrimSpace r2) ≠ transaction.TypeCredit
          ∧ ToUpper (TrimSpace r2) ≠ transaction.TypeDebit)
      ∨ (∃ e, ParseInt (TrimSpace r3) = .error e)
      ∨ (∃ v, ParseInt (TrimSpace r3) = .ok v ∧ v ≤ 0)
      ∨ (ToUpper (TrimSpace r4) ≠ transaction.StatusSuccess
          ∧ ToUpper (TrimSpace r4) ≠ transaction.StatusFailed
          ∧ ToUpper (TrimSpace r4) ≠ transaction.StatusPending)
      ∨ TrimSpace r5 = "" := by
  unfold statement.parseTransaction
  cases h0 : ParseInt (TrimSpace r0) with
  | error e => simp [h0]
  | ok ts =>
    by_cases h1 : TrimSpace r1 = ""
    · simp [h0, h1]
    · by_cases h2 : ToUpper (TrimSpace r2) ≠ transaction.TypeCredit
          ∧ ToUpper (TrimSpace r2) ≠ transaction.TypeDebit
      · simp [h0, h1, h2]
      · cases h3 : ParseInt (TrimSpace r3) with
        | error e => simp [h0, h3, h1, h2]
        | ok amount =>
          by_cases h4 : amount ≤ 0
          · simp [h0, h3, h1, h2, h4]
          · by_cases h5 : ToUpper (TrimSpace r4) ≠ transaction.StatusSuccess
                ∧ ToUpper (TrimSpace r4) ≠ transaction.StatusFailed
                ∧ ToUpper (TrimSpace r4) ≠ transaction.StatusPending
            · simp [h0, h3, h1, h2, h4, h5]
            · by_cases h6 : TrimSpace r5 = ""
              · simp [h0, h3, h1, h2, h4, h5, h6]
              · simp [h0, h3, h1, h2, h4, h5, h6]

/-- C8: `parseTransaction` returns an error if and only if the record does not have exactly
6 fields, or field 0 trimmed is not a base-10 signed 64 bit integer, or field 1 trimmed is
empty, or field 2 trimmed and upper-cased is neither `CREDIT` nor `DEBIT`, or field 3
trimmed is not a base-10 signed 64 bit integer or its value is `≤ 0`, or field 4 trimmed and
upper-cased is none of `SUCCESS`, `FAILED`, `PENDING`, or field 5 trimmed is empty. -/
theorem parseTransaction_error_iff (record : List String) (uploadID newID : String) :
    (∃ msg, statement.parseTransaction record uploadID newID = .error msg) ↔
      record.length ≠ 6
      ∨ (¬ ∃ v, IsBase10Int64 (TrimSpace (record.getD 0 "")) v)
      ∨ TrimSpace (record.getD 1 "") = ""
      ∨ (ToUpper (TrimSpace (record.getD 2 "")) ≠ transaction.TypeCredit
          ∧ ToUpper (TrimSpace (record.getD 2 "")) ≠ transaction.TypeDebit)
      ∨ ((¬ ∃ v, IsBase10Int64 (TrimSpace (record.getD 3 "")) v)
          ∨ ∃ v, IsBase10Int64 (TrimSpace (record.getD 3 "")) v ∧ v ≤ 0)
      ∨ (ToUpper (TrimSpace (record.getD 4 "")) ≠ transaction.StatusSuccess
          ∧ ToUpper (TrimSpace (record.getD 4 "")) ≠ transaction.StatusFailed
          ∧ ToUpper (TrimSpace (record.getD 4 "")) ≠ transaction.StatusPending)
      ∨ TrimSpace (record.getD 5 "") = "" := by
  rcases record with _ | ⟨r0, _ | ⟨r1, _ | ⟨r2, _ | ⟨r3, _ | ⟨r4, _ | ⟨r5, _ | ⟨r6, rest⟩⟩⟩⟩⟩⟩⟩
  case cons.cons.cons.cons.cons.cons.nil =>
    rw [parseTransaction_six_error_iff]
    simp only [List.length_cons, List.length_nil, List.getD_cons_zero, List.getD_cons_succ,
      ParseInt_error_iff, ParseInt_ok_iff]
    simp only [zero_add, Nat.reduceAdd, ne_eq, not_true_eq_false, false_or, or_assoc]
  all_goals simp [statement.parseTransaction]

/-- A successful `parseTransaction` returns a transaction with the generated ID and the
given upload ID. -/
theorem parseTransaction_ok_ids (record : List String) (uploadID newID : String)
    (t : Transaction) (h : statement.parseTransaction record uploadID newID = .ok t) :
    t.ID = newID ∧ t.UploadID = uploadID := by
  rcases record with _ | ⟨r0, _ | ⟨r1, _ | ⟨r2, _ | ⟨r3, _ | ⟨r4, _ | ⟨r5, _ | ⟨r6, rest⟩⟩⟩⟩⟩⟩⟩
  case cons.cons.cons.cons.cons.cons.nil =>
    unfold statement.parseTransaction at h
    cases h0 : ParseInt (TrimSpace r0) with
    | error e => simp [h0] at h
    | ok ts =>
      cases h3 : ParseInt (TrimSpace r3) with
      | error e =>
        simp only [h0, h3] at h
        split_ifs at h
      | ok amount =>
        simp only [h0, h3] at h
        split_ifs at h
        simp only [Except.ok.injEq] at h
        subst h
        exact ⟨rfl, rfl⟩
  all_goals simp [statement.parseTransaction] at h

/-- C9: whenever `parseTransaction` succeeds on a record with upload ID `u`, the record has
6 fields and the returned transaction has `UploadID = u`, `Timestamp` the integer value of
field 0 trimmed, `Counterparty` field 1 trimmed (non-empty), `Type` field 2 trimmed and
upper-cased, which is `CREDIT` or `DEBIT`, `Amount` the integer value of field 3 trimmed,
which is `> 0`, `Status` field 4 trimmed and upper-cased, which is `SUCCESS`, `FAILED` or
`PENDING`, and `Description` field 5 trimmed (non-empty); its ID is the generated one. -/
theorem parseTransaction_ok_fields (record : List String) (uploadID newID : String)
    (t : Transaction) (h : statement.parseTransaction record uploadID newID = .ok t) :
    ∃ r0 r1 r2 r3 r4 r5, record = [r0, r1, r2, r3, r4, r5]
      ∧ t.ID = newID ∧ t.UploadID = uploadID
      ∧ IsBase10Int64 (TrimSpace r0) t.Timestamp
      ∧ t.Counterparty = TrimSpace r1 ∧ t.Counterparty ≠ ""
      ∧ t.Type_ = ToUpper (TrimSpace r2)
      ∧ (t.Type_ = transaction.TypeCredit ∨ t.Type_ = transaction.TypeDebit)
      ∧ IsBase10Int64 (TrimSpace r3) t.Amount ∧ 0 < t.Amount
      ∧ t.Status = ToUpper (TrimSpace r4)
      ∧ (t.Status = transaction.StatusSuccess ∨ t.Status = transaction.StatusFailed
          ∨ t.Status = transaction.StatusPending)
      ∧ t.Description = TrimSpace r5 ∧ t.Description ≠ "" := by
  rcases record with _ | ⟨r0, _ | ⟨r1, _ | ⟨r2, _ | ⟨r3, _ | ⟨r4, _ | ⟨r5, _ | ⟨r6, rest⟩⟩⟩⟩⟩⟩⟩
  case cons.cons.cons.cons.cons.cons.nil =>
    refine ⟨r0, r1, r2, r3, r4, r5, rfl, ?_⟩
    unfold statement.parseTransaction at h
    cases h0 : ParseInt (TrimSpace r0) with
    | error e => simp [h0] at h
    | ok ts =>
      cases h3 : ParseInt (TrimSpace r3) with
      | error e =>
        simp only [h0, h3] at h
        split_ifs at h
      | ok amount =>
        simp only [h0, h3] at h
        split_ifs at h with h1 h2 h4 h5 h6
        simp only [Except.ok.injEq] at h
        subst h
        rw [ParseInt_ok_iff] at h0 h3
        simp only [ne_eq, not_and, not_not] at h2 h5
        refine ⟨rfl, rfl, h0, rfl, h1, rfl, ?_, h3, by show 0 < amount; omega, rfl, ?_, rfl, h6⟩
        · by_cases hc : ToUpper (TrimSpace r2) = transaction.TypeCredit
          · exact Or.inl hc
          · exact Or.inr (h2 hc)
        · by_cases hc : ToUpper (TrimSpace r4) = transaction.StatusSuccess
          · exact Or.inl hc
          · by_cases hf : ToUpper (TrimSpace r4) = transaction.StatusFailed
            · exact Or.inr (Or.inl hf)
            · exact Or.inr (Or.inr (h5 hc hf))
  all_goals simp [statement.parseTransaction] at h

/-- C9 (witness): a record with the type `debit` and the status `Success` is accepted and
stored as `DEBIT` and `SUCCESS`. -/
theorem parseTransaction_ok_fields_witness :
    statement.parseTransaction mixedCaseRecord "u" "id1" = .ok mixedCaseTransaction
      ∧ mixedCaseTransaction.Type_ = ToUpper (TrimSpace "debit")
      ∧ mixedCaseTransaction.Status = ToUpper (TrimSpace "Success")
      ∧ ∃ r0 r1 r2 r3 r4 r5, mixedCaseRecord = [r0, r1, r2, r3, r4, r5]
        ∧ IsBase10Int64 (TrimSpace r0) mixedCaseTransaction.Timestamp
        ∧ IsBase10Int64 (TrimSpace r3) mixedCaseTransaction.Amount := by
  refine ⟨by rfl, by rfl, by rfl, ?_⟩
  obtain ⟨r0, r1, r2, r3, r4, r5, h, -, -, h0, -, -, -, -, h3, -⟩ :=
    parseTransaction_ok_fields mixedCaseRecord "u" "id1" mixedCaseTransaction (by rfl)
  exact ⟨r0, r1, r2, r3, r4, r5, h, h0, h3⟩

/-! ## Lemmas: the run of `processStatement` -/

theorem markUploadAsFailed_trace (env : RunEnv) (uc : statement) (uploadID reason : String) :
    ∃ info err, (statement.markUploadAsFailed env uc uploadID reason).trace =
      uc.trace ++ [Effect.update info err] :=
  ⟨_, _, rfl⟩

theorem markUploadAsCompleted_trace (env : RunEnv) (uc : statement) (uploadID : String) :
    ∃ info err, (statement.markUploadAsCompleted env uc uploadID).trace =
      uc.trace ++ [Effect.update info err] :=
  ⟨_, _, rfl⟩

theorem savedOf_append (a b : List Effect) : savedOf (a ++ b) = savedOf a ++ savedOf b := by
  simp [savedOf, List.filterMap_append]

theorem publishedOf_append (a b : List Effect) :
    publishedOf (a ++ b) = publishedOf a ++ publishedOf b := by
  simp [publishedOf, List.filterMap_append]

/-- What the calls of the row loop look like: the IDs of the events published are, in
order, the IDs of the persisted transactions whose status is `FAILED`; the persisted
transactions have pairwise distinct IDs, none of them stored before the loop. -/
theorem processRows_trace (env : RunEnv) (uploadID : String) :
    ∀ (rows : List (Except String (List String))) (uc : statement) (lineNumber : Nat),
      ∃ new, (statement.processRows env uploadID uc lineNumber rows).trace = uc.trace ++ new
        ∧ (publishedOf new).map (fun e => e.TransactionID) =
            ((savedOf new).filter (fun t => t.Status = transaction.StatusFailed)).map
              (fun t => t.ID)
        ∧ (∀ t ∈ savedOf new, mapGet uc.transactionRepo.transactions t.ID = none)
        ∧ ((savedOf new).map (fun t => t.ID)).Nodup := by
  intro rows
  induction rows with
  | nil =>
    intro uc lineNumber
    unfold statement.processRows
    by_cases hc : env.ctxDone (lineNumber - 1) = true
    · rw [if_pos hc]
      obtain ⟨info, err, h⟩ := markUploadAsFailed_trace env uc uploadID "processing cancelled"
      exact ⟨_, h, by simp [publishedOf, savedOf], by simp [savedOf], by simp [savedOf]⟩
    · rw [if_neg hc]
      obtain ⟨info, err, h⟩ := markUploadAsCompleted_trace env
        { uc with trace := uc.trace ++ [Effect.read none] } uploadID
      refine ⟨[Effect.read none, Effect.update info err], ?_, by simp [publishedOf, savedOf],
        by simp [savedOf], by simp [savedOf]⟩
      rw [h]
      simp
  | cons row rest ih =>
    intro uc lineNumber
    unfold statement.processRows
    by_cases hc : env.ctxDone (lineNumber - 1) = true
    · rw [if_pos hc]
      obtain ⟨info, err, h⟩ := markUploadAsFailed_trace env uc uploadID "processing cancelled"
      exact ⟨_, h, by simp [publishedOf, savedOf], by simp [savedOf], by simp [savedOf]⟩
    · rw [if_neg hc]
      cases row with
      | error e =>
        obtain ⟨info, err, h⟩ := markUploadAsFailed_trace env
          { uc with trace := uc.trace ++ [Effect.read (some (.error e))] } uploadID
          ("error at line " ++ toString lineNumber ++ ": " ++ e)
        refine ⟨[Effect.read (some (.error e)), Effect.update info err], ?_,
          by simp [publishedOf, savedOf], by simp [savedOf], by simp [savedOf]⟩
        dsimp only
        rw [h]
        simp
      | ok record =>
        dsimp only
        cases hparse : statement.parseTransaction record uploadID (env.newID (lineNumber - 1)) with
        | error e =>
          obtain ⟨info, err, h⟩ := markUploadAsFailed_trace env
            { uc with trace := uc.trace ++ [Effect.read (some (.ok record))] } uploadID
            ("invalid data at line " ++ toString (lineNumber + 1) ++ ": " ++ e)
          refine ⟨[Effect.read (some (.ok record)), Effect.update info err], ?_,
            by simp [publishedOf, savedOf], by simp [savedOf], by simp [savedOf]⟩
          dsimp only
          rw [h]
          simp
        | ok t =>
          dsimp only
          cases hsave : uc.transactionRepo.Save (some t) with
          | mk repo serr =>
            cases serr with
            | some e =>
              dsimp only
              obtain ⟨info, err, h⟩ := markUploadAsFailed_trace env
                { uc with
                  transactionRepo := repo
                  trace := uc.trace ++ [Effect.read (some (.ok record))]
                    ++ [Effect.save t (some e)] } uploadID
                ("failed to save transaction at line " ++ toString (lineNumber + 1) ++ ": " ++ e)
              refine ⟨[Effect.read (some (.ok record)), Effect.save t (some e),
                Effect.update info err], ?_,
                by simp [publishedOf, savedOf], by simp [savedOf], by simp [savedOf]⟩
              rw [h]
              simp
            | none =>
              dsimp only
              have hok : SaveOk uc.transactionRepo t := by
                rw [← Save_err_none_iff, hsave]
              have hrepo : repo = (uc.transactionRepo.Save (some t)).1 := by rw [hsave]
              have hget : ∀ k, mapGet repo.transactions k =
                  if t.ID = k then some t else mapGet uc.transactionRepo.transactions k := by
                intro k
                rw [hrepo, Save_transactions _ _ hok,
                  ← mapSet_of_get_none _ _ _ hok.2.2, mapGet_mapSet]
              by_cases hf : t.Status = transaction.StatusFailed
              · rw [if_pos hf]
                obtain ⟨new, hnew, h1, h2, h3⟩ := ih
                  { uc with
                    transactionRepo := repo
                    trace := uc.trace ++ [Effect.read (some (.ok record))]
                      ++ [Effect.save t none]
                      ++ [Effect.publish (NewFailedTransactionEvent t.ID uploadID t.Counterparty
                        t.Description t.Timestamp t.Amount
                        (env.now (uc.trace ++ [Effect.read (some (.ok record))]
                          ++ [Effect.save t none]).length))] }
                  (lineNumber + 1)
                refine ⟨[Effect.read (some (.ok record)), Effect.save t none,
                  Effect.publish (NewFailedTransactionEvent t.ID uploadID t.Counterparty
                    t.Description t.Timestamp t.Amount
                    (env.now (uc.trace ++ [Effect.read (some (.ok record))]
                      ++ [Effect.save t none]).length))] ++ new, ?_, ?_, ?_, ?_⟩
                · rw [hnew]; simp
                · rw [publishedOf_append, savedOf_append]
                  simp only [publishedOf, savedOf, List.filterMap_cons, List.filterMap_nil,
                    List.map_append, List.filter_append, List.map_cons, List.map_nil,
                    List.singleton_append, List.cons_append, List.nil_append]
                  simp only [publishedOf, savedOf] at h1
                  rw [h1]
                  simp [List.filter, hf, NewFailedTransactionEvent]
                · intro s hs
                  rw [savedOf_append] at hs
                  simp only [savedOf, List.filterMap_cons, List.filterMap_nil,
                    List.singleton_append, List.cons_append, List.nil_append,
                    List.mem_cons] at hs
                  rcases hs with hs | hs
                  · rw [hs]; exact hok.2.2
                  · have := h2 s hs
                    rw [hget] at this
                    by_cases hid : t.ID = s.ID
                    · rw [if_pos hid] at this; cases this
                    · rw [if_neg hid] at this; exact this
                · rw [savedOf_append]
                  simp only [savedOf, List.filterMap_cons, List.filterMap_nil,
                    List.singleton_append, List.cons_append, List.nil_append, List.map_cons,
                    List.nodup_cons]
                  refine ⟨?_, h3⟩
                  intro hmem
                  obtain ⟨s, hs, hsid⟩ := List.mem_map.mp hmem
                  have := h2 s hs
                  rw [hget, if_pos hsid.symm] at this
                  cases this
              · rw [if_neg hf]
                obtain ⟨new, hnew, h1, h2, h3⟩ := ih
                  { uc with
                    transactionRepo := repo
                    trace := uc.trace ++ [Effect.read (some (.ok record))]
                      ++ [Effect.save t none] }
                  (lineNumber + 1)
                refine ⟨[Effect.read (some (.ok record)), Effect.save t none] ++ new,
                  ?_, ?_, ?_, ?_⟩
                · rw [hnew]; simp
                · rw [publishedOf_append, savedOf_append]
                  simp only [publishedOf, savedOf, List.filterMap_cons, List.filterMap_nil,
                    List.map_append, List.filter_append, List.map_cons, List.map_nil,
                    List.singleton_append, List.cons_append, List.nil_append]
                  simp only [publishedOf, savedOf] at h1
                  rw [h1]
                  simp [List.filter, hf]
                · intro s hs
                  rw [savedOf_append] at hs
                  simp only [savedOf, List.filterMap_cons, List.filterMap_nil,
                    List.singleton_append, List.cons_append, List.nil_append,
                    List.mem_cons] at hs
                  rcases hs with hs | hs
                  · rw [hs]; exact hok.2.2
                  · have := h2 s hs
                    rw [hget] at this
                    by_cases hid : t.ID = s.ID
                    · rw [if_pos hid] at this; cases this
                    · rw [if_neg hid] at this; exact this
                · rw [savedOf_append]
                  simp only [savedOf, List.filterMap_cons, List.filterMap_nil,
                    List.singleton_append, List.cons_append, List.nil_append, List.map_cons,
                    List.nodup_cons]
                  refine ⟨?_, h3⟩
                  intro hmem
                  obtain ⟨s, hs, hsid⟩ := List.mem_map.mp hmem
                  have := h2 s hs
                  rw [hget, if_pos hsid.symm] at this
                  cases this

theorem processStatement_trace (env : RunEnv) (uc : statement) (uploadID : String)
    (file : List (Except String (List String))) :
    (statement.processStatement env uc uploadID file).trace =
        uc.trace ++ statement.runTrace env uc uploadID file
      ∧ (publishedOf (statement.runTrace env uc uploadID file)).map (fun e => e.TransactionID) =
          ((savedOf (statement.runTrace env uc uploadID file)).filter
            (fun t => t.Status = transaction.StatusFailed)).map (fun t => t.ID)
      ∧ ((savedOf (statement.runTrace env uc uploadID file)).map (fun t => t.ID)).Nodup := by
  have key : ∃ new, (statement.processStatement env uc uploadID file).trace = uc.trace ++ new
      ∧ (publishedOf new).map (fun e => e.TransactionID) =
          ((savedOf new).filter (fun t => t.Status = transaction.StatusFailed)).map
            (fun t => t.ID)
      ∧ ((savedOf new).map (fun t => t.ID)).Nodup := by
    unfold statement.processStatement
    cases file with
    | nil =>
      obtain ⟨info, err, h⟩ := markUploadAsFailed_trace env
        { uc with trace := uc.trace ++ [Effect.read none] } uploadID
        ("failed to read CSV header: " ++ "EOF")
      refine ⟨[Effect.read none, Effect.update info err], ?_,
        by simp [publishedOf, savedOf], by simp [savedOf]⟩
      dsimp only
      rw [h]
      simp
    | cons row rows =>
      cases row with
      | error e =>
        obtain ⟨info, err, h⟩ := markUploadAsFailed_trace env
          { uc with trace := uc.trace ++ [Effect.read (some (.error e))] } uploadID
          ("failed to read CSV header: " ++ e)
        refine ⟨[Effect.read (some (.error e)), Effect.update info err], ?_,
          by simp [publishedOf, savedOf], by simp [savedOf]⟩
        dsimp only
        rw [h]
        simp
      | ok header =>
        obtain ⟨new, hnew, h1, -, h3⟩ := processRows_trace env uploadID rows
          { uc with trace := uc.trace ++ [Effect.read (some (.ok header))] } 1
        refine ⟨Effect.read (some (.ok header)) :: new, ?_, ?_, ?_⟩
        · dsimp only
          rw [hnew]
          simp
        · simpa [publishedOf, savedOf] using h1
        · simpa [savedOf] using h3
  obtain ⟨new, hnew, h1, h3⟩ := key
  have hrun : statement.runTrace env uc uploadID file = new := by
    unfold statement.runTrace
    rw [hnew, List.drop_left]
  rw [hrun]
  exact ⟨hnew, h1, h3⟩

/-! ## Theorems: events published by `processStatement` -/

/-- C2 (amended): for every transaction that a run of `processStatement` parses and persists
successfully, the run publishes exactly one `FailedTransactionEvent` carrying its ID when
its status is `FAILED`, and none when its status is `SUCCESS` or `PENDING`. -/
theorem processStatement_publishes_iff_failed (env : RunEnv) (uc : statement)
    (uploadID : String) (file : List (Except String (List String))) (t : Transaction)
    (h : Effect.save t none ∈ statement.runTrace env uc uploadID file) :
    (publishedOf (statement.runTrace env uc uploadID file)).countP
        (fun e => e.TransactionID = t.ID) =
      if t.Status = transaction.StatusFailed then 1 else 0 := by
  obtain ⟨-, h1, h3⟩ := processStatement_trace env uc uploadID file
  have hsaved : t ∈ savedOf (statement.runTrace env uc uploadID file) := by
    unfold savedOf
    rw [List.mem_filterMap]
    exact ⟨_, h, rfl⟩
  have hcount : (publishedOf (statement.runTrace env uc uploadID file)).countP
      (fun e => e.TransactionID = t.ID) =
      ((publishedOf (statement.runTrace env uc uploadID file)).map
        (fun e => e.TransactionID)).count t.ID := by
    rw [List.count, List.countP_map]
    rfl
  rw [hcount, h1]
  have hsub : List.Sublist
      (((savedOf (statement.runTrace env uc uploadID file)).filter
        (fun t => t.Status = transaction.StatusFailed)).map (fun t => t.ID))
      ((savedOf (statement.runTrace env uc uploadID file)).map (fun t => t.ID)) :=
    (List.filter_sublist _).map _
  by_cases hf : t.Status = transaction.StatusFailed
  · rw [if_pos hf]
    apply List.count_eq_one_of_mem (hsub.nodup h3)
    exact List.mem_map.mpr ⟨t, List.mem_filter.mpr ⟨hsaved, decide_eq_true hf⟩, rfl⟩
  · rw [if_neg hf]
    apply List.count_eq_zero_of_not_mem
    intro hmem
    obtain ⟨s, hs, hsid⟩ := List.mem_map.mp hmem
    rw [List.mem_filter] at hs
    have hst : s = t := List.inj_on_of_nodup_map h3 hs.1 hsaved hsid
    rw [hst] at hs
    exact hf (of_decide_eq_true hs.2)

/-- C2 (counterexample): a file with one `PENDING` row is parsed and persisted and the run
publishes no event, although the status of the transaction is not `SUCCESS`. -/
theorem processStatement_pending_not_published :
    Effect.save pendingTransaction none ∈
        statement.runTrace sampleEnv sampleStatement "u" pendingFile
      ∧ pendingTransaction.Status ≠ transaction.StatusSuccess
      ∧ pendingTransaction.Status = transaction.StatusPending
      ∧ publishedOf (statement.runTrace sampleEnv sampleStatement "u" pendingFile) = [] := by
  decide

/-- C2 (witness): the `FAILED` row of a file is published once. -/
theorem processStatement_publishes_iff_failed_witness :
    Effect.save failedRowTransaction none ∈
        statement.runTrace sampleEnv sampleStatement "u" failedFile
      ∧ (publishedOf (statement.runTrace sampleEnv sampleStatement "u" failedFile)).countP
          (fun e => e.TransactionID = failedRowTransaction.ID) = 1 :=
  ⟨by decide,
    processStatement_publishes_iff_failed sampleEnv sampleStatement "u" failedFile
      failedRowTransaction (by decide)⟩

/-! ## Theorems: a well-formed file is ingested to completion -/

theorem storedCount_Save (tr : transactionRepository) (t : Transaction) (h : SaveOk tr t)
    (u : String) :
    storedCount (tr.Save (some t)).1 u = storedCount tr u + (if t.UploadID = u then 1 else 0) := by
  unfold storedCount
  rw [Save_transactions _ _ h, filter_append_singleton]
  by_cases hu : t.UploadID = u
  · rw [if_pos (decide_eq_true hu), if_pos hu]
    simp
  · rw [if_neg (by simpa using hu), if_neg hu]
    simp

theorem markUploadAsCompleted_result (env : RunEnv) (uc : statement) (uploadID : String)
    (task : upload.Task) (hreg : mapGet uc.uploadRepo.task uploadID = some task) :
    (statement.markUploadAsCompleted env uc uploadID).transactionRepo = uc.transactionRepo
      ∧ ∃ task', (statement.markUploadAsCompleted env uc uploadID).uploadRepo.GetByID uploadID
          = .ok task' ∧ task'.Status = upload.StatusCompleted := by
  refine ⟨rfl, ?_⟩
  unfold statement.markUploadAsCompleted uploadRepository.Update uploadRepository.GetByID
  simp only [hreg, mapGet_mapSet, if_true]
  exact ⟨_, rfl, rfl⟩

theorem processRows_completes (env : RunEnv) (uploadID : String) (hu : uploadID ≠ "") :
    ∀ (rows : List (List String)) (uc : statement) (k0 : Nat) (task : upload.Task),
      (∀ j, j ≤ rows.length → env.ctxDone (k0 + j) = false) →
      (∀ j (hj : j < rows.length),
        ∃ t, statement.parseTransaction (rows.get ⟨j, hj⟩) uploadID (env.newID (k0 + j))
          = .ok t) →
      (∀ j, j < rows.length → env.newID (k0 + j) ≠ "") →
      (∀ i j, i < rows.length → j < rows.length →
        env.newID (k0 + i) = env.newID (k0 + j) → i = j) →
      (∀ j, j < rows.length →
        mapGet uc.transactionRepo.transactions (env.newID (k0 + j)) = none) →
      mapGet uc.uploadRepo.task uploadID = some task →
      (∃ task', (statement.processRows env uploadID uc (k0 + 1)
            (rows.map Except.ok)).uploadRepo.GetByID uploadID = .ok task'
          ∧ task'.Status = upload.StatusCompleted)
        ∧ storedCount (statement.processRows env uploadID uc (k0 + 1)
            (rows.map Except.ok)).transactionRepo uploadID =
          storedCount uc.transactionRepo uploadID + rows.length := by
  intro rows
  induction rows with
  | nil =>
    intro uc k0 task hctx _ _ _ _ hreg
    have hc : env.ctxDone (k0 + 1 - 1) = false := by
      have := hctx 0 (le_refl _)
      simpa using this
    unfold statement.processRows
    simp only [List.map_nil, hc, Bool.false_eq_true, if_false]
    obtain ⟨h1, h2⟩ := markUploadAsCompleted_result env
      { uc with trace := uc.trace ++ [Effect.read none] } uploadID task hreg
    exact ⟨h2, by rw [h1]; simp⟩
  | cons r rest ih =>
    intro uc k0 task hctx hparse hne hinj hfresh hreg
    have hc : env.ctxDone k0 = false := by
      have := hctx 0 (Nat.zero_le _)
      simpa using this
    obtain ⟨t, ht⟩ := hparse 0 (by simp)
    simp only [List.get_eq_getElem, List.getElem_cons_zero, Nat.add_zero] at ht
    obtain ⟨hid, hup⟩ := parseTransaction_ok_ids _ _ _ _ ht
    have hok : SaveOk uc.transactionRepo t := by
      refine ⟨?_, ?_, ?_⟩
      · rw [hid]; simpa using hne 0 (by simp)
      · rw [hup]; exact hu
      · rw [hid]; simpa using hfresh 0 (by simp)
    have herr := (Save_err_none_iff uc.transactionRepo t).mpr hok
    have hget : ∀ k, mapGet (uc.transactionRepo.Save (some t)).1.transactions k =
        if t.ID = k then some t else mapGet uc.transactionRepo.transactions k := by
      intro k
      rw [Save_transactions _ _ hok, ← mapSet_of_get_none _ _ _ hok.2.2, mapGet_mapSet]
    have hcount := storedCount_Save uc.transactionRepo t hok uploadID
    rw [if_pos hup] at hcount
    have hctx' : ∀ j, j ≤ rest.length → env.ctxDone (k0 + 1 + j) = false := by
      intro j hj
      have := hctx (j + 1) (by simp; omega)
      rw [show k0 + 1 + j = k0 + (j + 1) by omega]
      exact this
    have hparse' : ∀ j (hj : j < rest.length),
        ∃ t, statement.parseTransaction (rest.get ⟨j, hj⟩) uploadID (env.newID (k0 + 1 + j))
          = .ok t := by
      intro j hj
      have := hparse (j + 1) (by simp; omega)
      rw [show k0 + 1 + j = k0 + (j + 1) by omega]
      simpa using this
    have hne' : ∀ j, j < rest.length → env.newID (k0 + 1 + j) ≠ "" := by
      intro j hj
      rw [show k0 + 1 + j = k0 + (j + 1) by omega]
      exact hne (j + 1) (by simp; omega)
    have hinj' : ∀ i j, i < rest.length → j < rest.length →
        env.newID (k0 + 1 + i) = env.newID (k0 + 1 + j) → i = j := by
      intro i j hi hj h
      rw [show k0 + 1 + i = k0 + (i + 1) by omega,
        show k0 + 1 + j = k0 + (j + 1) by omega] at h
      have := hinj (i + 1) (j + 1) (by simp; omega) (by simp; omega) h
      omega
    have hfresh' : ∀ j, j < rest.length →
        mapGet (uc.transactionRepo.Save (some t)).1.transactions (env.newID (k0 + 1 + j))
          = none := by
      intro j hj
      rw [hget, hid]
      have hneq : env.newID (k0 + 0) ≠ env.newID (k0 + 1 + j) := by
        intro h
        rw [show k0 + 1 + j = k0 + (j + 1) by omega] at h
        have := hinj 0 (j + 1) (by simp) (by simp; omega) h
        omega
      rw [if_neg (by simpa using hneq)]
      rw [show k0 + 1 + j = k0 + (j + 1) by omega]
      exact hfresh (j + 1) (by simp; omega)
    unfold statement.processRows
    simp only [List.map_cons, hc, Bool.false_eq_true, if_false, Nat.add_sub_cancel, ht]
    cases hsave : uc.transactionRepo.Save (some t) with
    | mk repo serr =>
      rw [hsave] at herr hfresh' hcount
      simp only at herr hfresh' hcount
      subst herr
      simp only
      by_cases hf : t.Status = transaction.StatusFailed
      · rw [if_pos hf]
        obtain ⟨h1, h2⟩ := ih
          { uc with
            transactionRepo := repo
            trace := uc.trace ++ [Effect.read (some (.ok r))] ++ [Effect.save t none]
              ++ [Effect.publish (NewFailedTransactionEvent t.ID uploadID t.Counterparty
                t.Description t.Timestamp t.Amount
                (env.now (uc.trace ++ [Effect.read (some (.ok r))]
                  ++ [Effect.save t none]).length))] }
          (k0 + 1) task hctx' hparse' hne' hinj' hfresh' hreg
        refine ⟨h1, ?_⟩
        rw [h2, hcount]
        simp only [List.length_cons]
        omega
      · rw [if_neg hf]
        obtain ⟨h1, h2⟩ := ih
          { uc with
            transactionRepo := repo
            trace := uc.trace ++ [Effect.read (some (.ok r))] ++ [Effect.save t none] }
          (k0 + 1) task hctx' hparse' hne' hinj' hfresh' hreg
        refine ⟨h1, ?_⟩
        rw [h2, hcount]
        simp only [List.length_cons]
        omega

/-- C10: for a file consisting of a header followed by `n` records that each parse
successfully, with generated transaction IDs that are non-empty, pairwise distinct and not
yet stored, a registered upload task with a non-empty ID and no cancellation,
`processStatement` ends with the upload task in status `completed` and with exactly `n`
more transactions stored for that upload ID (exactly `n` when none was stored before). -/
theorem processStatement_completes (env : RunEnv) (uc : statement) (uploadID : String)
    (header : List String) (rows : List (List String)) (task : upload.Task)
    (hu : uploadID ≠ "")
    (hreg : mapGet uc.uploadRepo.task uploadID = some task)
    (hctx : ∀ k, k ≤ rows.length → env.ctxDone k = false)
    (hparse : ∀ k (hk : k < rows.length),
      ∃ t, statement.parseTransaction (rows.get ⟨k, hk⟩) uploadID (env.newID k) = .ok t)
    (hne : ∀ k, k < rows.length → env.newID k ≠ "")
    (hinj : ∀ i j, i < rows.length → j < rows.length → env.newID i = env.newID j → i = j)
    (hfresh : ∀ k, k < rows.length →
      mapGet uc.transactionRepo.transactions (env.newID k) = none) :
    (∃ task', (statement.processStatement env uc uploadID
          (.ok header :: rows.map Except.ok)).uploadRepo.GetByID uploadID = .ok task'
        ∧ task'.Status = upload.StatusCompleted)
      ∧ storedCount (statement.processStatement env uc uploadID
          (.ok header :: rows.map Except.ok)).transactionRepo uploadID =
        storedCount uc.transactionRepo uploadID + rows.length := by
  have h := processRows_completes env uploadID hu rows
    { uc with trace := uc.trace ++ [Effect.read (some (.ok header))] } 0 task
    (by simpa using hctx) (by simpa using hparse) (by simpa using hne) (by simpa using hinj)
    (by simpa using hfresh) hreg
  unfold statement.processStatement
  simpa using h

/-- C10 (witness): the file of the integration test, five well-formed rows, ingested for
the registered upload `u` into fresh repositories. -/
theorem processStatement_completes_witness :
    (∃ task', (statement.processStatement sampleEnv sampleStatement "u"
          (.ok csvHeader :: testRows.map Except.ok)).uploadRepo.GetByID "u" = .ok task'
        ∧ task'.Status = upload.StatusCompleted)
      ∧ storedCount (statement.processStatement sampleEnv sampleStatement "u"
          (.ok csvHeader :: testRows.map Except.ok)).transactionRepo "u" =
        storedCount sampleStatement.transactionRepo "u" + testRows.length :=
  processStatement_completes sampleEnv sampleStatement "u" csvHeader testRows sampleTask
    (by decide) (by decide) (fun _ _ => rfl)
    (fun k hk =>
      match k, hk with
      | 0, _ => ⟨_, rfl⟩
      | 1, _ => ⟨_, rfl⟩
      | 2, _ => ⟨_, rfl⟩
      | 3, _ => ⟨_, rfl⟩
      | 4, _ => ⟨_, rfl⟩
      | k + 5, h => absurd h (by simp [testRows]))
    (by decide)
    (fun i j hi hj =>
      (by decide : ∀ i, i < 5 → ∀ j, j < 5 →
        sampleEnv.newID i = sampleEnv.newID j → i = j) i hi j hj)
    (fun _ _ => rfl)

/-! ## Lemmas: the processed cache of the reconciliation consumer -/

theorem length_mapSet {V : Type} (m : GoMap V) (k : String) (v : V) :
    (mapSet m k v).length = if (mapGet m k).isSome then m.length else m.length + 1 := by
  induction m with
  | nil => simp [mapSet, mapGet]
  | cons p rest ih =>
    obtain ⟨k0, v0⟩ := p
    by_cases h0 : k0 = k
    · simp [mapSet, mapGet, h0]
    · simp only [mapSet, mapGet, h0, if_false, List.length_cons, ih]
      split <;> rfl

theorem reconciled_eq_false_iff (env : EventEnv) (r : EventResult) :
    r.reconciled env = false ↔
      ∀ a, ConsumerAction.reconcile a ∈ r.actions → env.reconcile a ≠ none := by
  unfold EventResult.reconciled
  rw [List.any_eq_false]
  constructor
  · intro h a ha hn
    have := h _ ha
    simp [hn] at this
  · intro h x hx
    cases x with
    | backoff d => simp
    | reconcile a =>
      have := h a hx
      simpa using this

/-- What the retry loop leaves behind: either an attempt succeeded, the transaction is marked
and the error is `nil`, or no attempt succeeded and the consumer is unchanged. -/
theorem retryLoop_outcome (c : ReconciliationConsumer) (env : EventEnv)
    (evt : FailedTransactionEvent) :
    ∀ (fuel attempt : Nat) (lastErr : Option String) (acts : List ConsumerAction),
      (∀ a, ConsumerAction.reconcile a ∈ acts → env.reconcile a ≠ none) →
      ((c.retryLoop env evt fuel attempt lastErr acts).reconciled env = true
          ∧ (c.retryLoop env evt fuel attempt lastErr acts).consumer =
              c.markAsProcessed evt.TransactionID
          ∧ (c.retryLoop env evt fuel attempt lastErr acts).err = none)
        ∨ ((c.retryLoop env evt fuel attempt lastErr acts).reconciled env = false
          ∧ (c.retryLoop env evt fuel attempt lastErr acts).consumer = c) := by
  intro fuel
  induction fuel with
  | zero =>
    intro attempt lastErr acts hacts
    right
    refine ⟨?_, rfl⟩
    rw [reconciled_eq_false_iff]
    exact hacts
  | succ fuel ih =>
    intro attempt lastErr acts hacts
    have hacts1 : ∀ a, ConsumerAction.reconcile a ∈
        (if attempt > 0 then acts ++ [ConsumerAction.backoff (c.calculateBackoff attempt)]
          else acts) → env.reconcile a ≠ none := by
      intro a ha
      split at ha
      · rcases List.mem_append.mp ha with h | h
        · exact hacts a h
        · simp at h
      · exact hacts a ha
    unfold ReconciliationConsumer.retryLoop
    by_cases hguard : (attempt : Int) < c.maxRetries
    · rw [if_neg (not_not.mpr hguard)]
      by_cases hdone : env.ctxDone attempt = true
      · rw [if_pos hdone]
        right
        refine ⟨?_, rfl⟩
        rw [reconciled_eq_false_iff]
        exact hacts
      · rw [if_neg hdone]
        dsimp only
        by_cases hback : attempt > 0 ∧ env.ctxDoneInBackoff attempt = true
        · rw [if_pos hback]
          right
          refine ⟨?_, rfl⟩
          rw [reconciled_eq_false_iff]
          exact hacts1
        · rw [if_neg hback]
          cases hrec : env.reconcile attempt with
          | none =>
            left
            refine ⟨?_, rfl, rfl⟩
            unfold EventResult.reconciled
            rw [List.any_eq_true]
            exact ⟨ConsumerAction.reconcile attempt, by simp, by simp [hrec]⟩
          | some err =>
            have hacts2 : ∀ a, ConsumerAction.reconcile a ∈
                (if attempt > 0 then
                    acts ++ [ConsumerAction.backoff (c.calculateBackoff attempt)]
                  else acts) ++ [ConsumerAction.reconcile attempt] →
                env.reconcile a ≠ none := by
              intro a ha
              rcases List.mem_append.mp ha with h | h
              · exact hacts1 a h
              · simp only [List.mem_singleton, ConsumerAction.reconcile.injEq] at h
                rw [h, hrec]
                simp
            dsimp only
            by_cases hlast : (attempt : Int) = c.maxRetries - 1
            · rw [if_pos hlast]
              right
              refine ⟨?_, rfl⟩
              rw [reconciled_eq_false_iff]
              exact hacts2
            · rw [if_neg hlast]
              exact ih (attempt + 1) (some err) _ hacts2
    · rw [if_pos hguard]
      right
      refine ⟨?_, rfl⟩
      rw [reconciled_eq_false_iff]
      exact hacts

/-- What `processEvent` leaves behind: either an attempt succeeded, the transaction was not
in the cache before and is marked now, and the error is `nil`; or no attempt succeeded and
the consumer is unchanged. -/
theorem processEvent_outcome (c : ReconciliationConsumer) (env : EventEnv)
    (evt : FailedTransactionEvent) :
    ((c.processEvent env evt).reconciled env = true
        ∧ c.isAlreadyProcessed evt.TransactionID = false
        ∧ (c.processEvent env evt).consumer = c.markAsProcessed evt.TransactionID
        ∧ (c.processEvent env evt).err = none)
      ∨ ((c.processEvent env evt).reconciled env = false
        ∧ (c.processEvent env evt).consumer = c) := by
  unfold ReconciliationConsumer.processEvent
  by_cases hp : c.isAlreadyProcessed evt.TransactionID = true
  · rw [if_pos hp]
    right
    exact ⟨rfl, rfl⟩
  · rw [if_neg hp]
    rcases retryLoop_outcome c env evt c.maxRetries.toNat 0 none [] (by simp) with h | h
    · left
      exact ⟨h.1, by simpa using hp, h.2.1, h.2.2⟩
    · right
      exact h

theorem reconciled_eq_true_iff (env : EventEnv) (r : EventResult) :
    r.reconciled env = true ↔
      ∃ a, ConsumerAction.reconcile a ∈ r.actions ∧ env.reconcile a = none := by
  constructor
  · intro h
    by_contra hne
    have hf : r.reconciled env = false := by
      rw [reconciled_eq_false_iff]
      intro a ha hn
      exact hne ⟨a, ha, hn⟩
    rw [h] at hf
    cases hf
  · rintro ⟨a, ha, hn⟩
    by_contra hne
    have hf : r.reconciled env = false := by simpa using hne
    rw [reconciled_eq_false_iff] at hf
    exact hf a ha hn

theorem isAlreadyProcessed_markAsProcessed (c : ReconciliationConsumer) (x id : String) :
    (c.markAsProcessed x).isAlreadyProcessed id =
      (decide (x = id) || c.isAlreadyProcessed id) := by
  unfold ReconciliationConsumer.markAsProcessed ReconciliationConsumer.isAlreadyProcessed
  simp only [mapGet_mapSet]
  by_cases h : x = id <;> simp [h]

theorem mapKeys_markAsProcessed (c : ReconciliationConsumer) (x : String)
    (h : c.isAlreadyProcessed x = false) :
    mapKeys (c.markAsProcessed x).processedCache = mapKeys c.processedCache ++ [x]
      ∧ x ∉ mapKeys c.processedCache := by
  unfold ReconciliationConsumer.isAlreadyProcessed at h
  have hnone : mapGet c.processedCache x = none := by
    cases hg : mapGet c.processedCache x with
    | none => rfl
    | some v => rw [hg] at h; cases h
  refine ⟨?_, ?_⟩
  · unfold ReconciliationConsumer.markAsProcessed
    simp only [mapSet_of_get_none _ _ _ hnone, mapKeys, List.map_append, List.map_cons,
      List.map_nil]
  · intro hmem
    rw [← mapGet_isSome_iff, hnone] at hmem
    cases hmem

/-- The keys of the cache after a sequence of deliveries are the keys before, followed by
the transaction IDs reconciled with success, and they stay pairwise distinct. -/
theorem handleAll_keys (deliveries : List (EventEnv × Event)) :
    ∀ c : ReconciliationConsumer, (mapKeys c.processedCache).Nodup →
      mapKeys (c.handleAll deliveries).processedCache =
          mapKeys c.processedCache ++ c.reconciledIDs deliveries
        ∧ (mapKeys (c.handleAll deliveries).processedCache).Nodup := by
  induction deliveries with
  | nil =>
    intro c hnd
    simp [ReconciliationConsumer.handleAll, ReconciliationConsumer.reconciledIDs, hnd]
  | cons d rest ih =>
    intro c hnd
    obtain ⟨env, evt⟩ := d
    unfold ReconciliationConsumer.handleAll ReconciliationConsumer.reconciledIDs
    cases evt with
    | other ty tm =>
      have := ih c hnd
      simpa [ReconciliationConsumer.handleEvent] using this
    | failedTransaction e =>
      simp only [ReconciliationConsumer.handleEvent]
      rcases processEvent_outcome c env e with ⟨h1, h2, h3, -⟩ | ⟨h1, h3⟩
      · obtain ⟨hkeys, hnot⟩ := mapKeys_markAsProcessed c e.TransactionID h2
        have hnd' : (mapKeys (c.processEvent env e).consumer.processedCache).Nodup := by
          rw [h3, hkeys]
          exact List.Nodup.append hnd (List.nodup_singleton _)
            (by
              intro a ha hb
              rw [List.mem_singleton] at hb
              rw [hb] at ha
              exact hnot ha)
        obtain ⟨ih1, ih2⟩ := ih _ hnd'
        refine ⟨?_, ih2⟩
        rw [ih1, h1, if_pos rfl, h3, hkeys, List.append_assoc]
      · have hnd' : (mapKeys (c.processEvent env e).consumer.processedCache).Nodup := by
          rw [h3]; exact hnd
        obtain ⟨ih1, ih2⟩ := ih _ hnd'
        refine ⟨?_, ih2⟩
        rw [ih1, h1, h3]
        simp

/-! ## Theorems: de-duplication and the processed cache -/

/-- C19: in every consumer state in which the transaction ID of an event is in the processed
cache, `processEvent` returns `nil`, makes no reconciliation attempt and no backoff wait
and leaves the consumer unchanged; hence, after a first handling in which an attempt
succeeded, the ID is in the cache exactly once and a second delivery of the event is a
no-op. -/
theorem processEvent_dedup (c : ReconciliationConsumer) (env1 env2 : EventEnv)
    (evt : FailedTransactionEvent) :
    (c.isAlreadyProcessed evt.TransactionID = true →
        c.processEvent env2 evt = { consumer := c, err := none, actions := [] })
    ∧ ((c.processEvent env1 evt).reconciled env1 = true →
        (c.processEvent env1 evt).consumer.isAlreadyProcessed evt.TransactionID = true
        ∧ (mapKeys (c.processEvent env1 evt).consumer.processedCache).count
            evt.TransactionID = 1
        ∧ (c.processEvent env1 evt).consumer.processEvent env2 evt =
            { consumer := (c.processEvent env1 evt).consumer, err := none, actions := [] }) := by
  have hskip : ∀ c' : ReconciliationConsumer, c'.isAlreadyProcessed evt.TransactionID = true →
      c'.processEvent env2 evt = { consumer := c', err := none, actions := [] } := by
    intro c' h
    unfold ReconciliationConsumer.processEvent
    rw [if_pos h]
  refine ⟨hskip c, ?_⟩
  intro hrec
  rcases processEvent_outcome c env1 evt with ⟨-, h2, h3, -⟩ | ⟨h1, -⟩
  · have hmark : (c.processEvent env1 evt).consumer.isAlreadyProcessed evt.TransactionID
        = true := by
      rw [h3, isAlreadyProcessed_markAsProcessed]
      simp
    obtain ⟨hkeys, hnot⟩ := mapKeys_markAsProcessed c evt.TransactionID h2
    refine ⟨hmark, ?_, hskip _ hmark⟩
    rw [h3, hkeys, List.count_append, List.count_eq_zero_of_not_mem hnot]
    simp
  · rw [hrec] at h1
    cases h1

/-- C19 (witness): the consumer built by `NewReconciliationConsumer` handles the same event
twice; the first handling succeeds at its second attempt, the second handling does
nothing. -/
theorem processEvent_dedup_witness :
    ((NewReconciliationConsumer 3).processEvent (failingFirst 1) sampleEvent).reconciled
        (failingFirst 1) = true
      ∧ ((NewReconciliationConsumer 3).processEvent (failingFirst 1)
          sampleEvent).consumer.processEvent alwaysFailing sampleEvent =
        { consumer := ((NewReconciliationConsumer 3).processEvent (failingFirst 1)
            sampleEvent).consumer
          err := none, actions := [] } :=
  ⟨by decide,
    ((processEvent_dedup (NewReconciliationConsumer 3) (failingFirst 1) alwaysFailing
      sampleEvent).2 (by decide)).2.2⟩

/-- C20: the processed cache only grows, and only on success. Handling an event puts an ID in
the cache only if the event is a `FailedTransactionEvent` with that transaction ID and a
reconciliation attempt made for it returned success; an ID in the cache stays in it whatever
the event and the outcome, and `GetProcessedCount` does not decrease; and after any
sequence of deliveries to a consumer built by `NewReconciliationConsumer`, the count is the
number of distinct transaction IDs reconciled with success so far, each of them reconciled
once. -/
theorem processedCache_only_grows (c : ReconciliationConsumer) (env : EventEnv) (evt : Event) :
    (∀ id, (c.handleEvent env evt).consumer.isAlreadyProcessed id = true →
        c.isAlreadyProcessed id = false →
        ∃ e, evt = Event.failedTransaction e ∧ id = e.TransactionID
          ∧ ∃ a, ConsumerAction.reconcile a ∈ (c.processEvent env e).actions
            ∧ env.reconcile a = none)
    ∧ (∀ id, c.isAlreadyProcessed id = true →
        (c.handleEvent env evt).consumer.isAlreadyProcessed id = true)
    ∧ c.GetProcessedCount ≤ (c.handleEvent env evt).consumer.GetProcessedCount
    ∧ (∀ (workerCount : Int) (deliveries : List (EventEnv × Event)),
        ((NewReconciliationConsumer workerCount).handleAll deliveries).GetProcessedCount =
            ((((NewReconciliationConsumer workerCount).reconciledIDs deliveries).dedup.length
              : Nat) : Int)
          ∧ ((NewReconciliationConsumer workerCount).reconciledIDs deliveries).Nodup) := by
  refine ⟨?_, ?_, ?_, ?_⟩
  · intro id hafter hbefore
    cases evt with
    | other ty tm =>
      simp only [ReconciliationConsumer.handleEvent] at hafter
      rw [hbefore] at hafter
      cases hafter
    | failedTransaction e =>
      simp only [ReconciliationConsumer.handleEvent] at hafter
      rcases processEvent_outcome c env e with ⟨h1, -, h3, -⟩ | ⟨-, h3⟩
      · rw [h3, isAlreadyProcessed_markAsProcessed, hbefore] at hafter
        have hid : e.TransactionID = id := by simpa using hafter
        exact ⟨e, rfl, hid.symm, (reconciled_eq_true_iff env _).mp h1⟩
      · rw [h3, hbefore] at hafter
        cases hafter
  · intro id hbefore
    cases evt with
    | other ty tm => exact hbefore
    | failedTransaction e =>
      simp only [ReconciliationConsumer.handleEvent]
      rcases processEvent_outcome c env e with ⟨-, -, h3, -⟩ | ⟨-, h3⟩
      · rw [h3, isAlreadyProcessed_markAsProcessed, hbefore]
        simp
      · rw [h3]; exact hbefore
  · cases evt with
    | other ty tm => exact le_refl _
    | failedTransaction e =>
      simp only [ReconciliationConsumer.handleEvent]
      rcases processEvent_outcome c env e with ⟨-, -, h3, -⟩ | ⟨-, h3⟩
      · rw [h3]
        unfold ReconciliationConsumer.GetProcessedCount ReconciliationConsumer.markAsProcessed
        simp only [length_mapSet]
        split <;> omega
      · rw [h3]
  · intro workerCount deliveries
    obtain ⟨hkeys, hnd⟩ := handleAll_keys deliveries (NewReconciliationConsumer workerCount)
      (by simp [NewReconciliationConsumer, mapKeys])
    have hk : mapKeys (NewReconciliationConsumer workerCount).processedCache = [] := rfl
    rw [hk, List.nil_append] at hkeys
    rw [hkeys] at hnd
    refine ⟨?_, hnd⟩
    unfold ReconciliationConsumer.GetProcessedCount
    rw [hnd.dedup, ← hkeys]
    simp [mapKeys]

/-! ## Lemmas: the event bus -/

theorem chanSend_done (chans chans1 : List Chan) (ch : Nat) (event : Event)
    (h : chanSend chans ch event = .done chans1) :
    ∃ c, chans[ch]? = some c ∧ c.closed = false ∧ (c.buffer.length : Int) < c.capacity
      ∧ chans1 = chans.set ch { c with buffer := c.buffer ++ [event] } := by
  unfold chanSend at h
  cases hg : chans[ch]? with
  | none => rw [hg] at h; cases h
  | some c =>
    rw [hg] at h
    dsimp only at h
    split_ifs at h with h1 h2
    simp only [Outcome.done.injEq] at h
    exact ⟨c, rfl, by simpa using h1, by omega, h.symm⟩

theorem chanClose_done (chans chans1 : List Chan) (ch : Nat)
    (h : chanClose chans ch = .done chans1) :
    ∃ c, chans[ch]? = some c ∧ c.closed = false
      ∧ chans1 = chans.set ch { c with closed := true } := by
  unfold chanClose at h
  cases hg : chans[ch]? with
  | none => rw [hg] at h; cases h
  | some c =>
    rw [hg] at h
    dsimp only at h
    split_ifs at h with h1
    simp only [Outcome.done.injEq] at h
    exact ⟨c, rfl, by simpa using h1, h.symm⟩

/-- A `Publish` loop that returns has appended the event to the buffer of every channel of
the list and has left every other channel as it was. -/
theorem publishLoop_done (event : Event) :
    ∀ (subs : List Nat) (chans chans' : List Chan), subs.Nodup →
      publishLoop event subs chans = .done chans' →
      chans'.length = chans.length
        ∧ ∀ i, chans'[i]? =
          if i ∈ subs then
            chans[i]?.map (fun c => { c with buffer := c.buffer ++ [event] })
          else chans[i]? := by
  intro subs
  induction subs with
  | nil =>
    intro chans chans' _ h
    simp only [publishLoop, Outcome.done.injEq] at h
    subst h
    simp
  | cons ch rest ih =>
    intro chans chans' hnd h
    rw [List.nodup_cons] at hnd
    unfold publishLoop at h
    cases hs : chanSend chans ch event with
    | blocks => rw [hs] at h; cases h
    | panics => rw [hs] at h; cases h
    | done chans1 =>
      rw [hs] at h
      dsimp only at h
      obtain ⟨c, hc, -, -, hset⟩ := chanSend_done _ _ _ _ hs
      obtain ⟨hlen, hget⟩ := ih chans1 chans' hnd.2 h
      refine ⟨by rw [hlen, hset, List.length_set], fun i => ?_⟩
      rw [hget i, hset, List.getElem?_set]
      have hlt : ch < chans.length := by
        rw [List.getElem?_eq_some_iff] at hc
        exact hc.1
      by_cases hi : ch = i
      · subst hi
        simp [hnd.1, hlt, hc]
      · by_cases hr : i ∈ rest
        · simp [hi, hr, Ne.symm hi]
        · simp [hi, hr, Ne.symm hi]

/-- A `Close` loop over pairwise distinct open channels returns, having closed each of them
and left every other channel as it was. -/
theorem closeLoop_done :
    ∀ (subs : List Nat) (chans : List Chan), subs.Nodup →
      (∀ ch ∈ subs, ∃ c, chans[ch]? = some c ∧ c.closed = false) →
      ∃ chans', closeLoop subs chans = .done chans'
        ∧ chans'.length = chans.length
        ∧ ∀ i, chans'[i]? =
          if i ∈ subs then chans[i]?.map (fun c => { c with closed := true })
          else chans[i]? := by
  intro subs
  induction subs with
  | nil =>
    intro chans _ _
    exact ⟨chans, rfl, rfl, by simp⟩
  | cons ch rest ih =>
    intro chans hnd hopen
    rw [List.nodup_cons] at hnd
    obtain ⟨c, hc, hcl⟩ := hopen ch (List.mem_cons_self _ _)
    have hlt : ch < chans.length := by
      rw [List.getElem?_eq_some_iff] at hc
      exact hc.1
    have hstep : chanClose chans ch = .done (chans.set ch { c with closed := true }) := by
      unfold chanClose
      rw [hc]
      simp [hcl]
    have hopen' : ∀ ch' ∈ rest,
        ∃ c', (chans.set ch { c with closed := true })[ch']? = some c' ∧ c'.closed = false := by
      intro ch' hmem
      have hne : ch ≠ ch' := by
        intro h; rw [h] at hnd; exact hnd.1 hmem
      rw [List.getElem?_set_ne hne]
      exact hopen ch' (List.mem_cons_of_mem _ hmem)
    obtain ⟨chans', hloop, hlen, hget⟩ := ih _ hnd.2 hopen'
    refine ⟨chans', ?_, by rw [hlen, List.length_set], fun i => ?_⟩
    · unfold closeLoop
      rw [hstep]
      exact hloop
    · rw [hget i, List.getElem?_set]
      by_cases hi : ch = i
      · subst hi
        simp [hnd.1, hlt, hc]
      · by_cases hr : i ∈ rest
        · simp [hi, hr, Ne.symm hi]
        · simp [hi, hr, Ne.symm hi]

/-- A `Publish` loop over open channels does not panic. -/
theorem publishLoop_ne_panics (event : Event) :
    ∀ (subs : List Nat) (chans : List Chan), subs.Nodup →
      (∀ ch ∈ subs, ∃ c, chans[ch]? = some c ∧ c.closed = false) →
      publishLoop event subs chans ≠ .panics := by
  intro subs
  induction subs with
  | nil =>
    intro chans _ _ h
    simp [publishLoop] at h
  | cons ch rest ih =>
    intro chans hnd hopen
    rw [List.nodup_cons] at hnd
    obtain ⟨c, hc, hcl⟩ := hopen ch (List.mem_cons_self _ _)
    unfold publishLoop
    cases hs : chanSend chans ch event with
    | blocks => simp
    | panics =>
      unfold chanSend at hs
      rw [hc] at hs
      dsimp only at hs
      rw [if_neg (by simp [hcl])] at hs
      split_ifs at hs
    | done chans1 =>
      dsimp only
      obtain ⟨c1, hc1, -, -, hset⟩ := chanSend_done _ _ _ _ hs
      apply ih chans1 hnd.2
      intro ch' hmem
      have hne : ch ≠ ch' := by
        intro h; rw [h] at hnd; exact hnd.1 hmem
      rw [hset, List.getElem?_set_ne hne]
      exact hopen ch' (List.mem_cons_of_mem _ hmem)

theorem WF_NewBusWithBuffer (bufferSize : Int) : (NewBusWithBuffer bufferSize).WF := by
  refine ⟨List.nodup_nil, ?_, fun _ => rfl⟩
  intro ch hch
  simp [NewBusWithBuffer] at hch

/-- Every call on the bus that returns keeps the state well-formed. -/
theorem step_WF (b b1 : bus) (op : BusOp) (hwf : b.WF) (h : b.step op = .done b1) :
    b1.WF := by
  obtain ⟨hnd, hopen, hclosed⟩ := hwf
  cases op with
  | subscribe =>
    simp only [bus.step, bus.Subscribe] at h
    by_cases hc : b.closed = true
    · rw [if_pos hc] at h
      simp only [Outcome.done.injEq] at h
      subst h
      have hsub := hclosed hc
      refine ⟨by simpa using hnd, ?_, fun _ => hsub⟩
      intro ch hch
      simp only [hsub, List.not_mem_nil] at hch
    · rw [if_neg hc] at h
      by_cases hneg : b.bufferSize < 0
      · rw [if_pos hneg] at h
        cases h
      · rw [if_neg hneg] at h
        simp only [Outcome.done.injEq] at h
        subst h
        have hlt : ∀ ch ∈ b.subscribers, ch < b.chans.length := by
          intro ch hch
          obtain ⟨c, hc', -⟩ := hopen ch hch
          rw [List.getElem?_eq_some_iff] at hc'
          exact hc'.1
        refine ⟨?_, ?_, fun h' => absurd h' hc⟩
        · apply List.Nodup.append hnd (List.nodup_singleton _)
          intro a ha hb
          rw [List.mem_singleton] at hb
          have := hlt a ha
          omega
        · intro ch hch
          rcases List.mem_append.mp hch with h1 | h1
          · obtain ⟨c, hc', hcl⟩ := hopen ch h1
            refine ⟨c, ?_, hcl⟩
            show (b.chans ++ _)[ch]? = some c
            rw [List.getElem?_append_left (hlt ch h1)]
            exact hc'
          · rw [List.mem_singleton] at h1
            subst h1
            exact ⟨_, List.getElem?_concat_length _ _, rfl⟩
  | publish event =>
    simp only [bus.step, bus.Publish] at h
    by_cases hc : b.closed = true
    · rw [if_pos hc] at h
      simp only [Outcome.done.injEq] at h
      subst h
      exact ⟨hnd, hopen, hclosed⟩
    · rw [if_neg hc] at h
      cases hl : publishLoop event b.subscribers b.chans with
      | blocks => rw [hl] at h; cases h
      | panics => rw [hl] at h; cases h
      | done chans' =>
        rw [hl] at h
        simp only [Outcome.done.injEq] at h
        subst h
        obtain ⟨-, hget⟩ := publishLoop_done event _ _ _ hnd hl
        refine ⟨hnd, ?_, fun h' => absurd h' hc⟩
        intro ch hch
        obtain ⟨c, hc', hcl⟩ := hopen ch hch
        refine ⟨{ c with buffer := c.buffer ++ [event] }, ?_, hcl⟩
        show chans'[ch]? = _
        rw [hget ch, if_pos hch, hc']
        rfl
  | close =>
    simp only [bus.step, bus.Close] at h
    by_cases hc : b.closed = true
    · rw [if_pos hc] at h
      simp only [Outcome.done.injEq] at h
      subst h
      exact ⟨hnd, hopen, hclosed⟩
    · rw [if_neg hc] at h
      cases hl : closeLoop b.subscribers b.chans with
      | blocks => rw [hl] at h; cases h
      | panics => rw [hl] at h; cases h
      | done chans' =>
        rw [hl] at h
        simp only [Outcome.done.injEq] at h
        subst h
        refine ⟨List.nodup_nil, ?_, fun _ => rfl⟩
        intro ch hch
        exact absurd hch (List.not_mem_nil ch)

/-- Every state that a sequence of calls reaches from a well-formed state is well-formed. -/
theorem exec_WF (ops : List BusOp) :
    ∀ (b b1 : bus), b.WF → b.exec ops = .done b1 → b1.WF := by
  induction ops with
  | nil =>
    intro b b1 hwf h
    simp only [bus.exec, Outcome.done.injEq] at h
    subst h
    exact hwf
  | cons op rest ih =>
    intro b b1 hwf h
    unfold bus.exec at h
    cases hs : b.step op with
    | blocks => rw [hs] at h; cases h
    | panics => rw [hs] at h; cases h
    | done b2 =>
      rw [hs] at h
      exact ih b2 b1 (step_WF b b2 op hwf hs) h

/-! ## Theorems: the event bus -/

/-- C16: `Subscribe` on a closed bus returns a channel that is already closed and holds no
event, and registers no subscriber: the bus stays closed, its subscriber list and
`GetSubscriberCount` are unchanged (the returned channel is not in the list of a
well-formed bus), and so is every channel made before. -/
theorem subscribe_on_closed_bus (b : bus) (h : b.closed = true) :
    ∃ b1 ch, b.Subscribe = .done (b1, ch)
      ∧ b1.chans[ch]? = some { buffer := [], capacity := 0, closed := true }
      ∧ b1.closed = true
      ∧ b1.subscribers = b.subscribers
      ∧ b1.GetSubscriberCount = b.GetSubscriberCount
      ∧ b1.bufferSize = b.bufferSize
      ∧ (∀ i, i < b.chans.length → b1.chans[i]? = b.chans[i]?)
      ∧ (b.WF → ch ∉ b1.subscribers) := by
  refine ⟨{ b with chans := b.chans ++ [{ buffer := [], capacity := 0, closed := true }] },
    b.chans.length, ?_, ?_, h, rfl, rfl, rfl, ?_, ?_⟩
  · unfold bus.Subscribe
    rw [if_pos h]
  · exact List.getElem?_concat_length _ _
  · intro i hi
    exact List.getElem?_append_left hi
  · intro hwf
    show b.chans.length ∉ b.subscribers
    rw [hwf.2.2 h]
    exact List.not_mem_nil _

/-- C16 (witness): `Subscribe` on the closed sample bus. -/
theorem subscribe_on_closed_bus_witness :
    sampleClosedBus.closed = true
      ∧ ∃ b1 ch, sampleClosedBus.Subscribe = .done (b1, ch)
        ∧ b1.chans[ch]? = some { buffer := [], capacity := 0, closed := true }
        ∧ b1.subscribers = sampleClosedBus.subscribers := by
  refine ⟨rfl, ?_⟩
  obtain ⟨b1, ch, h1, h2, -, h4, -⟩ := subscribe_on_closed_bus sampleClosedBus rfl
  exact ⟨b1, ch, h1, h2, h4⟩

/-- C17: `Close` is idempotent. On every state that calls on a new bus reach, `Close` returns
with the bus closed and the subscriber list empty; a first `Close` has closed every channel
of the list, all of them open before and none closed twice, and has left the other channels
alone; and a `Close` after it returns the same state and closes nothing. -/
theorem close_idempotent (bufferSize : Int) (ops : List BusOp) (b : bus)
    (h : (NewBusWithBuffer bufferSize).exec ops = .done b) :
    ∃ b1, b.Close = .done b1
      ∧ b1.closed = true
      ∧ b1.subscribers = []
      ∧ (∀ ch ∈ b.subscribers, ∃ c, b.chans[ch]? = some c ∧ c.closed = false
          ∧ b1.chans[ch]? = some { c with closed := true })
      ∧ (∀ i, i ∉ b.subscribers → b1.chans[i]? = b.chans[i]?)
      ∧ b1.Close = .done b1 := by
  have hwf := exec_WF ops _ _ (WF_NewBusWithBuffer bufferSize) h
  obtain ⟨hnd, hopen, hclosed⟩ := hwf
  by_cases hc : b.closed = true
  · have hclose : b.Close = .done b := by
      unfold bus.Close
      rw [if_pos hc]
    refine ⟨b, hclose, hc, hclosed hc, ?_, fun _ _ => rfl, hclose⟩
    intro ch hch
    rw [hclosed hc] at hch
    exact absurd hch (List.not_mem_nil ch)
  · obtain ⟨chans', hloop, -, hget⟩ := closeLoop_done b.subscribers b.chans hnd hopen
    refine ⟨{ b with closed := true, chans := chans', subscribers := [] }, ?_, rfl, rfl,
      ?_, ?_, ?_⟩
    · unfold bus.Close
      rw [if_neg hc, hloop]
    · intro ch hch
      obtain ⟨c, hc1, hc2⟩ := hopen ch hch
      refine ⟨c, hc1, hc2, ?_⟩
      show chans'[ch]? = _
      rw [hget ch, if_pos hch, hc1]
      rfl
    · intro i hi
      show chans'[i]? = _
      rw [hget i, if_neg hi]
    · unfold bus.Close
      rw [if_pos rfl]

/-- C17 (witness): closing the sample bus closes its two channels, and closing it again
changes nothing. -/
theorem close_idempotent_witness :
    (NewBusWithBuffer 100).exec sampleOps = .done sampleBus
      ∧ sampleBus.Close = .done sampleClosedBus
      ∧ ∃ b1, sampleBus.Close = .done b1 ∧ b1.Close = .done b1 := by
  refine ⟨by decide, by decide, ?_⟩
  obtain ⟨b1, h1, -, -, -, -, h6⟩ := close_idempotent 100 sampleOps sampleBus (by decide)
  exact ⟨b1, h1, h6⟩

/-- C18: `Publish` on a closed bus is a no-op that returns the state unchanged, so that no
channel receives the event; in every state that calls on a new bus reach, every channel of
the subscriber list is open, and `Publish` never sends on a closed channel (it does not
panic). -/
theorem publish_on_closed_bus (bufferSize : Int) (ops : List BusOp) (b : bus) (event : Event)
    (h : (NewBusWithBuffer bufferSize).exec ops = .done b) :
    (b.closed = true → b.Publish event = .done b)
      ∧ (∀ ch ∈ b.subscribers, ∃ c, b.chans[ch]? = some c ∧ c.closed = false)
      ∧ b.Publish event ≠ .panics := by
  have hwf := exec_WF ops _ _ (WF_NewBusWithBuffer bufferSize) h
  obtain ⟨hnd, hopen, -⟩ := hwf
  refine ⟨?_, hopen, ?_⟩
  · intro hc
    unfold bus.Publish
    rw [if_pos hc]
  · unfold bus.Publish
    by_cases hc : b.closed = true
    · rw [if_pos hc]
      simp
    · rw [if_neg hc]
      have hne := publishLoop_ne_panics event b.subscribers b.chans hnd hopen
      cases hl : publishLoop event b.subscribers b.chans with
      | done chans' => simp
      | blocks => simp
      | panics => exact absurd hl hne

/-- C18 (witness): publishing on the sample bus after `Close` changes nothing. -/
theorem publish_on_closed_bus_witness :
    (NewBusWithBuffer 100).exec (sampleOps ++ [BusOp.close]) = .done sampleClosedBus
      ∧ sampleClosedBus.Publish sampleBusEvent = .done sampleClosedBus :=
  ⟨by decide,
    (publish_on_closed_bus 100 (sampleOps ++ [BusOp.close]) sampleClosedBus sampleBusEvent
      (by decide)).1 rfl⟩

/-- One `Subscribe` or `Publish` call on an open bus all of whose channels are open
subscribers: the bus stays such a bus, a `Subscribe` adds one channel with an empty buffer,
and a `Publish` appends its event to the buffer of every channel. -/
theorem step_open (b b1 : bus) (op : BusOp) (hop : op ≠ BusOp.close)
    (hc : b.closed = false) (hsubs : b.subscribers = List.range b.chans.length)
    (hall : ∀ (i : Nat) (c : Chan), b.chans[i]? = some c → c.closed = false)
    (h : b.step op = .done b1) :
    b1.closed = false
      ∧ b1.subscribers = List.range b1.chans.length
      ∧ (∀ (i : Nat) (c : Chan), b1.chans[i]? = some c → c.closed = false)
      ∧ b1.chans.length = b.chans.length + subscribeCount [op]
      ∧ (∀ (i : Nat) (c : Chan), b.chans[i]? = some c →
          ∃ c1, b1.chans[i]? = some c1 ∧ c1.buffer = c.buffer ++ eventsOf [op])
      ∧ (op = BusOp.subscribe →
          ∃ c1, b1.chans[b.chans.length]? = some c1 ∧ c1.buffer = []) := by
  cases op with
  | close => exact absurd rfl hop
  | subscribe =>
    simp only [bus.step, bus.Subscribe] at h
    rw [if_neg (by simp [hc])] at h
    by_cases hneg : b.bufferSize < 0
    · rw [if_pos hneg] at h
      cases h
    · rw [if_neg hneg] at h
      simp only [Outcome.done.injEq] at h
      subst h
      refine ⟨hc, ?_, ?_, ?_, ?_, ?_⟩
      · show b.subscribers ++ [b.chans.length] = List.range (b.chans ++ [_]).length
        rw [hsubs, List.length_append, List.length_singleton, List.range_succ]
      · intro i c hi
        have hi' : (b.chans ++ [{ buffer := [], capacity := b.bufferSize, closed := false }])[i]?
            = some c := hi
        rw [List.getElem?_append] at hi'
        split at hi'
        · exact hall i c hi'
        · rcases List.getElem?_eq_some_iff.mp hi' with ⟨hlt, heq⟩
          simp only [List.length_singleton, Nat.lt_one_iff] at hlt
          simp only [hlt, List.getElem_cons_zero] at heq
          rw [← heq]
      · show (b.chans ++ [_]).length = _
        simp [subscribeCount]
      · intro i c hi
        refine ⟨c, ?_, by simp [eventsOf]⟩
        show (b.chans ++ [_])[i]? = some c
        rw [List.getElem?_append_left (List.getElem?_eq_some_iff.mp hi).1]
        exact hi
      · intro _
        exact ⟨_, List.getElem?_concat_length _ _, rfl⟩
  | publish event =>
    simp only [bus.step, bus.Publish] at h
    rw [if_neg (by simp [hc])] at h
    cases hl : publishLoop event b.subscribers b.chans with
    | blocks => rw [hl] at h; cases h
    | panics => rw [hl] at h; cases h
    | done chans' =>
      rw [hl] at h
      simp only [Outcome.done.injEq] at h
      subst h
      obtain ⟨hlen, hget⟩ := publishLoop_done event _ _ _
        (by rw [hsubs]; exact List.nodup_range _) hl
      have hget' : ∀ i : Nat, chans'[i]? =
          b.chans[i]?.map (fun c : Chan => { c with buffer := c.buffer ++ [event] }) := by
        intro i
        rw [hget i, hsubs]
        by_cases hi : i < b.chans.length
        · rw [if_pos (List.mem_range.mpr hi)]
        · rw [if_neg (fun hm => hi (List.mem_range.mp hm))]
          rw [List.getElem?_eq_none (by omega)]
          rfl
      refine ⟨hc, ?_, ?_, ?_, ?_, ?_⟩
      · show b.subscribers = List.range chans'.length
        rw [hlen, hsubs]
      · intro i c hi
        have hi' : chans'[i]? = some c := hi
        rw [hget' i] at hi'
        cases hb : b.chans[i]? with
        | none => rw [hb] at hi'; cases hi'
        | some c0 =>
          rw [hb] at hi'
          simp only [Option.map_some', Option.some.injEq] at hi'
          rw [← hi']
          exact hall i c0 hb
      · show chans'.length = _
        simp [hlen, subscribeCount]
      · intro i c hi
        refine ⟨{ c with buffer := c.buffer ++ [event] }, ?_, by simp [eventsOf]⟩
        show chans'[i]? = _
        rw [hget' i, hi]
        rfl
      · intro hsub
        cases hsub

/-- A sequence of `Subscribe` and `Publish` calls on an open bus all of whose channels are
open subscribers: every channel there before has received the events of all the `Publish`
calls, and the channel of each `Subscribe` call exactly the events published after it. -/
theorem exec_open (ops : List BusOp) :
    ∀ (b b1 : bus), (∀ op ∈ ops, op ≠ BusOp.close) →
      b.closed = false → b.subscribers = List.range b.chans.length →
      (∀ (i : Nat) (c : Chan), b.chans[i]? = some c → c.closed = false) →
      b.exec ops = .done b1 →
      b1.closed = false
        ∧ b1.subscribers = List.range b1.chans.length
        ∧ (∀ (i : Nat) (c : Chan), b1.chans[i]? = some c → c.closed = false)
        ∧ b1.chans.length = b.chans.length + subscribeCount ops
        ∧ (∀ (i : Nat) (c : Chan), b.chans[i]? = some c →
            ∃ c1, b1.chans[i]? = some c1 ∧ c1.buffer = c.buffer ++ eventsOf ops)
        ∧ (∀ pre post, ops = pre ++ BusOp.subscribe :: post →
            ∃ c1, b1.chans[b.chans.length + subscribeCount pre]? = some c1
              ∧ c1.buffer = eventsOf post) := by
  induction ops with
  | nil =>
    intro b b1 _ hc hsubs hall h
    simp only [bus.exec, Outcome.done.injEq] at h
    subst h
    refine ⟨hc, hsubs, hall, by simp [subscribeCount], ?_, ?_⟩
    · intro i c hi
      exact ⟨c, hi, by simp [eventsOf]⟩
    · intro pre post hsplit
      simp at hsplit
  | cons op rest ih =>
    intro b b1 hops hc hsubs hall h
    unfold bus.exec at h
    cases hs : b.step op with
    | blocks => rw [hs] at h; cases h
    | panics => rw [hs] at h; cases h
    | done b2 =>
      rw [hs] at h
      dsimp only at h
      obtain ⟨s1, s2, s3, s4, s5, s6⟩ := step_open b b2 op (hops op (List.mem_cons_self _ _))
        hc hsubs hall hs
      obtain ⟨r1, r2, r3, r4, r5, r6⟩ := ih b2 b1
        (fun o ho => hops o (List.mem_cons_of_mem _ ho)) s1 s2 s3 h
      have hcount : subscribeCount (op :: rest) = subscribeCount [op] + subscribeCount rest := by
        unfold subscribeCount
        rw [show op :: rest = [op] ++ rest from rfl, List.countP_append]
      have hevents : eventsOf (op :: rest) = eventsOf [op] ++ eventsOf rest := by
        unfold eventsOf
        rw [show op :: rest = [op] ++ rest from rfl, List.filterMap_append]
      refine ⟨r1, r2, r3, by rw [r4, s4, hcount]; omega, ?_, ?_⟩
      · intro i c hi
        obtain ⟨c2, hc2, hb2⟩ := s5 i c hi
        obtain ⟨c1, hc1, hb1⟩ := r5 i c2 hc2
        exact ⟨c1, hc1, by rw [hb1, hb2, hevents, List.append_assoc]⟩
      · intro pre post hsplit
        cases pre with
        | nil =>
          simp only [List.nil_append, List.cons.injEq] at hsplit
          obtain ⟨hop, hrest⟩ := hsplit
          obtain ⟨c2, hc2, hb2⟩ := s6 hop
          obtain ⟨c1, hc1, hb1⟩ := r5 _ c2 hc2
          refine ⟨c1, by simpa [subscribeCount] using hc1, ?_⟩
          rw [hb1, hb2, hrest, List.nil_append]
        | cons p pre' =>
          simp only [List.cons_append, List.cons.injEq] at hsplit
          obtain ⟨hop, hrest⟩ := hsplit
          obtain ⟨c1, hc1, hb1⟩ := r6 pre' post hrest
          refine ⟨c1, ?_, hb1⟩
          have hcount' : subscribeCount (p :: pre') =
              subscribeCount [op] + subscribeCount pre' := by
            unfold subscribeCount
            rw [show p :: pre' = [p] ++ pre' from rfl, List.countP_append, hop]
          rw [hcount', ← Nat.add_assoc, ← s4]
          exact hc1

/-- C15: bus broadcast. After any sequence of `Subscribe` and `Publish` calls on a new bus
that returns (no call blocks on a full queue), the bus is open, its subscriber list holds
the channels of all the `Subscribe` calls in order, and the queue of the subscriber of each
`Subscribe` call holds exactly the events of the `Publish` calls made after that call, each
once and in publish order: every subscriber registered before a `Publish` receives its
event, and no subscriber receives an event published before it subscribed. -/
theorem bus_broadcast (bufferSize : Int) (ops : List BusOp) (b : bus)
    (hops : ∀ op ∈ ops, op ≠ BusOp.close)
    (h : (NewBusWithBuffer bufferSize).exec ops = .done b) :
    b.closed = false
      ∧ b.subscribers = List.range (subscribeCount ops)
      ∧ b.chans.length = subscribeCount ops
      ∧ (∀ pre post, ops = pre ++ BusOp.subscribe :: post →
          subscribeCount pre ∈ b.subscribers
            ∧ ∃ c, b.chans[subscribeCount pre]? = some c ∧ c.closed = false
              ∧ c.buffer = eventsOf post) := by
  obtain ⟨h1, h2, h3, h4, -, h6⟩ := exec_open ops (NewBusWithBuffer bufferSize) b hops rfl rfl
    (by intro i c hi; simp [NewBusWithBuffer] at hi) h
  have hlen : b.chans.length = subscribeCount ops := by
    rw [h4]
    simp [NewBusWithBuffer]
  refine ⟨h1, by rw [h2, hlen], hlen, ?_⟩
  intro pre post hsplit
  obtain ⟨c, hc, hb⟩ := h6 pre post hsplit
  have hc' : b.chans[subscribeCount pre]? = some c := by
    simpa [NewBusWithBuffer] using hc
  refine ⟨?_, c, hc', h3 _ c hc', hb⟩
  rw [h2, List.mem_range]
  exact (List.getElem?_eq_some_iff.mp hc').1

/-- C15 (witness): in the sample sequence the first subscriber holds both events and the
second subscriber, registered after the first event, only the second event. -/
theorem bus_broadcast_witness :
    (NewBusWithBuffer 100).exec sampleOps = .done sampleBus
      ∧ sampleBus.subscribers = List.range (subscribeCount sampleOps)
      ∧ (∃ c, sampleBus.chans[subscribeCount [BusOp.subscribe, BusOp.publish sampleBusEvent]]?
            = some c
          ∧ c.buffer = [Event.other "heartbeat" 7]) := by
  have h := bus_broadcast 100 sampleOps sampleBus (by decide) (by decide)
  refine ⟨by decide, h.2.1, ?_⟩
  obtain ⟨-, c, hc, -, hb⟩ := h.2.2.2 [BusOp.subscribe, BusOp.publish sampleBusEvent]
    [BusOp.publish (Event.other "heartbeat" 7)] rfl
  exact ⟨c, hc, hb⟩

/-! ## Lemmas: one iteration of the row loop of `processStatement` -/

theorem processRows_cancelled (env : RunEnv) (uploadID : String) (uc : statement)
    (lineNumber : Nat) (rows : List (Except String (List String)))
    (hc : env.ctxDone (lineNumber - 1) = true) :
    statement.processRows env uploadID uc lineNumber rows =
      statement.markUploadAsFailed env uc uploadID "processing cancelled" := by
  cases rows <;> (unfold statement.processRows; rw [if_pos hc])

theorem processRows_nil (env : RunEnv) (uploadID : String) (uc : statement)
    (lineNumber : Nat) (hc : env.ctxDone (lineNumber - 1) = false) :
    statement.processRows env uploadID uc lineNumber [] =
      statement.markUploadAsCompleted env
        { uc with trace := uc.trace ++ [Effect.read none] } uploadID := by
  unfold statement.processRows
  rw [if_neg (by simp [hc])]

theorem processRows_read_error (env : RunEnv) (uploadID : String) (uc : statement)
    (lineNumber : Nat) (err : String) (rest : List (Except String (List String)))
    (hc : env.ctxDone (lineNumber - 1) = false) :
    statement.processRows env uploadID uc lineNumber (.error err :: rest) =
      statement.markUploadAsFailed env
        { uc with trace := uc.trace ++ [Effect.read (some (.error err))] } uploadID
        ("error at line " ++ toString lineNumber ++ ": " ++ err) := by
  unfold statement.processRows
  rw [if_neg (by simp [hc])]

theorem processRows_parse_error (env : RunEnv) (uploadID : String) (uc : statement)
    (lineNumber : Nat) (record : List String) (err : String)
    (rest : List (Except String (List String)))
    (hc : env.ctxDone (lineNumber - 1) = false)
    (hp : statement.parseTransaction record uploadID (env.newID (lineNumber - 1)) = .error err) :
    statement.processRows env uploadID uc lineNumber (.ok record :: rest) =
      statement.markUploadAsFailed env
        { uc with trace := uc.trace ++ [Effect.read (some (.ok record))] } uploadID
        ("invalid data at line " ++ toString (lineNumber + 1) ++ ": " ++ err) := by
  unfold statement.processRows
  rw [if_neg (by simp [hc])]
  simp only [hp]

theorem processRows_save_error (env : RunEnv) (uploadID : String) (uc : statement)
    (lineNumber : Nat) (record : List String) (t : Transaction)
    (repo : transactionRepository) (err : String)
    (rest : List (Except String (List String)))
    (hc : env.ctxDone (lineNumber - 1) = false)
    (hp : statement.parseTransaction record uploadID (env.newID (lineNumber - 1)) = .ok t)
    (hs : uc.transactionRepo.Save (some t) = (repo, some err)) :
    statement.processRows env uploadID uc lineNumber (.ok record :: rest) =
      statement.markUploadAsFailed env
        { uc with
          transactionRepo := repo
          trace := uc.trace ++ [Effect.read (some (.ok record))]
            ++ [Effect.save t (some err)] } uploadID
        ("failed to save transaction at line " ++ toString (lineNumber + 1) ++ ": " ++ err) := by
  unfold statement.processRows
  rw [if_neg (by simp [hc])]
  simp only [hp, hs]

theorem processRows_ok (env : RunEnv) (uploadID : String) (uc : statement)
    (lineNumber : Nat) (record : List String) (t : Transaction)
    (repo : transactionRepository) (rest : List (Except String (List String)))
    (hc : env.ctxDone (lineNumber - 1) = false)
    (hp : statement.parseTransaction record uploadID (env.newID (lineNumber - 1)) = .ok t)
    (hs : uc.transactionRepo.Save (some t) = (repo, none)) :
    statement.processRows env uploadID uc lineNumber (.ok record :: rest) =
      statement.processRows env uploadID
        (statement.afterRow env uc uploadID record t repo) (lineNumber + 1) rest := by
  conv_lhs => unfold statement.processRows
  rw [if_neg (by simp [hc])]
  simp only [hp, hs]
  rfl

/-- Induction over the runs of the row loop: a property of the starting state, the line
number, the reader and the final state holds for every run when it holds for the five ways
in which the loop ends and is carried back over an iteration that persists its row. -/
theorem processRows_induction (env : RunEnv) (uploadID : String)
    (P : statement → Nat → List (Except String (List String)) → statement → Prop)
    (hcancel : ∀ uc lineNumber rows, env.ctxDone (lineNumber - 1) = true →
      P uc lineNumber rows
        (statement.markUploadAsFailed env uc uploadID "processing cancelled"))
    (hnil : ∀ uc lineNumber, env.ctxDone (lineNumber - 1) = false →
      P uc lineNumber []
        (statement.markUploadAsCompleted env
          { uc with trace := uc.trace ++ [Effect.read none] } uploadID))
    (hread : ∀ uc lineNumber err rest, env.ctxDone (lineNumber - 1) = false →
      P uc lineNumber (.error err :: rest)
        (statement.markUploadAsFailed env
          { uc with trace := uc.trace ++ [Effect.read (some (.error err))] } uploadID
          ("error at line " ++ toString lineNumber ++ ": " ++ err)))
    (hparse : ∀ uc lineNumber record err rest, env.ctxDone (lineNumber - 1) = false →
      statement.parseTransaction record uploadID (env.newID (lineNumber - 1)) = .error err →
      P uc lineNumber (.ok record :: rest)
        (statement.markUploadAsFailed env
          { uc with trace := uc.trace ++ [Effect.read (some (.ok record))] } uploadID
          ("invalid data at line " ++ toString (lineNumber + 1) ++ ": " ++ err)))
    (hsave : ∀ uc lineNumber record t repo err rest,
      env.ctxDone (lineNumber - 1) = false →
      statement.parseTransaction record uploadID (env.newID (lineNumber - 1)) = .ok t →
      uc.transactionRepo.Save (some t) = (repo, some err) →
      P uc lineNumber (.ok record :: rest)
        (statement.markUploadAsFailed env
          { uc with
            transactionRepo := repo
            trace := uc.trace ++ [Effect.read (some (.ok record))]
              ++ [Effect.save t (some err)] } uploadID
          ("failed to save transaction at line " ++ toString (lineNumber + 1) ++ ": " ++ err)))
    (hok : ∀ uc lineNumber record t repo rest res,
      env.ctxDone (lineNumber - 1) = false →
      statement.parseTransaction record uploadID (env.newID (lineNumber - 1)) = .ok t →
      uc.transactionRepo.Save (some t) = (repo, none) →
      P (statement.afterRow env uc uploadID record t repo) (lineNumber + 1) rest res →
      P uc lineNumber (.ok record :: rest) res) :
    ∀ rows uc lineNumber,
      P uc lineNumber rows (statement.processRows env uploadID uc lineNumber rows) := by
  intro rows
  induction rows with
  | nil =>
    intro uc lineNumber
    cases hc : env.ctxDone (lineNumber - 1) with
    | true => rw [processRows_cancelled _ _ _ _ _ hc]; exact hcancel _ _ _ hc
    | false => rw [processRows_nil _ _ _ _ hc]; exact hnil _ _ hc
  | cons row rest ih =>
    intro uc lineNumber
    cases hc : env.ctxDone (lineNumber - 1) with
    | true => rw [processRows_cancelled _ _ _ _ _ hc]; exact hcancel _ _ _ hc
    | false =>
      cases row with
      | error err => rw [processRows_read_error _ _ _ _ _ _ hc]; exact hread _ _ _ _ hc
      | ok record =>
        cases hp : statement.parseTransaction record uploadID (env.newID (lineNumber - 1)) with
        | error err =>
          rw [processRows_parse_error _ _ _ _ _ _ _ hc hp]
          exact hparse _ _ _ _ _ hc hp
        | ok t =>
          cases hs : uc.transactionRepo.Save (some t) with
          | mk repo serr =>
            cases serr with
            | some err =>
              rw [processRows_save_error _ _ _ _ _ _ _ _ _ hc hp hs]
              exact hsave _ _ _ _ _ _ _ hc hp hs
            | none =>
              rw [processRows_ok _ _ _ _ _ _ _ _ hc hp hs]
              exact hok _ _ _ _ _ _ _ hc hp hs (ih _ _)

theorem afterRow_repos (env : RunEnv) (uc : statement) (uploadID : String)
    (record : List String) (t : Transaction) (repo : transactionRepository) :
    (statement.afterRow env uc uploadID record t repo).transactionRepo = repo
      ∧ (statement.afterRow env uc uploadID record t repo).uploadRepo = uc.uploadRepo := by
  unfold statement.afterRow
  dsimp only
  split <;> exact ⟨rfl, rfl⟩

theorem afterRow_trace (env : RunEnv) (uc : statement) (uploadID : String)
    (record : List String) (t : Transaction) (repo : transactionRepository) :
    ∃ pub, (statement.afterRow env uc uploadID record t repo).trace =
        uc.trace ++ ([Effect.read (some (.ok record)), Effect.save t none] ++ pub)
      ∧ ((t.Status = transaction.StatusFailed ∧ ∃ now,
            pub = [Effect.publish (NewFailedTransactionEvent t.ID uploadID t.Counterparty
              t.Description t.Timestamp t.Amount now)])
          ∨ (t.Status ≠ transaction.StatusFailed ∧ pub = [])) := by
  unfold statement.afterRow
  dsimp only
  by_cases hf : t.Status = transaction.StatusFailed
  · rw [if_pos hf]
    refine ⟨[Effect.publish (NewFailedTransactionEvent t.ID uploadID t.Counterparty
      t.Description t.Timestamp t.Amount (env.now (uc.trace ++
        [Effect.read (some (.ok record))] ++ [Effect.save t none]).length))], ?_,
      Or.inl ⟨hf, _, rfl⟩⟩
    simp
  · rw [if_neg hf]
    exact ⟨[], by simp, Or.inr ⟨hf, rfl⟩⟩

theorem updatesOf_append (a b : List Effect) :
    updatesOf (a ++ b) = updatesOf a ++ updatesOf b := by
  simp [updatesOf, List.filterMap_append]

theorem recordsReadOf_append (a b : List Effect) :
    recordsReadOf (a ++ b) = recordsReadOf a ++ recordsReadOf b := by
  simp [recordsReadOf, List.filterMap_append]

theorem runTrace_eq_of_trace (env : RunEnv) (uc : statement) (uploadID : String)
    (file : List (Except String (List String))) (new : List Effect)
    (h : (statement.processStatement env uc uploadID file).trace = uc.trace ++ new) :
    statement.runTrace env uc uploadID file = new := by
  unfold statement.runTrace
  rw [h, List.drop_left]

theorem string_append_ne_empty (a b : String) (h : a ≠ "") : a ++ b ≠ "" := by
  intro hab
  apply h
  have h1 : (a ++ b).data = [] := by rw [hab]
  rw [String.data_append] at h1
  have h2 : a.data = [] := (List.append_eq_nil.mp h1).1
  exact String.ext h2

/-- Every message with which `processStatement` marks an upload as failed is non-empty. -/
theorem markUploadAsFailed_update (env : RunEnv) (uc : statement)
    (uploadID reason : String) :
    ∃ info err, (statement.markUploadAsFailed env uc uploadID reason).trace =
        uc.trace ++ [Effect.update info err]
      ∧ info.ID = uploadID ∧ info.Status = upload.StatusFailed ∧ info.Message = reason
      ∧ uc.uploadRepo.Update info =
          ((statement.markUploadAsFailed env uc uploadID reason).uploadRepo, err)
      ∧ (statement.markUploadAsFailed env uc uploadID reason).transactionRepo
          = uc.transactionRepo :=
  ⟨_, _, rfl, rfl, rfl, rfl, rfl, rfl⟩

theorem markUploadAsCompleted_update (env : RunEnv) (uc : statement) (uploadID : String) :
    ∃ info err, (statement.markUploadAsCompleted env uc uploadID).trace =
        uc.trace ++ [Effect.update info err]
      ∧ info.ID = uploadID ∧ info.Status = upload.StatusCompleted ∧ info.Message = ""
      ∧ uc.uploadRepo.Update info =
          ((statement.markUploadAsCompleted env uc uploadID).uploadRepo, err)
      ∧ (statement.markUploadAsCompleted env uc uploadID).transactionRepo
          = uc.transactionRepo :=
  ⟨_, _, rfl, rfl, rfl, rfl, rfl, rfl⟩

/-- An `Update` of a stored task returns `nil` and stores the task with the new message,
status and completion time. -/
theorem Update_registered (u : uploadRepository) (info task : upload.Task)
    (hreg : mapGet u.task info.ID = some task) :
    (u.Update info).2 = none
      ∧ (u.Update info).1.GetByID info.ID =
          .ok { task with
            Message := info.Message, Status := info.Status, CompletedAt := info.CompletedAt } := by
  unfold uploadRepository.Update uploadRepository.GetByID
  simp [hreg, mapGet_mapSet]

/-! ## Theorems: the events of a run of `processStatement` -/

/-- Every event that the row loop publishes is built from a transaction of the upload that
the loop has persisted with status `FAILED`. -/
theorem processRows_events (env : RunEnv) (uploadID : String) :
    ∀ rows uc lineNumber,
      ∃ new, (statement.processRows env uploadID uc lineNumber rows).trace = uc.trace ++ new
        ∧ ∀ e ∈ publishedOf new, ∃ t, Effect.save t none ∈ new
          ∧ t.UploadID = uploadID ∧ t.Status = transaction.StatusFailed
          ∧ e = NewFailedTransactionEvent t.ID uploadID t.Counterparty t.Description
              t.Timestamp t.Amount e.PublishedAt := by
  apply processRows_induction env uploadID
    (fun uc _ _ res => ∃ new, res.trace = uc.trace ++ new
      ∧ ∀ e ∈ publishedOf new, ∃ t, Effect.save t none ∈ new
        ∧ t.UploadID = uploadID ∧ t.Status = transaction.StatusFailed
        ∧ e = NewFailedTransactionEvent t.ID uploadID t.Counterparty t.Description
            t.Timestamp t.Amount e.PublishedAt)
  · intro uc lineNumber rows _
    obtain ⟨info, err, h, -⟩ := markUploadAsFailed_update env uc uploadID "processing cancelled"
    exact ⟨_, h, by simp [publishedOf]⟩
  · intro uc lineNumber _
    obtain ⟨info, err, h, -⟩ := markUploadAsCompleted_update env
      { uc with trace := uc.trace ++ [Effect.read none] } uploadID
    exact ⟨[Effect.read none, Effect.update info err], by rw [h]; simp,
      by simp [publishedOf]⟩
  · intro uc lineNumber err rest _
    obtain ⟨info, e, h, -⟩ := markUploadAsFailed_update env
      { uc with trace := uc.trace ++ [Effect.read (some (.error err))] } uploadID
      ("error at line " ++ toString lineNumber ++ ": " ++ err)
    exact ⟨[Effect.read (some (.error err)), Effect.update info e], by rw [h]; simp,
      by simp [publishedOf]⟩
  · intro uc lineNumber record err rest _ _
    obtain ⟨info, e, h, -⟩ := markUploadAsFailed_update env
      { uc with trace := uc.trace ++ [Effect.read (some (.ok record))] } uploadID
      ("invalid data at line " ++ toString (lineNumber + 1) ++ ": " ++ err)
    exact ⟨[Effect.read (some (.ok record)), Effect.update info e], by rw [h]; simp,
      by simp [publishedOf]⟩
  · intro uc lineNumber record t repo err rest _ _ _
    obtain ⟨info, e, h, -⟩ := markUploadAsFailed_update env
      { uc with
        transactionRepo := repo
        trace := uc.trace ++ [Effect.read (some (.ok record))]
          ++ [Effect.save t (some err)] } uploadID
      ("failed to save transaction at line " ++ toString (lineNumber + 1) ++ ": " ++ err)
    exact ⟨[Effect.read (some (.ok record)), Effect.save t (some err), Effect.update info e],
      by rw [h]; simp, by simp [publishedOf]⟩
  · intro uc lineNumber record t repo rest res _ hp _ ih
    obtain ⟨new1, hnew1, hev⟩ := ih
    obtain ⟨pub, htr, hpub⟩ := afterRow_trace env uc uploadID record t repo
    obtain ⟨-, hup⟩ := parseTransaction_ok_ids _ _ _ _ hp
    refine ⟨[Effect.read (some (.ok record)), Effect.save t none] ++ pub ++ new1, ?_, ?_⟩
    · rw [hnew1, htr]
      simp
    · intro e he
      rw [publishedOf_append, publishedOf_append] at he
      rcases List.mem_append.mp he with he1 | he1
      · rcases List.mem_append.mp he1 with he2 | he2
        · simp [publishedOf] at he2
        · rcases hpub with ⟨hf, now, hp'⟩ | ⟨-, hp'⟩
          · rw [hp'] at he2
            simp only [publishedOf, List.filterMap_cons, List.filterMap_nil,
              List.mem_singleton] at he2
            refine ⟨t, by simp, hup, hf, ?_⟩
            rw [he2]
            rfl
          · rw [hp'] at he2
            simp [publishedOf] at he2
      · obtain ⟨t', ht', h1, h2, h3⟩ := hev e he1
        exact ⟨t', List.mem_append_right _ ht', h1, h2, h3⟩

/-- C13: every `FailedTransactionEvent` that a run of `processStatement` publishes belongs
to a transaction `t` of the upload that the run has persisted, and carries its identifying
fields unchanged: `TransactionID = t.ID`, `UploadID` the upload ID, `Timestamp`,
`Counterparty`, `Amount` and `Description` those of `t`; its event type is
`failed_transaction`. -/
theorem published_event_fields (env : RunEnv) (uc : statement) (uploadID : String)
    (file : List (Except String (List String))) (e : FailedTransactionEvent)
    (h : e ∈ publishedOf (statement.runTrace env uc uploadID file)) :
    ∃ t, Effect.save t none ∈ statement.runTrace env uc uploadID file
      ∧ t.UploadID = uploadID
      ∧ e.TransactionID = t.ID ∧ e.UploadID = uploadID ∧ e.Timestamp = t.Timestamp
      ∧ e.Counterparty = t.Counterparty ∧ e.Amount = t.Amount
      ∧ e.Description = t.Description
      ∧ e.EventType = "failed_transaction" := by
  have key : ∃ new, (statement.processStatement env uc uploadID file).trace = uc.trace ++ new
      ∧ ∀ e ∈ publishedOf new, ∃ t, Effect.save t none ∈ new
        ∧ t.UploadID = uploadID ∧ t.Status = transaction.StatusFailed
        ∧ e = NewFailedTransactionEvent t.ID uploadID t.Counterparty t.Description
            t.Timestamp t.Amount e.PublishedAt := by
    unfold statement.processStatement
    cases file with
    | nil =>
      obtain ⟨info, err, h, -⟩ := markUploadAsFailed_update env
        { uc with trace := uc.trace ++ [Effect.read none] } uploadID
        ("failed to read CSV header: " ++ "EOF")
      exact ⟨[Effect.read none, Effect.update info err], by dsimp only; rw [h]; simp,
        by simp [publishedOf]⟩
    | cons row rows =>
      cases row with
      | error err =>
        obtain ⟨info, e', h, -⟩ := markUploadAsFailed_update env
          { uc with trace := uc.trace ++ [Effect.read (some (.error err))] } uploadID
          ("failed to read CSV header: " ++ err)
        exact ⟨[Effect.read (some (.error err)), Effect.update info e'],
          by dsimp only; rw [h]; simp, by simp [publishedOf]⟩
      | ok header =>
        obtain ⟨new, hnew, hev⟩ := processRows_events env uploadID rows
          { uc with trace := uc.trace ++ [Effect.read (some (.ok header))] } 1
        refine ⟨Effect.read (some (.ok header)) :: new, by dsimp only; rw [hnew]; simp, ?_⟩
        intro e' he'
        have he2 : e' ∈ publishedOf new := by
          simpa [publishedOf] using he'
        obtain ⟨t, ht, h1, h2, h3⟩ := hev e' he2
        exact ⟨t, List.mem_cons_of_mem _ ht, h1, h2, h3⟩
  obtain ⟨new, hnew, hev⟩ := key
  rw [runTrace_eq_of_trace env uc uploadID file new hnew] at h ⊢
  obtain ⟨t, ht, h1, -, h3⟩ := hev e h
  refine ⟨t, ht, h1, ?_, ?_, ?_, ?_, ?_, ?_, rfl⟩ <;> (rw [h3]; rfl)

/-- C13 (witness): the event published for the `FAILED` row of `failedFile`. -/
theorem published_event_fields_witness :
    NewFailedTransactionEvent "tx0" "u" "JANE SMITH" "payment failed" 1674508456 75000 3 ∈
        publishedOf (statement.runTrace sampleEnv sampleStatement "u" failedFile)
      ∧ ∃ t, Effect.save t none ∈ statement.runTrace sampleEnv sampleStatement "u" failedFile
        ∧ t.ID = "tx0" ∧ t.Amount = 75000 := by
  refine ⟨by decide, ?_⟩
  obtain ⟨t, ht, -, h1, -, -, -, h2, -⟩ := published_event_fields sampleEnv sampleStatement "u"
    failedFile
    (NewFailedTransactionEvent "tx0" "u" "JANE SMITH" "payment failed" 1674508456 75000 3)
    (by decide)
  exact ⟨t, ht, h1.symm, h2.symm⟩

/-! ## Theorems: the single terminal update of a run of `processStatement` -/

/-- The row loop ends with one `Update` call, its last call: to `completed` with an empty
message when every remaining row was read, parsed and persisted, to `failed` with a
non-empty message otherwise. -/
theorem processRows_update (env : RunEnv) (uploadID : String) :
    ∀ rows uc lineNumber,
      ∃ new info err,
        (statement.processRows env uploadID uc lineNumber rows).trace =
            uc.trace ++ new ++ [Effect.update info err]
          ∧ updatesOf new = []
          ∧ info.ID = uploadID
          ∧ uc.uploadRepo.Update info =
              ((statement.processRows env uploadID uc lineNumber rows).uploadRepo, err)
          ∧ ((info.Status = upload.StatusCompleted ∧ info.Message = ""
                ∧ ∃ recs, rows = recs.map Except.ok ∧ recordsReadOf new = recs
                  ∧ List.Forall₂ (fun record t => ∃ id,
                      statement.parseTransaction record uploadID id = .ok t)
                    recs (savedOf new))
              ∨ (info.Status = upload.StatusFailed ∧ info.Message ≠ "")) := by
  apply processRows_induction env uploadID
    (fun uc _ rows res => ∃ new info err,
      res.trace = uc.trace ++ new ++ [Effect.update info err]
        ∧ updatesOf new = []
        ∧ info.ID = uploadID
        ∧ uc.uploadRepo.Update info = (res.uploadRepo, err)
        ∧ ((info.Status = upload.StatusCompleted ∧ info.Message = ""
              ∧ ∃ recs, rows = recs.map Except.ok ∧ recordsReadOf new = recs
                ∧ List.Forall₂ (fun record t => ∃ id,
                    statement.parseTransaction record uploadID id = .ok t)
                  recs (savedOf new))
            ∨ (info.Status = upload.StatusFailed ∧ info.Message ≠ "")))
  · intro uc lineNumber rows _
    obtain ⟨info, err, h, hid, hst, hmsg, hup, -⟩ :=
      markUploadAsFailed_update env uc uploadID "processing cancelled"
    exact ⟨[], info, err, by rw [h]; simp, rfl, hid, hup,
      Or.inr ⟨hst, by rw [hmsg]; decide⟩⟩
  · intro uc lineNumber _
    obtain ⟨info, err, h, hid, hst, hmsg, hup, -⟩ := markUploadAsCompleted_update env
      { uc with trace := uc.trace ++ [Effect.read none] } uploadID
    exact ⟨[Effect.read none], info, err, by rw [h], rfl, hid, hup,
      Or.inl ⟨hst, hmsg, [], rfl, rfl, List.Forall₂.nil⟩⟩
  · intro uc lineNumber err rest _
    obtain ⟨info, e, h, hid, hst, hmsg, hup, -⟩ := markUploadAsFailed_update env
      { uc with trace := uc.trace ++ [Effect.read (some (.error err))] } uploadID
      ("error at line " ++ toString lineNumber ++ ": " ++ err)
    refine ⟨[Effect.read (some (.error err))], info, e, by rw [h], rfl, hid, hup,
      Or.inr ⟨hst, ?_⟩⟩
    rw [hmsg, String.append_assoc, String.append_assoc]
    exact string_append_ne_empty _ _ (by decide)
  · intro uc lineNumber record err rest _ _
    obtain ⟨info, e, h, hid, hst, hmsg, hup, -⟩ := markUploadAsFailed_update env
      { uc with trace := uc.trace ++ [Effect.read (some (.ok record))] } uploadID
      ("invalid data at line " ++ toString (lineNumber + 1) ++ ": " ++ err)
    refine ⟨[Effect.read (some (.ok record))], info, e, by rw [h], rfl, hid, hup,
      Or.inr ⟨hst, ?_⟩⟩
    rw [hmsg, String.append_assoc, String.append_assoc]
    exact string_append_ne_empty _ _ (by decide)
  · intro uc lineNumber record t repo err rest _ _ _
    obtain ⟨info, e, h, hid, hst, hmsg, hup, -⟩ := markUploadAsFailed_update env
      { uc with
        transactionRepo := repo
        trace := uc.trace ++ [Effect.read (some (.ok record))]
          ++ [Effect.save t (some err)] } uploadID
      ("failed to save transaction at line " ++ toString (lineNumber + 1) ++ ": " ++ err)
    refine ⟨[Effect.read (some (.ok record)), Effect.save t (some err)], info, e,
      by rw [h]; simp, rfl, hid, hup, Or.inr ⟨hst, ?_⟩⟩
    rw [hmsg, String.append_assoc, String.append_assoc]
    exact string_append_ne_empty _ _ (by decide)
  · intro uc lineNumber record t repo rest res _ hp _ ih
    obtain ⟨new1, info, err, htr1, hno, hid, hup, hres⟩ := ih
    obtain ⟨pub, htr, hpub⟩ := afterRow_trace env uc uploadID record t repo
    have hpubU : updatesOf pub = [] := by
      rcases hpub with ⟨-, now, hp'⟩ | ⟨-, hp'⟩ <;> rw [hp'] <;> rfl
    have hpubR : recordsReadOf pub = [] := by
      rcases hpub with ⟨-, now, hp'⟩ | ⟨-, hp'⟩ <;> rw [hp'] <;> rfl
    have hpubS : savedOf pub = [] := by
      rcases hpub with ⟨-, now, hp'⟩ | ⟨-, hp'⟩ <;> rw [hp'] <;> rfl
    refine ⟨[Effect.read (some (.ok record)), Effect.save t none] ++ pub ++ new1, info, err,
      ?_, ?_, hid, ?_, ?_⟩
    · rw [htr1, htr]
      simp
    · rw [updatesOf_append, updatesOf_append, hno, hpubU]
      rfl
    · rw [← hup, (afterRow_repos env uc uploadID record t repo).2]
    · rcases hres with ⟨hst, hmsg, recs, hrows, hrec, hall⟩ | hfail
      · refine Or.inl ⟨hst, hmsg, record :: recs, by rw [hrows]; rfl, ?_, ?_⟩
        · rw [recordsReadOf_append, recordsReadOf_append, hrec, hpubR]
          rfl
        · rw [savedOf_append, savedOf_append, hpubS]
          exact List.Forall₂.cons ⟨_, hp⟩ hall
      · exact Or.inr hfail

/-- C12: one run of `processStatement` on a registered upload makes exactly one `Update`
call, as its last call, for the upload's task; the call returns `nil` and leaves the stored
task with the status of the call, which is `completed` or `failed`. The status is
`completed` (with an empty message) only if the header and every record were read and every
record was parsed and persisted; it is `failed` with a non-empty message otherwise. -/
theorem processStatement_single_update (env : RunEnv) (uc : statement) (uploadID : String)
    (file : List (Except String (List String))) (task : upload.Task)
    (hreg : mapGet uc.uploadRepo.task uploadID = some task) :
    ∃ before info,
      statement.runTrace env uc uploadID file = before ++ [Effect.update info none]
        ∧ updatesOf (statement.runTrace env uc uploadID file) = [(info, none)]
        ∧ info.ID = uploadID
        ∧ (statement.processStatement env uc uploadID file).uploadRepo.GetByID uploadID =
            .ok { task with
              Message := info.Message, Status := info.Status,
              CompletedAt := info.CompletedAt }
        ∧ ((info.Status = upload.StatusCompleted ∧ info.Message = ""
              ∧ ∃ header recs, file = (header :: recs).map Except.ok
                ∧ recordsReadOf before = header :: recs
                ∧ List.Forall₂ (fun record t => ∃ id,
                    statement.parseTransaction record uploadID id = .ok t)
                  recs (savedOf before))
            ∨ (info.Status = upload.StatusFailed ∧ info.Message ≠ "")) := by
  have key : ∃ new info err,
      (statement.processStatement env uc uploadID file).trace =
          uc.trace ++ new ++ [Effect.update info err]
        ∧ updatesOf new = []
        ∧ info.ID = uploadID
        ∧ uc.uploadRepo.Update info =
            ((statement.processStatement env uc uploadID file).uploadRepo, err)
        ∧ ((info.Status = upload.StatusCompleted ∧ info.Message = ""
              ∧ ∃ header recs, file = (header :: recs).map Except.ok
                ∧ recordsReadOf new = header :: recs
                ∧ List.Forall₂ (fun record t => ∃ id,
                    statement.parseTransaction record uploadID id = .ok t)
                  recs (savedOf new))
            ∨ (info.Status = upload.StatusFailed ∧ info.Message ≠ "")) := by
    unfold statement.processStatement
    cases file with
    | nil =>
      obtain ⟨info, err, h, hid, hst, hmsg, hup, -⟩ := markUploadAsFailed_update env
        { uc with trace := uc.trace ++ [Effect.read none] } uploadID
        ("failed to read CSV header: " ++ "EOF")
      exact ⟨[Effect.read none], info, err, h, rfl, hid, hup,
        Or.inr ⟨hst, by rw [hmsg]; decide⟩⟩
    | cons row rows =>
      cases row with
      | error err =>
        obtain ⟨info, e, h, hid, hst, hmsg, hup, -⟩ := markUploadAsFailed_update env
          { uc with trace := uc.trace ++ [Effect.read (some (.error err))] } uploadID
          ("failed to read CSV header: " ++ err)
        exact ⟨[Effect.read (some (.error err))], info, e, h, rfl, hid, hup,
          Or.inr ⟨hst, by rw [hmsg]; exact string_append_ne_empty _ _ (by decide)⟩⟩
      | ok header =>
        obtain ⟨new, info, err, htr, hno, hid, hup, hres⟩ := processRows_update env uploadID
          rows { uc with trace := uc.trace ++ [Effect.read (some (.ok header))] } 1
        refine ⟨Effect.read (some (.ok header)) :: new, info, err, ?_, ?_, hid, hup, ?_⟩
        · dsimp only
          rw [htr]
          simp
        · simpa [updatesOf] using hno
        · rcases hres with ⟨hst, hmsg, recs, hrows, hrec, hall⟩ | hfail
          · refine Or.inl ⟨hst, hmsg, header, recs, by rw [hrows]; rfl, ?_, ?_⟩
            · rw [← hrec]
              rfl
            · exact hall
          · exact Or.inr hfail
  obtain ⟨new, info, err, htr, hno, hid, hup, hres⟩ := key
  have hreg1 : mapGet uc.uploadRepo.task info.ID = some task := by rw [hid]; exact hreg
  obtain ⟨herr, hget⟩ := Update_registered uc.uploadRepo info task hreg1
  rw [hup] at herr hget
  dsimp only at herr hget
  subst herr
  rw [hid] at hget
  have hrun : statement.runTrace env uc uploadID file = new ++ [Effect.update info none] :=
    runTrace_eq_of_trace env uc uploadID file _ (by rw [htr, List.append_assoc])
  refine ⟨new, info, hrun, ?_, hid, hget, hres⟩
  rw [hrun, updatesOf_append, hno]
  rfl

/-- C12 (witness): the run on `failedFile`, whose only row is persisted, ends with the one
update of the registered upload `u`, to `completed`. -/
theorem processStatement_single_update_witness :
    ∃ before info,
      statement.runTrace sampleEnv sampleStatement "u" failedFile =
          before ++ [Effect.update info none]
        ∧ updatesOf (statement.runTrace sampleEnv sampleStatement "u" failedFile) =
            [(info, none)]
        ∧ info.ID = "u" := by
  obtain ⟨before, info, h1, h2, h3, -⟩ := processStatement_single_update sampleEnv
    sampleStatement "u" failedFile
    { ID := "u", Status := upload.StatusProcessing, Filename := "test.csv",
      Message := upload.MessageProcessing, StartedAt := 5, CompletedAt := 0 }
    (by decide)
  exact ⟨before, info, h1, h2, h3⟩

/-! ## Theorems: a run of `processStatement` stops at the first failing record -/

theorem saveAll_cons (tr : transactionRepository) (t : Transaction) (ts : List Transaction) :
    saveAll tr (t :: ts) = saveAll (tr.Save (some t)).1 ts := rfl

/-- The row loop on rows that all parse and are all persisted: the loop continues with the
rows that follow them, after the calls `new` that read and persist each of the rows and
publish an event for each `FAILED` one. -/
theorem processRows_good (env : RunEnv) (uploadID : String) :
    ∀ (good : List (List String)) (uc : statement) (k0 : Nat),
      (∀ j, j < good.length → env.ctxDone (k0 + j) = false) →
      (∀ j (hj : j < good.length),
        ∃ t, statement.parseTransaction (good.get ⟨j, hj⟩) uploadID (env.newID (k0 + j))
          = .ok t) →
      SavesOk uc.transactionRepo (statement.parseRows env uploadID k0 good) →
      ∃ mid new,
        (∀ rest, statement.processRows env uploadID uc (k0 + 1) (good.map Except.ok ++ rest) =
            statement.processRows env uploadID mid (k0 + good.length + 1) rest)
          ∧ mid.trace = uc.trace ++ new
          ∧ mid.uploadRepo = uc.uploadRepo
          ∧ mid.transactionRepo =
              saveAll uc.transactionRepo (statement.parseRows env uploadID k0 good)
          ∧ savedOf new = statement.parseRows env uploadID k0 good
          ∧ (statement.parseRows env uploadID k0 good).length = good.length
          ∧ updatesOf new = []
          ∧ recordsReadOf new = good
          ∧ (publishedOf new).map (fun e => e.TransactionID) =
              ((statement.parseRows env uploadID k0 good).filter
                (fun t => t.Status = transaction.StatusFailed)).map (fun t => t.ID) := by
  intro good
  induction good with
  | nil =>
    intro uc k0 _ _ _
    exact ⟨uc, [], fun _ => rfl, by simp, rfl, rfl, rfl, rfl, rfl, rfl, rfl⟩
  | cons r good ih =>
    intro uc k0 hctx hparse hsave
    have hc : env.ctxDone (k0 + 1 - 1) = false := by
      have := hctx 0 (by simp)
      simpa using this
    obtain ⟨t, ht⟩ := hparse 0 (by simp)
    simp only [List.get_eq_getElem, List.getElem_cons_zero, Nat.add_zero] at ht
    have hrows : statement.parseRows env uploadID k0 (r :: good) =
        t :: statement.parseRows env uploadID (k0 + 1) good := by
      simp [statement.parseRows, ht]
    rw [hrows] at hsave ⊢
    obtain ⟨hok, hsave'⟩ := hsave
    have herr := (Save_err_none_iff uc.transactionRepo t).mpr hok
    have hs : uc.transactionRepo.Save (some t) = ((uc.transactionRepo.Save (some t)).1, none) := by
      rw [← herr]
    have hctx' : ∀ j, j < good.length → env.ctxDone (k0 + 1 + j) = false := by
      intro j hj
      have := hctx (j + 1) (by simp; omega)
      rw [show k0 + 1 + j = k0 + (j + 1) by omega]
      exact this
    have hparse' : ∀ j (hj : j < good.length),
        ∃ t, statement.parseTransaction (good.get ⟨j, hj⟩) uploadID (env.newID (k0 + 1 + j))
          = .ok t := by
      intro j hj
      have := hparse (j + 1) (by simp; omega)
      rw [show k0 + 1 + j = k0 + (j + 1) by omega]
      simpa using this
    obtain ⟨hrepo, hurepo⟩ := afterRow_repos env uc uploadID r t (uc.transactionRepo.Save (some t)).1
    obtain ⟨pub, htr, hpub⟩ := afterRow_trace env uc uploadID r t
      (uc.transactionRepo.Save (some t)).1
    obtain ⟨mid, new, hrun, hmtr, hmup, hmrepo, hsaved, hlen, hupd, hrec, hevents⟩ :=
      ih (statement.afterRow env uc uploadID r t (uc.transactionRepo.Save (some t)).1)
        (k0 + 1) hctx' hparse' (by rw [hrepo]; exact hsave')
    have hpubU : updatesOf pub = [] := by
      rcases hpub with ⟨-, now, hp'⟩ | ⟨-, hp'⟩ <;> rw [hp'] <;> rfl
    have hpubR : recordsReadOf pub = [] := by
      rcases hpub with ⟨-, now, hp'⟩ | ⟨-, hp'⟩ <;> rw [hp'] <;> rfl
    have hpubS : savedOf pub = [] := by
      rcases hpub with ⟨-, now, hp'⟩ | ⟨-, hp'⟩ <;> rw [hp'] <;> rfl
    refine ⟨mid, [Effect.read (some (.ok r)), Effect.save t none] ++ pub ++ new,
      ?_, ?_, ?_, ?_, ?_, ?_, ?_, ?_, ?_⟩
    · intro rest
      rw [List.map_cons, List.cons_append,
        processRows_ok env uploadID uc (k0 + 1) r t _ _ hc (by simpa using ht) hs, hrun]
      simp only [List.length_cons]
      rw [show k0 + 1 + good.length + 1 = k0 + (good.length + 1) + 1 by omega]
    · rw [hmtr, htr]
      simp
    · rw [hmup, hurepo]
    · rw [hmrepo, hrepo, saveAll_cons]
    · rw [savedOf_append, savedOf_append, hpubS, hsaved]
      rfl
    · simp [hlen]
    · rw [updatesOf_append, updatesOf_append, hupd, hpubU]
      rfl
    · rw [recordsReadOf_append, recordsReadOf_append, hrec, hpubR]
      rfl
    · rw [publishedOf_append, publishedOf_append, List.map_append, List.map_append, hevents]
      rcases hpub with ⟨hf, now, hp'⟩ | ⟨hf, hp'⟩
      · rw [hp', List.filter_cons_of_pos (by simpa using hf)]
        rfl
      · rw [hp', List.filter_cons_of_neg (by simpa using hf)]
        rfl


theorem parseRows_uploadID (env : RunEnv) (uploadID : String) :
    ∀ (rows : List (List String)) (k : Nat),
      ∀ t ∈ statement.parseRows env uploadID k rows, t.UploadID = uploadID := by
  intro rows
  induction rows with
  | nil => intro k t ht; simp [statement.parseRows] at ht
  | cons r rows ih =>
    intro k t ht
    unfold statement.parseRows at ht
    rcases List.mem_append.mp ht with h | h
    · cases hp : statement.parseTransaction r uploadID (env.newID k) with
      | error e => rw [hp] at h; simp at h
      | ok t0 =>
        rw [hp] at h
        simp only [List.mem_singleton] at h
        rw [h]
        exact (parseTransaction_ok_ids _ _ _ _ hp).2
    · exact ih (k + 1) t h

theorem storedCount_saveAll (u : String) :
    ∀ (ts : List Transaction) (tr : transactionRepository),
      SavesOk tr ts → (∀ t ∈ ts, t.UploadID = u) →
      storedCount (saveAll tr ts) u = storedCount tr u + ts.length := by
  intro ts
  induction ts with
  | nil => intro tr _ _; rfl
  | cons t ts ih =>
    intro tr hs hu
    obtain ⟨hok, hs'⟩ := hs
    rw [saveAll_cons, ih _ hs' (fun x hx => hu x (List.mem_cons_of_mem _ hx)),
      storedCount_Save tr t hok u, if_pos (hu t (List.mem_cons_self _ _))]
    simp only [List.length_cons]
    omega

/-- The state in which a run of `processStatement` ends when the record after the persisted
records `good` fails to parse or is rejected: it does not depend on the rows that follow. -/
theorem processStatement_stops (env : RunEnv) (uc : statement) (uploadID : String)
    (header : List String) (good : List (List String)) (bad : List String)
    (task : upload.Task)
    (hreg : mapGet uc.uploadRepo.task uploadID = some task)
    (hctx : ∀ j, j ≤ good.length → env.ctxDone j = false)
    (hparse : ∀ j (hj : j < good.length),
      ∃ t, statement.parseTransaction (good.get ⟨j, hj⟩) uploadID (env.newID j) = .ok t)
    (hsave : SavesOk uc.transactionRepo (statement.parseRows env uploadID 0 good))
    (hbad : (∃ err, statement.parseTransaction bad uploadID (env.newID good.length)
          = .error err)
      ∨ (∃ t err, statement.parseTransaction bad uploadID (env.newID good.length) = .ok t
          ∧ ((saveAll uc.transactionRepo (statement.parseRows env uploadID 0 good)).Save
              (some t)).2 = some err)) :
    ∃ final new,
      (∀ post, statement.processStatement env uc uploadID
          (.ok header :: (good.map Except.ok ++ .ok bad :: post)) = final)
        ∧ final.trace = uc.trace ++ new
        ∧ (∃ task', final.uploadRepo.GetByID uploadID = .ok task'
            ∧ task'.Status = upload.StatusFailed)
        ∧ final.transactionRepo =
            saveAll uc.transactionRepo (statement.parseRows env uploadID 0 good)
        ∧ storedCount final.transactionRepo uploadID =
            storedCount uc.transactionRepo uploadID + good.length
        ∧ savedOf new = statement.parseRows env uploadID 0 good
        ∧ (savedOf new).length = good.length
        ∧ (publishedOf new).map (fun e => e.TransactionID) =
            ((statement.parseRows env uploadID 0 good).filter
              (fun t => t.Status = transaction.StatusFailed)).map (fun t => t.ID)
        ∧ recordsReadOf new = header :: (good ++ [bad]) := by
  obtain ⟨mid, new1, hrun, hmtr, hmup, hmrepo, hsaved, hlen, hupd, hrec, hevents⟩ :=
    processRows_good env uploadID good
      { uc with trace := uc.trace ++ [Effect.read (some (.ok header))] } 0
      (fun j hj => by simpa using hctx j (Nat.le_of_lt hj))
      (fun j hj => by simpa using hparse j hj) hsave
  have hc : env.ctxDone (0 + good.length + 1 - 1) = false := by
    simpa using hctx good.length (le_refl _)
  have hcount : storedCount (saveAll uc.transactionRepo
      (statement.parseRows env uploadID 0 good)) uploadID =
        storedCount uc.transactionRepo uploadID + good.length := by
    rw [storedCount_saveAll uploadID _ _ hsave (parseRows_uploadID env uploadID good 0), hlen]
  dsimp only at hmtr hmup hmrepo
  have hfailed : ∀ (st : statement) (reason : String), st.uploadRepo = uc.uploadRepo →
      ∃ task', (statement.markUploadAsFailed env st uploadID reason).uploadRepo.GetByID
          uploadID = .ok task' ∧ task'.Status = upload.StatusFailed := by
    intro st reason hst
    obtain ⟨info, err, -, hid, hstat, -, hup, -⟩ :=
      markUploadAsFailed_update env st uploadID reason
    obtain ⟨-, hget⟩ := Update_registered uc.uploadRepo info task (by rw [hid]; exact hreg)
    rw [hst] at hup
    rw [hup, hid] at hget
    exact ⟨_, hget, hstat⟩
  rcases hbad with ⟨err, hp⟩ | ⟨t, err, hp, hs⟩
  · obtain ⟨info, e, htr, -⟩ := markUploadAsFailed_update env
      { mid with trace := mid.trace ++ [Effect.read (some (.ok bad))] } uploadID
      ("invalid data at line " ++ toString (0 + good.length + 1 + 1) ++ ": " ++ err)
    refine ⟨statement.markUploadAsFailed env
        { mid with trace := mid.trace ++ [Effect.read (some (.ok bad))] } uploadID
        ("invalid data at line " ++ toString (0 + good.length + 1 + 1) ++ ": " ++ err),
      [Effect.read (some (.ok header))] ++ new1
        ++ [Effect.read (some (.ok bad)), Effect.update info e],
      fun post => ?_, ?_, hfailed _ _ hmup, hmrepo, ?_, ?_, ?_, ?_, ?_⟩
    · unfold statement.processStatement
      dsimp only
      rw [hrun, processRows_parse_error env uploadID mid _ bad err post hc
        (by simpa using hp)]
    · rw [htr]
      dsimp only
      rw [hmtr]
      simp
    · show storedCount mid.transactionRepo uploadID = _
      rw [hmrepo, hcount]
    · rw [savedOf_append, savedOf_append, hsaved]
      simp [savedOf]
    · rw [savedOf_append, savedOf_append, hsaved]
      simp [savedOf, hlen]
    · rw [publishedOf_append, publishedOf_append, List.map_append, List.map_append, hevents]
      simp [publishedOf]
    · rw [recordsReadOf_append, recordsReadOf_append, hrec]
      simp [recordsReadOf]
  · have hnot : ¬ SaveOk mid.transactionRepo t := by
      intro hok
      have := (Save_err_none_iff mid.transactionRepo t).mpr hok
      rw [hmrepo, hs] at this
      exact absurd this (by simp)
    have hstate := Save_state_of_not_ok mid.transactionRepo t hnot
    have hs1 : (mid.transactionRepo.Save (some t)).2 = some err := by
      rw [hmrepo]
      exact hs
    have hs2 : mid.transactionRepo.Save (some t) = (mid.transactionRepo, some err) :=
      Prod.ext hstate hs1
    obtain ⟨info, e, htr, -⟩ := markUploadAsFailed_update env
      { mid with
        transactionRepo := mid.transactionRepo
        trace := mid.trace ++ [Effect.read (some (.ok bad))] ++ [Effect.save t (some err)] }
      uploadID
      ("failed to save transaction at line " ++ toString (0 + good.length + 1 + 1) ++ ": "
        ++ err)
    refine ⟨statement.markUploadAsFailed env
        { mid with
          transactionRepo := mid.transactionRepo
          trace := mid.trace ++ [Effect.read (some (.ok bad))]
            ++ [Effect.save t (some err)] }
        uploadID
        ("failed to save transaction at line " ++ toString (0 + good.length + 1 + 1) ++ ": "
          ++ err),
      [Effect.read (some (.ok header))] ++ new1
        ++ [Effect.read (some (.ok bad)), Effect.save t (some err), Effect.update info e],
      fun post => ?_, ?_, hfailed _ _ hmup, hmrepo, ?_, ?_, ?_, ?_, ?_⟩
    · unfold statement.processStatement
      dsimp only
      rw [hrun, processRows_save_error env uploadID mid _ bad t mid.transactionRepo err post hc
        (by simpa using hp) hs2]
    · rw [htr]
      dsimp only
      rw [hmtr]
      simp
    · show storedCount mid.transactionRepo uploadID = _
      rw [hmrepo, hcount]
    · rw [savedOf_append, savedOf_append, hsaved]
      simp [savedOf]
    · rw [savedOf_append, savedOf_append, hsaved]
      simp [savedOf, hlen]
    · rw [publishedOf_append, publishedOf_append, List.map_append, List.map_append, hevents]
      simp [publishedOf]
    · rw [recordsReadOf_append, recordsReadOf_append, hrec]
      simp [recordsReadOf]

/-- C11: let the data records of a file be `good ++ [bad] ++ post`, where every record of
`good` parses and is persisted, and `bad` (the `k`-th record, `k = good.length + 1`) fails
to parse or is rejected by the transaction repository. A run of `processStatement` that is
not cancelled before record `k`, for a registered upload, ends with the upload task in
status `failed`; the transactions persisted are exactly those of the `k - 1` records of
`good` (the repository holding `k - 1` more transactions of the upload); events are
published only for the `FAILED` ones among them; no record after `bad` is even read, and
the records after `bad` do not influence the result. -/
theorem processStatement_fail_fast (env : RunEnv) (uc : statement) (uploadID : String)
    (header : List String) (good : List (List String)) (bad : List String)
    (post : List (Except String (List String))) (task : upload.Task)
    (hreg : mapGet uc.uploadRepo.task uploadID = some task)
    (hctx : ∀ j, j ≤ good.length → env.ctxDone j = false)
    (hparse : ∀ j (hj : j < good.length),
      ∃ t, statement.parseTransaction (good.get ⟨j, hj⟩) uploadID (env.newID j) = .ok t)
    (hsave : SavesOk uc.transactionRepo (statement.parseRows env uploadID 0 good))
    (hbad : (∃ err, statement.parseTransaction bad uploadID (env.newID good.length)
          = .error err)
      ∨ (∃ t err, statement.parseTransaction bad uploadID (env.newID good.length) = .ok t
          ∧ ((saveAll uc.transactionRepo (statement.parseRows env uploadID 0 good)).Save
              (some t)).2 = some err)) :
    (∃ task', (statement.processStatement env uc uploadID
          (.ok header :: (good.map Except.ok ++ .ok bad :: post))).uploadRepo.GetByID uploadID
            = .ok task'
        ∧ task'.Status = upload.StatusFailed)
      ∧ savedOf (statement.runTrace env uc uploadID
          (.ok header :: (good.map Except.ok ++ .ok bad :: post))) =
            statement.parseRows env uploadID 0 good
      ∧ (savedOf (statement.runTrace env uc uploadID
          (.ok header :: (good.map Except.ok ++ .ok bad :: post)))).length = good.length
      ∧ (statement.processStatement env uc uploadID
          (.ok header :: (good.map Except.ok ++ .ok bad :: post))).transactionRepo =
            saveAll uc.transactionRepo (statement.parseRows env uploadID 0 good)
      ∧ storedCount (statement.processStatement env uc uploadID
          (.ok header :: (good.map Except.ok ++ .ok bad :: post))).transactionRepo uploadID =
            storedCount uc.transactionRepo uploadID + good.length
      ∧ (publishedOf (statement.runTrace env uc uploadID
          (.ok header :: (good.map Except.ok ++ .ok bad :: post)))).map
            (fun e => e.TransactionID) =
          ((statement.parseRows env uploadID 0 good).filter
            (fun t => t.Status = transaction.StatusFailed)).map (fun t => t.ID)
      ∧ recordsReadOf (statement.runTrace env uc uploadID
          (.ok header :: (good.map Except.ok ++ .ok bad :: post))) = header :: (good ++ [bad])
      ∧ statement.processStatement env uc uploadID
          (.ok header :: (good.map Except.ok ++ .ok bad :: post)) =
        statement.processStatement env uc uploadID
          (.ok header :: (good.map Except.ok ++ [.ok bad])) := by
  obtain ⟨final, new, hfinal, htr, hget, hrepo, hcount, hsaved, hlen, hpub, hrec⟩ :=
    processStatement_stops env uc uploadID header good bad task hreg hctx hparse hsave hbad
  have hrun : statement.runTrace env uc uploadID
      (.ok header :: (good.map Except.ok ++ .ok bad :: post)) = new :=
    runTrace_eq_of_trace env uc uploadID _ new (by rw [hfinal post, htr])
  rw [hrun, hfinal post, hfinal []]
  exact ⟨hget, hsaved, hlen, hrepo, hcount, hpub, hrec, rfl⟩

/-- C11 (witness): a file whose second record has one column only; the first record is
persisted, the third one is not read. -/
theorem processStatement_fail_fast_witness :
    (savedOf (statement.runTrace sampleEnv sampleStatement "u"
        (.ok csvHeader ::
          ([["1674508456", "JANE SMITH", "DEBIT", "75000", "FAILED", "payment failed"]].map
              Except.ok
            ++ .ok ["x"] ::
              [.ok ["1674507883", "JOHN DOE", "DEBIT", "250000", "SUCCESS", "restaurant"]])))).length
        = 1
      ∧ recordsReadOf (statement.runTrace sampleEnv sampleStatement "u"
        (.ok csvHeader ::
          ([["1674508456", "JANE SMITH", "DEBIT", "75000", "FAILED", "payment failed"]].map
              Except.ok
            ++ .ok ["x"] ::
              [.ok ["1674507883", "JOHN DOE", "DEBIT", "250000", "SUCCESS", "restaurant"]]))) =
        [csvHeader,
          ["1674508456", "JANE SMITH", "DEBIT", "75000", "FAILED", "payment failed"], ["x"]] :=
  have h := processStatement_fail_fast sampleEnv sampleStatement "u" csvHeader
    [["1674508456", "JANE SMITH", "DEBIT", "75000", "FAILED", "payment failed"]] ["x"]
    [.ok ["1674507883", "JOHN DOE", "DEBIT", "250000", "SUCCESS", "restaurant"]] sampleTask
    (by decide) (fun _ _ => rfl)
    (fun j hj =>
      match j, hj with
      | 0, _ => ⟨_, rfl⟩
      | j + 1, h => absurd h (by simp))
    (by decide) (Or.inl ⟨_, rfl⟩)
  ⟨h.2.2.1, h.2.2.2.2.2.2.1⟩

/-! ## Theorems: ingestion followed by the balance and issues queries -/

theorem SavesOk_append_singleton :
    ∀ (l : List Transaction) (tr : transactionRepository) (t : Transaction),
      SavesOk tr (l ++ [t]) ↔ SavesOk tr l ∧ SaveOk (saveAll tr l) t := by
  intro l
  induction l with
  | nil =>
    intro tr t
    simp [SavesOk, saveAll]
  | cons a l ih =>
    intro tr t
    rw [List.cons_append]
    simp only [SavesOk]
    rw [ih, saveAll_cons, and_assoc]

/-- The balance of an upload without balance entry after `Save` calls that all store their
transaction. -/
theorem saveAll_balance_from (tr : transactionRepository) (u : String)
    (h0 : mapGet tr.uploadIdToBalance u = none) (ts : List Transaction)
    (hs : SavesOk tr ts) :
    (saveAll tr ts).GetBalanceByUploadID u = wrap64 (netAmount u ts) := by
  induction ts using List.reverseRecOn with
  | nil =>
    simp [saveAll, netAmount, successfulOf, sumAmounts,
      transactionRepository.GetBalanceByUploadID, h0, wrap64]
  | append_singleton l t ih =>
    obtain ⟨hl, hok⟩ := (SavesOk_append_singleton l tr t).mp hs
    rw [saveAll_append_singleton, Save_balance _ _ hok, netAmount_append_singleton, ih hl]
    by_cases h1 : t.UploadID = u ∧ t.Status = transaction.StatusSuccess
    · rw [if_pos h1, if_pos h1]
      by_cases h3 : t.Type_ = transaction.TypeCredit
      · rw [if_pos h3, if_pos h3, wrap64_add_wrap]
      · rw [if_neg h3, if_neg h3]
        by_cases h4 : t.Type_ = transaction.TypeDebit
        · rw [if_pos h4, if_pos h4, wrap64_sub_wrap]
        · rw [if_neg h4, if_neg h4]
    · rw [if_neg h1, if_neg h1]

/-- The issues list of an upload without issues entry after `Save` calls that all store
their transaction. -/
theorem saveAll_issues_from (tr : transactionRepository) (u : String)
    (h0 : mapGet tr.uploadIdToIssues u = none) (ts : List Transaction)
    (hs : SavesOk tr ts) :
    mapGet (saveAll tr ts).uploadIdToIssues u =
      if issuesOf u ts = [] then none else some (issuesOf u ts) := by
  induction ts using List.reverseRecOn with
  | nil => simp [saveAll, issuesOf, h0]
  | append_singleton l t ih =>
    obtain ⟨hl, hok⟩ := (SavesOk_append_singleton l tr t).mp hs
    rw [saveAll_append_singleton, Save_issues _ _ hok, issuesOf_append_singleton, ih hl]
    by_cases h1 : t.UploadID = u ∧ t.Status ≠ transaction.StatusSuccess
    · rw [if_pos h1, if_pos h1]
      by_cases h2 : issuesOf u l = [] <;> simp [h2]
    · rw [if_neg h1, if_neg h1]

theorem issueMatches_plainFilters (u : String) (page pageSize : Int) (t : Transaction) :
    issueMatches (plainFilters u page pageSize) t = true := by
  simp [issueMatches, plainFilters]

/-- The issues query without optional filter on an upload without issues entry before the
`Save` calls, for `Page ≥ 1`, `PageSize ≥ 1` and no overflow of `(Page - 1) * PageSize`. -/
theorem getIssues_plain_from (tr : transactionRepository) (u : String)
    (h0 : mapGet tr.uploadIdToIssues u = none) (ts : List Transaction)
    (hs : SavesOk tr ts) (page pageSize : Int)
    (hp : 1 ≤ page) (hsz : 1 ≤ pageSize) (hmax : pageSize ≤ maxInt64)
    (hmul : (page - 1) * pageSize ≤ maxInt64) (hlen : (ts.length : Int) < 2 ^ 62) :
    (saveAll tr ts).GetIssuesWithFilters (plainFilters u page pageSize) =
      some (pageOf (issuesOf u ts) page.toNat pageSize.toNat,
        ((issuesOf u ts).length : Int), none) := by
  unfold transactionRepository.GetIssuesWithFilters
  have hu : (plainFilters u page pageSize).UploadID = u := rfl
  have hpg : (plainFilters u page pageSize).Page = page := rfl
  have hps : (plainFilters u page pageSize).PageSize = pageSize := rfl
  rw [hu, hpg, hps, saveAll_issues_from tr u h0 ts hs]
  by_cases h : issuesOf u ts = []
  · rw [if_pos h, h]
    simp [pageOf]
  · rw [if_neg h]
    have hfil : (issuesOf u ts).filter (issueMatches (plainFilters u page pageSize)) =
        issuesOf u ts :=
      List.filter_eq_self.mpr (fun t _ => issueMatches_plainFilters u page pageSize t)
    have hlen2 : ((issuesOf u ts).length : Int) < 2 ^ 62 := by
      have : (issuesOf u ts).length ≤ ts.length := List.length_filter_le _ _
      omega
    dsimp only
    rw [hfil, paginate_eq_pageOf _ page pageSize hp hsz hmax hmul hlen2]

theorem parseTransaction_ok_status (record : List String) (uploadID newID : String)
    (t : Transaction) (h : statement.parseTransaction record uploadID newID = .ok t) :
    t.Status = transaction.StatusSuccess ∨ t.Status = transaction.StatusFailed
      ∨ t.Status = transaction.StatusPending := by
  rcases record with _ | ⟨r0, _ | ⟨r1, _ | ⟨r2, _ | ⟨r3, _ | ⟨r4, _ | ⟨r5, _ | ⟨r6, rest⟩⟩⟩⟩⟩⟩⟩
  case cons.cons.cons.cons.cons.cons.nil =>
    unfold statement.parseTransaction at h
    cases h0 : ParseInt (TrimSpace r0) with
    | error e => simp [h0] at h
    | ok ts =>
      cases h3 : ParseInt (TrimSpace r3) with
      | error e =>
        simp only [h0, h3] at h
        split_ifs at h
      | ok amount =>
        simp only [h0, h3] at h
        split_ifs at h with h1 h2 h4 h5 h6
        simp only [Except.ok.injEq] at h
        subst h
        simp only [ne_eq, not_and, not_not] at h5
        by_cases hc : ToUpper (TrimSpace r4) = transaction.StatusSuccess
        · exact Or.inl hc
        · by_cases hf : ToUpper (TrimSpace r4) = transaction.StatusFailed
          · exact Or.inr (Or.inl hf)
          · exact Or.inr (Or.inr (h5 hc hf))
  all_goals simp [statement.parseTransaction] at h

theorem parseRows_status (env : RunEnv) (uploadID : String) :
    ∀ (rows : List (List String)) (k : Nat),
      ∀ t ∈ statement.parseRows env uploadID k rows,
        t.Status = transaction.StatusSuccess ∨ t.Status = transaction.StatusFailed
          ∨ t.Status = transaction.StatusPending := by
  intro rows
  induction rows with
  | nil => intro k t ht; simp [statement.parseRows] at ht
  | cons r rows ih =>
    intro k t ht
    unfold statement.parseRows at ht
    rcases List.mem_append.mp ht with h | h
    · cases hp : statement.parseTransaction r uploadID (env.newID k) with
      | error e => rw [hp] at h; simp at h
      | ok t0 =>
        rw [hp] at h
        simp only [List.mem_singleton] at h
        rw [h]
        exact parseTransaction_ok_status _ _ _ _ hp
    · exact ih (k + 1) t h

/-- The issues of an upload among the transactions parsed from its rows are those with
status `FAILED` or `PENDING`. -/
theorem issuesOf_parseRows (env : RunEnv) (uploadID : String) (rows : List (List String))
    (k : Nat) :
    issuesOf uploadID (statement.parseRows env uploadID k rows) =
      (statement.parseRows env uploadID k rows).filter (fun t =>
        t.Status = transaction.StatusFailed ∨ t.Status = transaction.StatusPending) := by
  unfold issuesOf
  apply List.filter_congr
  intro t ht
  have hu := parseRows_uploadID env uploadID rows k t ht
  have hst := parseRows_status env uploadID rows k t ht
  have hne1 : transaction.StatusFailed ≠ transaction.StatusSuccess := by decide
  have hne2 : transaction.StatusPending ≠ transaction.StatusSuccess := by decide
  rcases hst with h | h | h
  · simp [hu, h, hne1.symm, hne2.symm]
  · simp [hu, h, hne1]
  · simp [hu, h, hne2]

/-- The state in which a run of `processStatement` ends when every record parses and is
persisted and the run is not cancelled. -/
theorem processStatement_all_good (env : RunEnv) (uc : statement) (uploadID : String)
    (header : List String) (rows : List (List String)) (task : upload.Task)
    (hreg : mapGet uc.uploadRepo.task uploadID = some task)
    (hctx : ∀ j, j ≤ rows.length → env.ctxDone j = false)
    (hparse : ∀ j (hj : j < rows.length),
      ∃ t, statement.parseTransaction (rows.get ⟨j, hj⟩) uploadID (env.newID j) = .ok t)
    (hsave : SavesOk uc.transactionRepo (statement.parseRows env uploadID 0 rows)) :
    (∃ task', (statement.processStatement env uc uploadID
          (.ok header :: rows.map Except.ok)).uploadRepo.GetByID uploadID = .ok task'
        ∧ task'.Status = upload.StatusCompleted ∧ task'.Message = "")
      ∧ (statement.processStatement env uc uploadID
          (.ok header :: rows.map Except.ok)).transactionRepo =
            saveAll uc.transactionRepo (statement.parseRows env uploadID 0 rows)
      ∧ (statement.parseRows env uploadID 0 rows).length = rows.length
      ∧ savedOf (statement.runTrace env uc uploadID (.ok header :: rows.map Except.ok)) =
          statement.parseRows env uploadID 0 rows
      ∧ (publishedOf (statement.runTrace env uc uploadID
          (.ok header :: rows.map Except.ok))).map (fun e => e.TransactionID) =
          ((statement.parseRows env uploadID 0 rows).filter
            (fun t => t.Status = transaction.StatusFailed)).map (fun t => t.ID) := by
  obtain ⟨mid, new1, hrun, hmtr, hmup, hmrepo, hsaved, hlen, hupd, hrec, hevents⟩ :=
    processRows_good env uploadID rows
      { uc with trace := uc.trace ++ [Effect.read (some (.ok header))] } 0
      (fun j hj => by simpa using hctx j (Nat.le_of_lt hj))
      (fun j hj => by simpa using hparse j hj) hsave
  have hc : env.ctxDone (0 + rows.length + 1 - 1) = false := by
    simpa using hctx rows.length (le_refl _)
  dsimp only at hmtr hmup hmrepo
  have hfinal : statement.processStatement env uc uploadID (.ok header :: rows.map Except.ok) =
      statement.markUploadAsCompleted env
        { mid with trace := mid.trace ++ [Effect.read none] } uploadID := by
    unfold statement.processStatement
    dsimp only
    have := hrun []
    rw [List.append_nil] at this
    rw [this, processRows_nil env uploadID mid _ hc]
  obtain ⟨info, err, htr, hid, hstat, hmsg, hup, hrepo⟩ := markUploadAsCompleted_update env
    { mid with trace := mid.trace ++ [Effect.read none] } uploadID
  have hrunTrace : statement.runTrace env uc uploadID (.ok header :: rows.map Except.ok) =
      [Effect.read (some (.ok header))] ++ new1 ++ [Effect.read none, Effect.update info err] :=
    runTrace_eq_of_trace env uc uploadID _ _ (by
      rw [hfinal, htr]
      dsimp only
      rw [hmtr]
      simp)
  rw [hrunTrace, hfinal]
  refine ⟨?_, ?_, hlen, ?_, ?_⟩
  · obtain ⟨-, hget⟩ := Update_registered mid.uploadRepo info task
      (by rw [hmup, hid]; exact hreg)
    dsimp only at hup
    rw [hup, hid] at hget
    exact ⟨_, hget, hstat, hmsg⟩
  · rw [hrepo]
    exact hmrepo
  · rw [savedOf_append, savedOf_append, hsaved]
    simp [savedOf]
  · rw [publishedOf_append, publishedOf_append, List.map_append, List.map_append, hevents]
    simp [publishedOf]

/-- C14: let a file with well-formed rows be ingested to completion (no cancellation, every
row parsed and persisted) for a registered upload `u` that has no balance and no issues
entry yet, and let `ts` be the transactions parsed from the rows. Then `balance.Get` reports
status `completed` and the balance `sum of the SUCCESS CREDIT amounts - sum of the SUCCESS
DEBIT amounts` of `ts` in `int64` arithmetic (the exact difference when it is an `int64`),
`issues.GetIssues` without optional filter (for `Page ≥ 1`, `PageSize ≥ 1` and no overflow
of `(Page - 1) * PageSize`) reports as total count the number of transactions of `ts` with
status `FAILED` or `PENDING`, and one event is published per `FAILED` transaction. -/
theorem ingest_then_query (env : RunEnv) (uc : statement) (uploadID : String)
    (header : List String) (rows : List (List String)) (task : upload.Task)
    (page pageSize : Int)
    (hreg : mapGet uc.uploadRepo.task uploadID = some task)
    (hbal : mapGet uc.transactionRepo.uploadIdToBalance uploadID = none)
    (hiss : mapGet uc.transactionRepo.uploadIdToIssues uploadID = none)
    (hctx : ∀ j, j ≤ rows.length → env.ctxDone j = false)
    (hparse : ∀ j (hj : j < rows.length),
      ∃ t, statement.parseTransaction (rows.get ⟨j, hj⟩) uploadID (env.newID j) = .ok t)
    (hsave : SavesOk uc.transactionRepo (statement.parseRows env uploadID 0 rows))
    (hp : 1 ≤ page) (hsz : 1 ≤ pageSize) (hmax : pageSize ≤ maxInt64)
    (hmul : (page - 1) * pageSize ≤ maxInt64) (hlen : (rows.length : Int) < 2 ^ 62) :
    balance.Get
        (statement.processStatement env uc uploadID
          (.ok header :: rows.map Except.ok)).transactionRepo
        (statement.processStatement env uc uploadID
          (.ok header :: rows.map Except.ok)).uploadRepo uploadID =
      .ok { UploadID := uploadID
            Balance := some (wrap64 (netAmount uploadID
              (statement.parseRows env uploadID 0 rows)))
            UploadTaskStatus := upload.StatusCompleted
            UploadTaskMessage := "" }
      ∧ (isInt64 (netAmount uploadID (statement.parseRows env uploadID 0 rows)) →
          wrap64 (netAmount uploadID (statement.parseRows env uploadID 0 rows)) =
            sumAmounts (successfulOf uploadID transaction.TypeCredit
                (statement.parseRows env uploadID 0 rows))
              - sumAmounts (successfulOf uploadID transaction.TypeDebit
                (statement.parseRows env uploadID 0 rows)))
      ∧ issues.GetIssues
          (statement.processStatement env uc uploadID
            (.ok header :: rows.map Except.ok)).transactionRepo
          (statement.processStatement env uc uploadID
            (.ok header :: rows.map Except.ok)).uploadRepo
          (plainFilters uploadID page pageSize) =
        some (.ok
          { Transactions := pageOf ((statement.parseRows env uploadID 0 rows).filter (fun t =>
              t.Status = transaction.StatusFailed ∨ t.Status = transaction.StatusPending))
              page.toNat pageSize.toNat
            TotalCount := (((statement.parseRows env uploadID 0 rows).filter (fun t =>
              t.Status = transaction.StatusFailed ∨ t.Status = transaction.StatusPending)).length
                : Int) })
      ∧ (statement.parseRows env uploadID 0 rows).length = rows.length
      ∧ (publishedOf (statement.runTrace env uc uploadID
          (.ok header :: rows.map Except.ok))).map (fun e => e.TransactionID) =
          ((statement.parseRows env uploadID 0 rows).filter
            (fun t => t.Status = transaction.StatusFailed)).map (fun t => t.ID) := by
  obtain ⟨⟨task', hget, hstat, hmsg⟩, hrepo, hlen1, -, hpub⟩ :=
    processStatement_all_good env uc uploadID header rows task hreg hctx hparse hsave
  refine ⟨?_, fun h => wrap64_of_isInt64 _ h, ?_, hlen1, hpub⟩
  · unfold balance.Get
    rw [hget]
    dsimp only
    rw [if_neg (by simp [hstat]), hrepo,
      saveAll_balance_from uc.transactionRepo uploadID hbal _ hsave, hstat, hmsg]
  · unfold issues.GetIssues
    have hu : (plainFilters uploadID page pageSize).UploadID = uploadID := rfl
    rw [hu, hget]
    dsimp only
    rw [hrepo, getIssues_plain_from uc.transactionRepo uploadID hiss _ hsave page pageSize
      hp hsz hmax hmul (by rw [hlen1]; exact hlen), issuesOf_parseRows]

/-- C14 (witness): the worked example, a successful credit of 100 and a failed debit of 30:
balance 100, one issue, one event. -/
theorem ingest_then_query_witness :
    balance.Get
        (statement.processStatement sampleEnv sampleStatement "u"
          (.ok csvHeader :: exampleRows.map Except.ok)).transactionRepo
        (statement.processStatement sampleEnv sampleStatement "u"
          (.ok csvHeader :: exampleRows.map Except.ok)).uploadRepo "u" =
      .ok { UploadID := "u", Balance := some 100, UploadTaskStatus := upload.StatusCompleted,
            UploadTaskMessage := "" }
      ∧ (∃ r, issues.GetIssues
          (statement.processStatement sampleEnv sampleStatement "u"
            (.ok csvHeader :: exampleRows.map Except.ok)).transactionRepo
          (statement.processStatement sampleEnv sampleStatement "u"
            (.ok csvHeader :: exampleRows.map Except.ok)).uploadRepo
          (plainFilters "u" 1 20) = some (.ok r) ∧ r.TotalCount = 1
            ∧ r.Transactions.map (fun t => t.ID) = ["tx1"])
      ∧ (publishedOf (statement.runTrace sampleEnv sampleStatement "u"
          (.ok csvHeader :: exampleRows.map Except.ok))).map (fun e => e.TransactionID) =
          ["tx1"] := by
  have h := ingest_then_query sampleEnv sampleStatement "u" csvHeader exampleRows sampleTask
    1 20 (by decide) (by decide) (by decide) (fun _ _ => rfl)
    (fun j hj =>
      match j, hj with
      | 0, _ => ⟨_, rfl⟩
      | 1, _ => ⟨_, rfl⟩
      | j + 2, h => absurd h (by simp [exampleRows]))
    (by decide) (by decide) (by decide) (by decide) (by decide) (by decide)
  have hts : statement.parseRows sampleEnv "u" 0 exampleRows =
      [ { ID := "tx0", UploadID := "u", Timestamp := 1, Counterparty := "A",
          Type_ := "CREDIT", Amount := 100, Status := "SUCCESS", Description := "pay" },
        { ID := "tx1", UploadID := "u", Timestamp := 2, Counterparty := "B",
          Type_ := "DEBIT", Amount := 30, Status := "FAILED", Description := "x" } ] := by
    decide
  rw [hts] at h
  obtain ⟨h1, -, h3, -, h5⟩ := h
  refine ⟨?_, ⟨_, h3, by decide, by decide⟩, ?_⟩
  · rw [h1]
    decide
  · rw [h5]
    decide

/-! ## Theorems: failure conditions of the repositories -/

/-- C23: `Save` of the transaction repository returns an error if and only if the
transaction is nil, its ID is empty, its upload ID is empty, or a transaction is stored
under its ID; on the states built by `Save` calls on a fresh repository the last condition
says that an earlier `Save` of a transaction with that ID returned `nil`. Whenever `Save`
returns an error, the repository is unchanged: the stored transactions, every balance and
every issues list. -/
theorem Save_error_iff (tr : transactionRepository) (t : Option Transaction) :
    ((tr.Save t).2 ≠ none ↔
        t = none ∨ ∃ x, t = some x ∧
          (x.ID = "" ∨ x.UploadID = "" ∨ (mapGet tr.transactions x.ID).isSome = true))
      ∧ ((tr.Save t).2 ≠ none →
          (tr.Save t).1 = tr
            ∧ (tr.Save t).1.transactions = tr.transactions
            ∧ (∀ u, (tr.Save t).1.GetBalanceByUploadID u = tr.GetBalanceByUploadID u)
            ∧ (∀ u, mapGet (tr.Save t).1.uploadIdToIssues u = mapGet tr.uploadIdToIssues u))
      ∧ (∀ (ts : List Transaction) (x : Transaction),
          ((saveAll NewTransactionRepository ts).Save (some x)).2 ≠ none ↔
            x.ID = "" ∨ x.UploadID = "" ∨
              ∃ y ∈ ts, y.ID = x.ID ∧ y ∈ accepted ts) := by
  have hiff : ∀ (r : transactionRepository) (x : Transaction),
      (r.Save (some x)).2 ≠ none ↔
        (x.ID = "" ∨ x.UploadID = "" ∨ (mapGet r.transactions x.ID).isSome = true) := by
    intro r x
    rw [Ne, Save_err_none_iff]
    unfold SaveOk
    rw [← Option.not_isSome_iff_eq_none]
    tauto
  refine ⟨?_, ?_, ?_⟩
  · cases t with
    | none => simp [transactionRepository.Save]
    | some x =>
      rw [hiff]
      simp
  · intro h
    have hst : (tr.Save t).1 = tr := by
      cases t with
      | none => rfl
      | some x =>
        apply Save_state_of_not_ok
        intro hok
        exact h ((Save_err_none_iff tr x).mpr hok)
    rw [hst]
    exact ⟨rfl, rfl, fun _ => rfl, fun _ => rfl⟩
  · intro ts x
    rw [Ne, Save_err_none_iff, saveOk_saveAll_iff]
    constructor
    · intro h
      by_cases h1 : x.ID = ""
      · exact Or.inl h1
      · by_cases h2 : x.UploadID = ""
        · exact Or.inr (Or.inl h2)
        · right; right
          have h3 : x.ID ∈ (accepted ts).map (fun s => s.ID) := by
            by_contra hn
            exact h ⟨h1, h2, hn⟩
          obtain ⟨y, hy, hyid⟩ := List.mem_map.mp h3
          exact ⟨y, accepted_subset ts y hy, hyid, hy⟩
    · rintro (h | h | ⟨y, -, hyid, hy⟩) hok
      · exact hok.1 h
      · exact hok.2.1 h
      · exact hok.2.2 (List.mem_map.mpr ⟨y, hy, hyid⟩)

theorem updateAll_append_singleton (u : uploadRepository) (infos : List upload.Task)
    (info : upload.Task) :
    updateAll u (infos ++ [info]) = ((updateAll u infos).Update info).1 := by
  simp [updateAll, List.foldl_append]

/-- An `Update` of a stored task stores the task with the new message, status and
completion time under the same ID and leaves the tasks stored under other IDs alone. -/
theorem Update_stored (u : uploadRepository) (info stored : upload.Task)
    (h : mapGet u.task info.ID = some stored) (id : String) :
    (u.Update info).2 = none
      ∧ mapGet (u.Update info).1.task id =
          if info.ID = id then some (stored.updatedWith info) else mapGet u.task id := by
  unfold uploadRepository.Update
  simp only [h, mapGet_mapSet, true_and]
  rfl

/-- An `Update` for an ID under which no task is stored returns an error and leaves the
repository unchanged. -/
theorem Update_not_stored (u : uploadRepository) (info : upload.Task)
    (h : mapGet u.task info.ID = none) :
    u.Update info = (u, some "upload task not found") := by
  unfold uploadRepository.Update
  simp only [h]

theorem updatedWith_updatedWith (a b c : upload.Task) :
    (a.updatedWith b).updatedWith c = a.updatedWith c := rfl

/-- The task stored under an ID after a sequence of `Update` calls: the task stored before
with the message, status and completion time of the last `Update` for that ID. -/
theorem updateAll_stored (u : uploadRepository) (id : String) (task : upload.Task)
    (h : mapGet u.task id = some task) (infos : List upload.Task) :
    mapGet (updateAll u infos).task id =
      some (match (infos.filter (fun info => info.ID = id)).getLast? with
        | none => task
        | some info => task.updatedWith info) := by
  induction infos using List.reverseRecOn with
  | nil => simpa [updateAll] using h
  | append_singleton l info ih =>
    rw [updateAll_append_singleton, filter_append_singleton]
    by_cases hid : info.ID = id
    · rw [if_pos (decide_eq_true hid), List.getLast?_append, List.getLast?_singleton]
      have hst : mapGet (updateAll u l).task info.ID = some (match
          (l.filter (fun info => info.ID = id)).getLast? with
        | none => task
        | some info => task.updatedWith info) := by rw [hid]; exact ih
      rw [(Update_stored _ info _ hst id).2, if_pos hid]
      cases (l.filter (fun info => info.ID = id)).getLast? <;> rfl
    · rw [if_neg (by simpa using hid)]
      cases hst : mapGet (updateAll u l).task info.ID with
      | none => rw [Update_not_stored _ info hst]; exact ih
      | some stored => rw [(Update_stored _ info stored hst id).2, if_neg hid]; exact ih

/-- C24: failure conditions of the upload repository. `Save` returns an error if and only if
the task is nil, its ID is empty, or a task is stored under its ID. `Update` returns an
error if and only if no task is stored under the ID of its argument, and then leaves the
repository unchanged. `GetByID` returns an error if and only if no task is stored under the
ID, and otherwise returns the stored task: the task saved under the ID, with the message,
status and completion time of the last `Update` for the ID, if any. -/
theorem uploadRepository_failures (u : uploadRepository) :
    (∀ task : Option upload.Task,
        (u.Save task).2 ≠ none ↔
          task = none ∨ ∃ x, task = some x ∧
            (x.ID = "" ∨ (mapGet u.task x.ID).isSome = true))
      ∧ (∀ info : upload.Task, (u.Update info).2 ≠ none ↔ mapGet u.task info.ID = none)
      ∧ (∀ info : upload.Task, (u.Update info).2 ≠ none → (u.Update info).1 = u)
      ∧ (∀ id : String, (∃ e, u.GetByID id = .error e) ↔ mapGet u.task id = none)
      ∧ (∀ (id : String) (task : upload.Task),
          mapGet u.task id = some task → u.GetByID id = .ok task)
      ∧ (∀ x : upload.Task, (u.Save (some x)).2 = none →
          ∀ infos : List upload.Task,
            (updateAll (u.Save (some x)).1 infos).GetByID x.ID =
              .ok (match (infos.filter (fun info => info.ID = x.ID)).getLast? with
                | none => x
                | some info => x.updatedWith info)) := by
  refine ⟨?_, ?_, ?_, ?_, ?_, ?_⟩
  · intro task
    cases task with
    | none => simp [uploadRepository.Save]
    | some x =>
      unfold uploadRepository.Save
      by_cases h1 : x.ID = ""
      · simp [h1]
      · by_cases h2 : (mapGet u.task x.ID).isSome = true
        · simp [h1, h2]
        · simp [h1, h2]
  · intro info
    cases hst : mapGet u.task info.ID with
    | none => rw [Update_not_stored u info hst]; simp
    | some stored => rw [(Update_stored u info stored hst info.ID).1]; simp
  · intro info h
    cases hst : mapGet u.task info.ID with
    | none => rw [Update_not_stored u info hst]
    | some stored => exact absurd (Update_stored u info stored hst info.ID).1 h
  · intro id
    unfold uploadRepository.GetByID
    cases mapGet u.task id <;> simp
  · intro id task h
    unfold uploadRepository.GetByID
    rw [h]
  · intro x hx infos
    have hstored : mapGet (u.Save (some x)).1.task x.ID = some x := by
      unfold uploadRepository.Save at hx ⊢
      by_cases h1 : x.ID = ""
      · simp [h1] at hx
      · by_cases h2 : (mapGet u.task x.ID).isSome = true
        · simp [h1, h2] at hx
        · simp [h1, h2, mapGet_mapSet]
    unfold uploadRepository.GetByID
    rw [updateAll_stored _ x.ID x hstored infos]

/-- C27: `balance.Get` returns an error if and only if no upload task is stored under the
upload ID; otherwise it returns the status and the message of the task, and its `Balance`
is present if and only if the status is `completed`, in which case it is
`GetBalanceByUploadID` of the upload. -/
theorem balance_Get_spec (transactionRepo : transactionRepository)
    (uploadRepo : uploadRepository) (uploadID : String) :
    ((∃ e, balance.Get transactionRepo uploadRepo uploadID = .error e) ↔
        mapGet uploadRepo.task uploadID = none)
      ∧ (∀ task, mapGet uploadRepo.task uploadID = some task →
          ∃ r, balance.Get transactionRepo uploadRepo uploadID = .ok r
            ∧ r.UploadID = uploadID
            ∧ r.UploadTaskStatus = task.Status
            ∧ r.UploadTaskMessage = task.Message
            ∧ (r.Balance.isSome = true ↔ task.Status = upload.StatusCompleted)
            ∧ (task.Status = upload.StatusCompleted →
                r.Balance = some (transactionRepo.GetBalanceByUploadID uploadID))
            ∧ (task.Status ≠ upload.StatusCompleted → r.Balance = none)) := by
  unfold balance.Get uploadRepository.GetByID
  cases h : mapGet uploadRepo.task uploadID with
  | none => simp
  | some task =>
    refine ⟨by simp; split <;> simp, ?_⟩
    intro task' ht
    cases ht
    by_cases hs : task.Status = upload.StatusCompleted
    · simp [hs]
    · simp [hs]

/-- C28 (failing input): with one issue stored for upload `u`, the page `2^57 + 1` of size
64, both within the ranges that `parseFilters` admits, makes the slice expression of
`GetIssuesWithFilters` panic: the offset `2^57 * 64 = 2^63` wraps to `-2^63`. -/
theorem getIssues_handler_range_panics :
    1 ≤ overflowFilters.Page ∧ 1 ≤ overflowFilters.PageSize ∧ overflowFilters.PageSize ≤ 100
      ∧ wrap64 (wrap64 (overflowFilters.Page - 1) * overflowFilters.PageSize) = minInt64
      ∧ (saveAll NewTransactionRepository [failedTransaction]).GetIssuesWithFilters
          overflowFilters = none := by
  decide

/-! ## Theorems: frame conditions of the repositories -/

/-- Adding or subtracting an amount between 1 and the largest `int64` changes a value, also
when the result wraps around. -/
theorem wrap64_add_ne (b a : Int) (h0 : 0 < a) (h1 : a ≤ maxInt64) :
    wrap64 (b + a) ≠ b ∧ wrap64 (b - a) ≠ b := by
  unfold maxInt64 at *
  unfold wrap64
  constructor <;> omega

/-- C29 (counterexample): the `Save` of a `SUCCESS` credit with amount 0 returns `nil` and
changes neither the balance nor the issues list of its upload. -/
theorem Save_changes_neither :
    (NewTransactionRepository.Save (some zeroCredit)).2 = none
      ∧ (NewTransactionRepository.Save (some zeroCredit)).1.GetBalanceByUploadID "u" =
          NewTransactionRepository.GetBalanceByUploadID "u"
      ∧ mapGet (NewTransactionRepository.Save (some zeroCredit)).1.uploadIdToIssues "u" =
          mapGet NewTransactionRepository.uploadIdToIssues "u"
      ∧ (NewTransactionRepository.Save (some zeroCredit)).1.GetIssuesWithFilters
            (plainFilters "u" 1 20) =
          NewTransactionRepository.GetIssuesWithFilters (plainFilters "u" 1 20) := by
  decide

/-- C29 (amended): a `Save` of a transaction `t`, successful or not, changes neither the
balance nor the result of `GetIssuesWithFilters` of any upload other than `t.UploadID`. A
successful `Save` of a `SUCCESS` transaction leaves the issues list of `t.UploadID`
unchanged and replaces the balance by `balance + Amount` for a `CREDIT`, `balance - Amount`
for a `DEBIT` (in `int64` arithmetic) and by itself for any other type; the balance is
changed whenever the type is `CREDIT` or `DEBIT` and `0 < Amount ≤ MaxInt64`. A successful
`Save` of any other transaction leaves the balance unchanged and appends the transaction at
the end of the issues list. -/
theorem Save_isolation (tr : transactionRepository) (t : Transaction) :
    (∀ u, u ≠ t.UploadID →
        (tr.Save (some t)).1.GetBalanceByUploadID u = tr.GetBalanceByUploadID u)
      ∧ (∀ filters : IssuesFilters, filters.UploadID ≠ t.UploadID →
          (tr.Save (some t)).1.GetIssuesWithFilters filters =
            tr.GetIssuesWithFilters filters)
      ∧ ((tr.Save (some t)).2 = none → t.Status = transaction.StatusSuccess →
          mapGet (tr.Save (some t)).1.uploadIdToIssues t.UploadID =
              mapGet tr.uploadIdToIssues t.UploadID
            ∧ (tr.Save (some t)).1.GetBalanceByUploadID t.UploadID =
                (if t.Type_ = transaction.TypeCredit then
                  wrap64 (tr.GetBalanceByUploadID t.UploadID + t.Amount)
                else if t.Type_ = transaction.TypeDebit then
                  wrap64 (tr.GetBalanceByUploadID t.UploadID - t.Amount)
                else tr.GetBalanceByUploadID t.UploadID)
            ∧ ((t.Type_ = transaction.TypeCredit ∨ t.Type_ = transaction.TypeDebit) →
                0 < t.Amount → t.Amount ≤ maxInt64 →
                (tr.Save (some t)).1.GetBalanceByUploadID t.UploadID ≠
                  tr.GetBalanceByUploadID t.UploadID))
      ∧ ((tr.Save (some t)).2 = none → t.Status ≠ transaction.StatusSuccess →
          (tr.Save (some t)).1.GetBalanceByUploadID t.UploadID =
              tr.GetBalanceByUploadID t.UploadID
            ∧ mapGet (tr.Save (some t)).1.uploadIdToIssues t.UploadID =
                some ((mapGet tr.uploadIdToIssues t.UploadID).getD [] ++ [t])) := by
  refine ⟨?_, ?_, ?_, ?_⟩
  · intro u hu
    by_cases hok : SaveOk tr t
    · rw [Save_balance tr t hok u, if_neg (fun h => hu h.1.symm)]
    · rw [Save_state_of_not_ok tr t hok]
  · intro filters hu
    by_cases hok : SaveOk tr t
    · unfold transactionRepository.GetIssuesWithFilters
      rw [Save_issues tr t hok filters.UploadID, if_neg (fun h => hu h.1.symm)]
    · rw [Save_state_of_not_ok tr t hok]
  · intro herr hs
    have hok := (Save_err_none_iff tr t).mp herr
    have hbal : (tr.Save (some t)).1.GetBalanceByUploadID t.UploadID =
        (if t.Type_ = transaction.TypeCredit then
          wrap64 (tr.GetBalanceByUploadID t.UploadID + t.Amount)
        else if t.Type_ = transaction.TypeDebit then
          wrap64 (tr.GetBalanceByUploadID t.UploadID - t.Amount)
        else tr.GetBalanceByUploadID t.UploadID) := by
      rw [Save_balance tr t hok t.UploadID, if_pos ⟨rfl, hs⟩]
    refine ⟨?_, hbal, ?_⟩
    · rw [Save_issues tr t hok t.UploadID, if_neg (fun h => h.2 hs)]
    · intro hty hpos hmax
      rw [hbal]
      obtain ⟨h1, h2⟩ := wrap64_add_ne (tr.GetBalanceByUploadID t.UploadID) _ hpos hmax
      rcases hty with hc | hd
      · rw [if_pos hc]
        exact h1
      · by_cases hc : t.Type_ = transaction.TypeCredit
        · rw [if_pos hc]
          exact h1
        · rw [if_neg hc, if_pos hd]
          exact h2
  · intro herr hs
    have hok := (Save_err_none_iff tr t).mp herr
    constructor
    · rw [Save_balance tr t hok t.UploadID, if_neg (fun h => hs h.2)]
    · rw [Save_issues tr t hok t.UploadID, if_pos ⟨rfl, hs⟩]

/-- What `markUploadAsFailed` makes of a registered upload task: the status `failed` and
the given message, with the ID, the file name and the start time as stored. -/
theorem markUploadAsFailed_registered (env : RunEnv) (uc : statement)
    (uploadID reason : String) (task : upload.Task)
    (hreg : mapGet uc.uploadRepo.task uploadID = some task) :
    ∃ task', (statement.markUploadAsFailed env uc uploadID reason).uploadRepo.GetByID
          uploadID = .ok task'
      ∧ task'.Status = upload.StatusFailed ∧ task'.Message = reason
      ∧ task'.ID = task.ID ∧ task'.Filename = task.Filename
      ∧ task'.StartedAt = task.StartedAt
      ∧ ∀ id, id ≠ uploadID →
          mapGet (statement.markUploadAsFailed env uc uploadID reason).uploadRepo.task id =
            mapGet uc.uploadRepo.task id := by
  unfold statement.markUploadAsFailed uploadRepository.GetByID
  dsimp only
  refine ⟨task.updatedWith
      { ID := uploadID, Status := upload.StatusFailed, Filename := "", Message := reason,
        StartedAt := 0, CompletedAt := env.now uc.trace.length },
    by rw [(Update_stored uc.uploadRepo _ task hreg uploadID).2, if_pos rfl],
    rfl, rfl, rfl, rfl, rfl, ?_⟩
  intro id hid
  rw [(Update_stored uc.uploadRepo _ task hreg id).2, if_neg (fun h => hid h.symm)]

/-- What `markUploadAsCompleted` makes of a registered upload task: the status `completed`
and an empty message, with the ID, the file name and the start time as stored. -/
theorem markUploadAsCompleted_registered (env : RunEnv) (uc : statement)
    (uploadID : String) (task : upload.Task)
    (hreg : mapGet uc.uploadRepo.task uploadID = some task) :
    ∃ task', (statement.markUploadAsCompleted env uc uploadID).uploadRepo.GetByID
          uploadID = .ok task'
      ∧ task'.Status = upload.StatusCompleted ∧ task'.Message = ""
      ∧ task'.ID = task.ID ∧ task'.Filename = task.Filename
      ∧ task'.StartedAt = task.StartedAt
      ∧ ∀ id, id ≠ uploadID →
          mapGet (statement.markUploadAsCompleted env uc uploadID).uploadRepo.task id =
            mapGet uc.uploadRepo.task id := by
  unfold statement.markUploadAsCompleted uploadRepository.GetByID
  dsimp only
  refine ⟨task.updatedWith
      { ID := uploadID, Status := upload.StatusCompleted, Filename := "", Message := "",
        StartedAt := 0, CompletedAt := env.now uc.trace.length },
    by rw [(Update_stored uc.uploadRepo _ task hreg uploadID).2, if_pos rfl],
    rfl, rfl, rfl, rfl, rfl, ?_⟩
  intro id hid
  rw [(Update_stored uc.uploadRepo _ task hreg id).2, if_neg (fun h => hid h.symm)]

/-- C30: an `Update` for a stored task returns `nil` and overwrites only the message, the
status and the completion time of the task: its ID, file name and start time are those
stored before, and the tasks stored under other IDs are unchanged. Hence the update made
by `markUploadAsFailed` and by `markUploadAsCompleted`, whose argument has an empty file
name and a zero start time, keeps the file name and the start time of the registered
task. -/
theorem Update_overwrites (u : uploadRepository) (info stored : upload.Task)
    (h : mapGet u.task info.ID = some stored) :
    (u.Update info).2 = none
      ∧ (∃ task', (u.Update info).1.GetByID info.ID = .ok task'
          ∧ task'.Message = info.Message ∧ task'.Status = info.Status
          ∧ task'.CompletedAt = info.CompletedAt
          ∧ task'.ID = stored.ID ∧ task'.Filename = stored.Filename
          ∧ task'.StartedAt = stored.StartedAt)
      ∧ (∀ id, id ≠ info.ID → (u.Update info).1.GetByID id = u.GetByID id)
      ∧ (∀ (env : RunEnv) (uc : statement) (reason : String), uc.uploadRepo = u →
          ∃ task', (statement.markUploadAsFailed env uc info.ID reason).uploadRepo.GetByID
                info.ID = .ok task'
            ∧ task'.Filename = stored.Filename ∧ task'.StartedAt = stored.StartedAt
            ∧ task'.ID = stored.ID ∧ task'.Status = upload.StatusFailed
            ∧ task'.Message = reason)
      ∧ (∀ (env : RunEnv) (uc : statement), uc.uploadRepo = u →
          ∃ task', (statement.markUploadAsCompleted env uc info.ID).uploadRepo.GetByID
                info.ID = .ok task'
            ∧ task'.Filename = stored.Filename ∧ task'.StartedAt = stored.StartedAt
            ∧ task'.ID = stored.ID ∧ task'.Status = upload.StatusCompleted
            ∧ task'.Message = "") := by
  refine ⟨(Update_stored u info stored h info.ID).1, ?_, ?_, ?_, ?_⟩
  · refine ⟨stored.updatedWith info, ?_, rfl, rfl, rfl, rfl, rfl, rfl⟩
    unfold uploadRepository.GetByID
    rw [(Update_stored u info stored h info.ID).2, if_pos rfl]
  · intro id hid
    unfold uploadRepository.GetByID
    rw [(Update_stored u info stored h id).2, if_neg (fun e => hid e.symm)]
  · intro env uc reason huc
    subst huc
    obtain ⟨task', h1, h2, h3, h4, h5, h6, -⟩ :=
      markUploadAsFailed_registered env uc info.ID reason stored h
    exact ⟨task', h1, h5, h6, h4, h2, h3⟩
  · intro env uc huc
    subst huc
    obtain ⟨task', h1, h2, h3, h4, h5, h6, -⟩ :=
      markUploadAsCompleted_registered env uc info.ID stored h
    exact ⟨task', h1, h5, h6, h4, h2, h3⟩

/-- C30 (witness): the update of the registered sample upload `u` to `failed` keeps the
file name `test.csv` and the start time. -/
theorem Update_overwrites_witness :
    ∃ task', (sampleStatement.uploadRepo.Update
          { ID := "u", Status := upload.StatusFailed, Filename := "", Message := "x",
            StartedAt := 0, CompletedAt := 9 }).1.GetByID "u" = .ok task'
      ∧ task'.Filename = "test.csv" ∧ task'.StartedAt = 5 ∧ task'.Status = upload.StatusFailed := by
  obtain ⟨-, ⟨task', h1, -, h3, -, -, h6, h7⟩, -⟩ := Update_overwrites sampleStatement.uploadRepo
    { ID := "u", Status := upload.StatusFailed, Filename := "", Message := "x",
      StartedAt := 0, CompletedAt := 9 } sampleTask (by decide)
  exact ⟨task', h1, h6, h7, h3⟩

/-- C29 (witness): the `Save` of a `FAILED` debit of upload `u` into a fresh repository
appends it to the issues list of `u` and leaves the balance of `u` unchanged. -/
theorem Save_isolation_witness :
    (NewTransactionRepository.Save (some failedTransaction)).2 = none
      ∧ (NewTransactionRepository.Save (some failedTransaction)).1.GetBalanceByUploadID "u" =
          NewTransactionRepository.GetBalanceByUploadID "u"
      ∧ mapGet (NewTransactionRepository.Save (some failedTransaction)).1.uploadIdToIssues "u" =
          some [failedTransaction] :=
  ⟨by decide,
    ((Save_isolation NewTransactionRepository failedTransaction).2.2.2 (by decide)
      (by decide)).1,
    ((Save_isolation NewTransactionRepository failedTransaction).2.2.2 (by decide)
      (by decide)).2⟩

/-! ## Theorems: cancellation and the terminal message of a run of `processStatement` -/

/-- A run of `processStatement` on a file whose first records all parse and are all
persisted, without cancellation before them: the run continues as the row loop on the rows
that follow, after the calls `new`. -/
theorem processStatement_good_rows (env : RunEnv) (uc : statement) (uploadID : String)
    (header : List String) (good : List (List String))
    (hctx : ∀ j, j < good.length → env.ctxDone j = false)
    (hparse : ∀ j (hj : j < good.length),
      ∃ t, statement.parseTransaction (good.get ⟨j, hj⟩) uploadID (env.newID j) = .ok t)
    (hsave : SavesOk uc.transactionRepo (statement.parseRows env uploadID 0 good)) :
    ∃ mid new,
      (∀ rest, statement.processStatement env uc uploadID
          (.ok header :: (good.map Except.ok ++ rest)) =
            statement.processRows env uploadID mid (good.length + 1) rest)
        ∧ mid.trace = uc.trace ++ new
        ∧ mid.uploadRepo = uc.uploadRepo
        ∧ mid.transactionRepo =
            saveAll uc.transactionRepo (statement.parseRows env uploadID 0 good)
        ∧ savedOf new = statement.parseRows env uploadID 0 good
        ∧ (statement.parseRows env uploadID 0 good).length = good.length
        ∧ updatesOf new = []
        ∧ recordsReadOf new = header :: good
        ∧ (publishedOf new).map (fun e => e.TransactionID) =
            ((statement.parseRows env uploadID 0 good).filter
              (fun t => t.Status = transaction.StatusFailed)).map (fun t => t.ID) := by
  obtain ⟨mid, new1, hrun, hmtr, hmup, hmrepo, hsaved, hlen, hupd, hrec, hevents⟩ :=
    processRows_good env uploadID good
      { uc with trace := uc.trace ++ [Effect.read (some (.ok header))] } 0
      (fun j hj => by simpa using hctx j hj)
      (fun j hj => by simpa using hparse j hj) hsave
  dsimp only at hmtr hmup hmrepo
  refine ⟨mid, [Effect.read (some (.ok header))] ++ new1, fun rest => ?_, ?_, hmup, hmrepo,
    ?_, hlen, ?_, ?_, ?_⟩
  · unfold statement.processStatement
    dsimp only
    rw [hrun rest]
    simp
  · rw [hmtr]
    simp
  · rw [savedOf_append, hsaved]
    simp [savedOf]
  · rw [updatesOf_append, hupd]
    simp [updatesOf]
  · rw [recordsReadOf_append, hrec]
    simp [recordsReadOf]
  · rw [publishedOf_append, List.map_append, hevents]
    simp [publishedOf]

/-- C25: let the first `k - 1` data records of a file (`good`) parse and be persisted, and
let the context be done at the check that precedes the reading of record `k`, and not at the
checks before. Then `processStatement`, for a registered upload, marks the task `failed`
with the message `processing cancelled`; it reads no row after record `k - 1`, so that it
persists and publishes nothing for record `k` or a later record (the result does not depend
on them); and the `k - 1` records before stay persisted. -/
theorem processStatement_cancelled (env : RunEnv) (uc : statement) (uploadID : String)
    (header : List String) (good : List (List String))
    (rest : List (Except String (List String))) (task : upload.Task)
    (hreg : mapGet uc.uploadRepo.task uploadID = some task)
    (hctx : ∀ j, j < good.length → env.ctxDone j = false)
    (hcancel : env.ctxDone good.length = true)
    (hparse : ∀ j (hj : j < good.length),
      ∃ t, statement.parseTransaction (good.get ⟨j, hj⟩) uploadID (env.newID j) = .ok t)
    (hsave : SavesOk uc.transactionRepo (statement.parseRows env uploadID 0 good)) :
    (∃ task', (statement.processStatement env uc uploadID
          (.ok header :: (good.map Except.ok ++ rest))).uploadRepo.GetByID uploadID = .ok task'
        ∧ task'.Status = upload.StatusFailed ∧ task'.Message = "processing cancelled")
      ∧ recordsReadOf (statement.runTrace env uc uploadID
          (.ok header :: (good.map Except.ok ++ rest))) = header :: good
      ∧ savedOf (statement.runTrace env uc uploadID
          (.ok header :: (good.map Except.ok ++ rest))) =
            statement.parseRows env uploadID 0 good
      ∧ (savedOf (statement.runTrace env uc uploadID
          (.ok header :: (good.map Except.ok ++ rest)))).length = good.length
      ∧ (publishedOf (statement.runTrace env uc uploadID
          (.ok header :: (good.map Except.ok ++ rest)))).map (fun e => e.TransactionID) =
          ((statement.parseRows env uploadID 0 good).filter
            (fun t => t.Status = transaction.StatusFailed)).map (fun t => t.ID)
      ∧ (statement.processStatement env uc uploadID
          (.ok header :: (good.map Except.ok ++ rest))).transactionRepo =
            saveAll uc.transactionRepo (statement.parseRows env uploadID 0 good)
      ∧ storedCount (statement.processStatement env uc uploadID
          (.ok header :: (good.map Except.ok ++ rest))).transactionRepo uploadID =
            storedCount uc.transactionRepo uploadID + good.length
      ∧ statement.processStatement env uc uploadID
          (.ok header :: (good.map Except.ok ++ rest)) =
        statement.processStatement env uc uploadID
          (.ok header :: (good.map Except.ok ++ [])) := by
  obtain ⟨mid, new, hrun, hmtr, hmup, hmrepo, hsaved, hlen, hupd, hrec, hevents⟩ :=
    processStatement_good_rows env uc uploadID header good hctx hparse hsave
  have hc : env.ctxDone (good.length + 1 - 1) = true := by simpa using hcancel
  have hfinal : ∀ rest, statement.processStatement env uc uploadID
      (.ok header :: (good.map Except.ok ++ rest)) =
        statement.markUploadAsFailed env mid uploadID "processing cancelled" := by
    intro rest
    rw [hrun rest, processRows_cancelled env uploadID mid _ rest hc]
  obtain ⟨info, err, htr, -, -, -, -, hrepo⟩ :=
    markUploadAsFailed_update env mid uploadID "processing cancelled"
  have hrunTrace : statement.runTrace env uc uploadID
      (.ok header :: (good.map Except.ok ++ rest)) = new ++ [Effect.update info err] :=
    runTrace_eq_of_trace env uc uploadID _ _ (by rw [hfinal rest, htr, hmtr, List.append_assoc])
  obtain ⟨task', hget, hstat, hmsg, -⟩ := markUploadAsFailed_registered env mid uploadID
    "processing cancelled" task (by rw [hmup]; exact hreg)
  rw [hrunTrace, hfinal rest, hfinal []]
  refine ⟨⟨task', hget, hstat, hmsg⟩, ?_, ?_, ?_, ?_, ?_, ?_, rfl⟩
  · rw [recordsReadOf_append, hrec]
    simp [recordsReadOf]
  · rw [savedOf_append, hsaved]
    simp [savedOf]
  · rw [savedOf_append, hsaved]
    simp [savedOf, hlen]
  · rw [publishedOf_append, List.map_append, hevents]
    simp [publishedOf]
  · rw [hrepo, hmrepo]
  · rw [hrepo, hmrepo,
      storedCount_saveAll uploadID _ _ hsave (parseRows_uploadID env uploadID good 0), hlen]

/-- C26: let the first `k - 1` data records of a file (`good`) parse and be persisted, in a
run that is not cancelled before record `k`, for a registered upload. When record `k` does
not parse, the message of the task is `invalid data at line ` followed by the decimal
numeral of `k + 1`, then `: ` and the error of `parseTransaction`; when record `k` parses
and `Save` rejects it, the message is `failed to save transaction at line ` followed by the
numeral of `k + 1`, then `: ` and the error of `Save`. The status is `failed` in both
cases. -/
theorem processStatement_failure_message (env : RunEnv) (uc : statement) (uploadID : String)
    (header : List String) (good : List (List String)) (bad : List String)
    (post : List (Except String (List String))) (task : upload.Task)
    (hreg : mapGet uc.uploadRepo.task uploadID = some task)
    (hctx : ∀ j, j ≤ good.length → env.ctxDone j = false)
    (hparse : ∀ j (hj : j < good.length),
      ∃ t, statement.parseTransaction (good.get ⟨j, hj⟩) uploadID (env.newID j) = .ok t)
    (hsave : SavesOk uc.transactionRepo (statement.parseRows env uploadID 0 good)) :
    (∀ err, statement.parseTransaction bad uploadID (env.newID good.length) = .error err →
        ∃ task', (statement.processStatement env uc uploadID
            (.ok header :: (good.map Except.ok ++ .ok bad :: post))).uploadRepo.GetByID uploadID
              = .ok task'
          ∧ task'.Status = upload.StatusFailed
          ∧ task'.Message =
              "invalid data at line " ++ toString (good.length + 1 + 1) ++ ": " ++ err)
      ∧ (∀ t err, statement.parseTransaction bad uploadID (env.newID good.length) = .ok t →
          ((saveAll uc.transactionRepo (statement.parseRows env uploadID 0 good)).Save
              (some t)).2 = some err →
          ∃ task', (statement.processStatement env uc uploadID
              (.ok header :: (good.map Except.ok ++ .ok bad :: post))).uploadRepo.GetByID
                uploadID = .ok task'
            ∧ task'.Status = upload.StatusFailed
            ∧ task'.Message =
                "failed to save transaction at line " ++ toString (good.length + 1 + 1)
                  ++ ": " ++ err) := by
  obtain ⟨mid, new, hrun, hmtr, hmup, hmrepo, hsaved, hlen, hupd, hrec, hevents⟩ :=
    processStatement_good_rows env uc uploadID header good
      (fun j hj => hctx j (Nat.le_of_lt hj)) hparse hsave
  have hc : env.ctxDone (good.length + 1 - 1) = false := by
    simpa using hctx good.length (le_refl _)
  constructor
  · intro err hp
    rw [hrun, processRows_parse_error env uploadID mid _ bad err post hc (by simpa using hp)]
    obtain ⟨task', hget, hstat, hmsg, -⟩ := markUploadAsFailed_registered env
      { mid with trace := mid.trace ++ [Effect.read (some (.ok bad))] } uploadID
      ("invalid data at line " ++ toString (good.length + 1 + 1) ++ ": " ++ err) task
      (by rw [← hmup] at hreg; exact hreg)
    exact ⟨task', hget, hstat, hmsg⟩
  · intro t err hp hs
    have hs1 : (mid.transactionRepo.Save (some t)).2 = some err := by
      rw [hmrepo]
      exact hs
    have hs2 : mid.transactionRepo.Save (some t) =
        ((mid.transactionRepo.Save (some t)).1, some err) := Prod.ext rfl hs1
    rw [hrun, processRows_save_error env uploadID mid _ bad t _ err post hc
      (by simpa using hp) hs2]
    obtain ⟨task', hget, hstat, hmsg, -⟩ := markUploadAsFailed_registered env
      { mid with
        transactionRepo := (mid.transactionRepo.Save (some t)).1
        trace := mid.trace ++ [Effect.read (some (.ok bad))] ++ [Effect.save t (some err)] }
      uploadID
      ("failed to save transaction at line " ++ toString (good.length + 1 + 1) ++ ": " ++ err)
      task (by rw [← hmup] at hreg; exact hreg)
    exact ⟨task', hget, hstat, hmsg⟩

/-- C25 (witness): a run cancelled at the check before the second record reads and persists
the first record only. -/
theorem processStatement_cancelled_witness :
    (∃ task', (statement.processStatement (cancelledAt 1) sampleStatement "u"
          (.ok csvHeader :: ([failedRow].map Except.ok ++ [.ok successRow]))).uploadRepo.GetByID
            "u" = .ok task'
        ∧ task'.Status = upload.StatusFailed ∧ task'.Message = "processing cancelled")
      ∧ recordsReadOf (statement.runTrace (cancelledAt 1) sampleStatement "u"
          (.ok csvHeader :: ([failedRow].map Except.ok ++ [.ok successRow]))) =
            [csvHeader, failedRow] :=
  have h := processStatement_cancelled (cancelledAt 1) sampleStatement "u" csvHeader
    [failedRow] [.ok successRow] sampleTask (by decide)
    (fun j hj =>
      match j, hj with
      | 0, _ => rfl
      | j + 1, h => absurd h (by simp))
    (by decide)
    (fun j hj =>
      match j, hj with
      | 0, _ => ⟨_, rfl⟩
      | j + 1, h => absurd h (by simp))
    (by decide)
  ⟨h.1, h.2.1⟩

/-- C26 (witness): the second data record has one column only; the message names line 3. -/
theorem processStatement_failure_message_witness :
    ∃ task', (statement.processStatement sampleEnv sampleStatement "u"
        (.ok csvHeader :: ([failedRow].map Except.ok ++ .ok ["x"] :: [.ok successRow]))
          ).uploadRepo.GetByID "u" = .ok task'
      ∧ task'.Status = upload.StatusFailed
      ∧ task'.Message =
          "invalid data at line 3: invalid CSV format: expected 6 columns, got 1" := by
  obtain ⟨task', h1, h2, h3⟩ := (processStatement_failure_message sampleEnv sampleStatement
    "u" csvHeader [failedRow] ["x"] [.ok successRow] sampleTask (by decide) (fun _ _ => rfl)
    (fun j hj =>
      match j, hj with
      | 0, _ => ⟨_, rfl⟩
      | j + 1, h => absurd h (by simp))
    (by decide)).1 "invalid CSV format: expected 6 columns, got 1" (by decide)
  exact ⟨task', h1, h2, by rw [h3]; decide⟩

/-! ## Theorems: the attempts of `processEvent` without cancellation -/

theorem attemptsOf_append (a b : List ConsumerAction) :
    attemptsOf (a ++ b) = attemptsOf a ++ attemptsOf b := by
  simp [attemptsOf, List.filterMap_append]

theorem attemptsOf_scheduleFrom (c : ReconciliationConsumer) :
    ∀ (n s : Nat), attemptsOf (c.scheduleFrom s n) = List.range' s n := by
  intro n
  induction n with
  | zero => intro s; rfl
  | succ n ih =>
    intro s
    unfold ReconciliationConsumer.scheduleFrom
    rw [attemptsOf_append]
    have h1 : attemptsOf (if s > 0 then [ConsumerAction.backoff (c.calculateBackoff s)]
        else []) = [] := by
      split <;> rfl
    have h2 : attemptsOf (ConsumerAction.reconcile s :: c.scheduleFrom (s + 1) n) =
        s :: attemptsOf (c.scheduleFrom (s + 1) n) := rfl
    rw [h1, h2, ih]
    rfl

/-- The retry loop without cancellation when the attempts `attempt`, ..., `attempt + j - 1`
fail and attempt `attempt + j` succeeds: the loop makes exactly these attempts, marks the
transaction and returns `nil`. -/
theorem retryLoop_first_success (c : ReconciliationConsumer) (env : EventEnv)
    (evt : FailedTransactionEvent)
    (hctx : ∀ a, env.ctxDone a = false) (hbo : ∀ a, env.ctxDoneInBackoff a = false) :
    ∀ (j attempt fuel : Nat) (lastErr : Option String) (acts : List ConsumerAction),
      j < fuel → ((attempt + j : Nat) : Int) < c.maxRetries →
      (∀ a, attempt ≤ a → a < attempt + j → env.reconcile a ≠ none) →
      env.reconcile (attempt + j) = none →
      c.retryLoop env evt fuel attempt lastErr acts =
        { consumer := c.markAsProcessed evt.TransactionID, err := none,
          actions := acts ++ c.scheduleFrom attempt (j + 1) } := by
  intro j
  induction j with
  | zero =>
    intro attempt fuel lastErr acts hfuel hlt _ hok
    obtain ⟨f, rfl⟩ : ∃ f, fuel = f + 1 := ⟨fuel - 1, by omega⟩
    have hguard : ((attempt : Nat) : Int) < c.maxRetries := by simpa using hlt
    have hok' : env.reconcile attempt = none := by simpa using hok
    unfold ReconciliationConsumer.retryLoop
    by_cases hpos : attempt > 0
    · simp [hguard, hctx, hbo, hok', hpos, ReconciliationConsumer.scheduleFrom]
    · simp [hguard, hctx, hbo, hok', hpos, ReconciliationConsumer.scheduleFrom]
  | succ j ih =>
    intro attempt fuel lastErr acts hfuel hlt hfail hok
    obtain ⟨f, rfl⟩ : ∃ f, fuel = f + 1 := ⟨fuel - 1, by omega⟩
    have hguard : ((attempt : Nat) : Int) < c.maxRetries := by
      push_cast at hlt ⊢
      omega
    have hnotlast : ¬ ((attempt : Nat) : Int) = c.maxRetries - 1 := by
      push_cast at hlt ⊢
      omega
    obtain ⟨e, he⟩ : ∃ e, env.reconcile attempt = some e :=
      Option.ne_none_iff_exists'.mp (hfail attempt (le_refl _) (by omega))
    have hrec := ih (attempt + 1) f (some e)
      ((if attempt > 0 then acts ++ [ConsumerAction.backoff (c.calculateBackoff attempt)]
        else acts) ++ [ConsumerAction.reconcile attempt])
      (by omega)
      (by rw [show attempt + 1 + j = attempt + (j + 1) by omega]; exact hlt)
      (fun a h1 h2 => hfail a (by omega) (by omega))
      (by rw [show attempt + 1 + j = attempt + (j + 1) by omega]; exact hok)
    conv_lhs => unfold ReconciliationConsumer.retryLoop
    simp only [hguard, hctx, hbo, he, hnotlast, not_true_eq_false, if_false,
      Bool.false_eq_true, and_false]
    rw [hrec]
    conv_rhs => unfold ReconciliationConsumer.scheduleFrom
    by_cases hpos : attempt > 0
    · simp [hpos]
    · simp [hpos]

/-- The retry loop without cancellation when every remaining attempt fails, the last of
them being attempt `maxRetries - 1`: the loop makes all of them, leaves the consumer
unchanged and returns the error that wraps the error of the last attempt. -/
theorem retryLoop_all_fail (c : ReconciliationConsumer) (env : EventEnv)
    (evt : FailedTransactionEvent)
    (hctx : ∀ a, env.ctxDone a = false) (hbo : ∀ a, env.ctxDoneInBackoff a = false) :
    ∀ (fuel attempt : Nat) (lastErr : Option String) (acts : List ConsumerAction),
      1 ≤ fuel → ((attempt + fuel : Nat) : Int) = c.maxRetries →
      (∀ a, attempt ≤ a → a < attempt + fuel → env.reconcile a ≠ none) →
      ∃ e, env.reconcile (attempt + fuel - 1) = some e
        ∧ c.retryLoop env evt fuel attempt lastErr acts =
          { consumer := c
            err := some ("failed to reconcile transaction " ++ evt.TransactionID ++ " after "
              ++ toString c.maxRetries ++ " attempts: " ++ e)
            actions := acts ++ c.scheduleFrom attempt fuel } := by
  intro fuel
  induction fuel with
  | zero => intro attempt lastErr acts h; omega
  | succ f ih =>
    intro attempt lastErr acts _ hsum hfail
    have hguard : ((attempt : Nat) : Int) < c.maxRetries := by
      push_cast at hsum ⊢
      omega
    obtain ⟨e, he⟩ : ∃ e, env.reconcile attempt = some e :=
      Option.ne_none_iff_exists'.mp (hfail attempt (le_refl _) (by omega))
    by_cases hf : f = 0
    · subst hf
      have hlast : ((attempt : Nat) : Int) = c.maxRetries - 1 := by
        push_cast at hsum ⊢
        omega
      refine ⟨e, by simpa using he, ?_⟩
      unfold ReconciliationConsumer.retryLoop
      by_cases hpos : attempt > 0
      · simp [hguard, hctx, hbo, he, hlast, hpos, ReconciliationConsumer.scheduleFrom]
      · simp [hguard, hctx, hbo, he, hlast, hpos, ReconciliationConsumer.scheduleFrom]
    · have hnotlast : ¬ ((attempt : Nat) : Int) = c.maxRetries - 1 := by
        push_cast at hsum ⊢
        omega
      obtain ⟨e', he', hrec⟩ := ih (attempt + 1) (some e)
        ((if attempt > 0 then acts ++ [ConsumerAction.backoff (c.calculateBackoff attempt)]
          else acts) ++ [ConsumerAction.reconcile attempt])
        (by omega)
        (by rw [show attempt + 1 + f = attempt + (f + 1) by omega]; exact hsum)
        (fun a h1 h2 => hfail a (by omega) (by omega))
      refine ⟨e', by rw [show attempt + (f + 1) - 1 = attempt + 1 + f - 1 by omega]; exact he',
        ?_⟩
      conv_lhs => unfold ReconciliationConsumer.retryLoop
      simp only [hguard, hctx, hbo, he, hnotlast, not_true_eq_false, if_false,
        Bool.false_eq_true, and_false]
      rw [hrec]
      conv_rhs => unfold ReconciliationConsumer.scheduleFrom
      by_cases hpos : attempt > 0
      · simp [hpos]
      · simp [hpos]

/-- The number of attempts of `processEvent` never exceeds `maxRetries`. -/
theorem processEvent_attempts_le (c : ReconciliationConsumer) (env : EventEnv)
    (evt : FailedTransactionEvent) :
    (attemptsOf (c.processEvent env evt).actions).length ≤ c.maxRetries.toNat := by
  unfold ReconciliationConsumer.processEvent
  split
  · simp [attemptsOf]
  · obtain ⟨r, hr, hpre⟩ := retryLoop_actions c env evt c.maxRetries.toNat 0 none []
    rw [hr, List.nil_append]
    obtain ⟨s, hs⟩ := hpre
    have h1 : (attemptsOf r).length ≤ (attemptsOf (c.scheduleFrom 0 c.maxRetries.toNat)).length := by
      rw [← hs, attemptsOf_append, List.length_append]
      omega
    rw [attemptsOf_scheduleFrom, List.length_range'] at h1
    exact h1

/-- C21: `processEvent`, for a transaction that is not in the processed cache and without
cancellation, makes the attempts 0, 1, 2, ... in order, up to the first one that succeeds or
up to attempt `maxRetries - 1`: when attempt `k < maxRetries` is the first to succeed, the
attempts made are exactly 0, ..., `k`, the transaction is marked processed and the result
is `nil`; when none of the attempts below `maxRetries` succeeds, the attempts made are
exactly 0, ..., `maxRetries - 1` and the consumer is unchanged. The number of attempts
never exceeds `maxRetries`, which is 3 for a consumer built by
`NewReconciliationConsumer`. -/
theorem processEvent_attempts (c : ReconciliationConsumer) (env : EventEnv)
    (evt : FailedTransactionEvent)
    (hnew : c.isAlreadyProcessed evt.TransactionID = false)
    (hctx : ∀ a, env.ctxDone a = false) (hbo : ∀ a, env.ctxDoneInBackoff a = false) :
    (∀ k : Nat, (k : Int) < c.maxRetries → (∀ a, a < k → env.reconcile a ≠ none) →
        env.reconcile k = none →
        attemptsOf (c.processEvent env evt).actions = List.range (k + 1)
          ∧ (c.processEvent env evt).err = none
          ∧ (c.processEvent env evt).consumer = c.markAsProcessed evt.TransactionID
          ∧ (c.processEvent env evt).consumer.isAlreadyProcessed evt.TransactionID = true)
      ∧ ((∀ a : Nat, (a : Int) < c.maxRetries → env.reconcile a ≠ none) →
          attemptsOf (c.processEvent env evt).actions = List.range c.maxRetries.toNat
            ∧ (c.processEvent env evt).consumer = c)
      ∧ (attemptsOf (c.processEvent env evt).actions).length ≤ c.maxRetries.toNat
      ∧ (∀ workerCount : Int, (NewReconciliationConsumer workerCount).maxRetries = 3) := by
  have hdef : c.processEvent env evt = c.retryLoop env evt c.maxRetries.toNat 0 none [] := by
    unfold ReconciliationConsumer.processEvent
    rw [if_neg (by simp [hnew])]
  refine ⟨?_, ?_, processEvent_attempts_le c env evt, fun _ => rfl⟩
  · intro k hk hfail hok
    have h := retryLoop_first_success c env evt hctx hbo k 0 c.maxRetries.toNat none []
      (by omega) (by simpa using hk) (fun a _ h2 => hfail a (by omega)) (by simpa using hok)
    rw [hdef, h]
    refine ⟨?_, rfl, rfl, ?_⟩
    · dsimp only
      rw [List.nil_append, attemptsOf_scheduleFrom, List.range_eq_range']
    · dsimp only
      rw [isAlreadyProcessed_markAsProcessed]
      simp
  · intro hfail
    by_cases hmax : 1 ≤ c.maxRetries
    · obtain ⟨e, -, h⟩ := retryLoop_all_fail c env evt hctx hbo c.maxRetries.toNat 0 none []
        (by omega) (by simp; omega) (fun a _ h2 => hfail a (by omega))
      rw [hdef, h]
      refine ⟨?_, rfl⟩
      dsimp only
      rw [List.nil_append, attemptsOf_scheduleFrom, List.range_eq_range']
    · have h0 : c.maxRetries.toNat = 0 := by omega
      rw [hdef, h0]
      exact ⟨rfl, rfl⟩

/-- C21 (witness): a consumer built by `NewReconciliationConsumer` whose first attempt fails
and whose second attempt succeeds makes the attempts 0 and 1. -/
theorem processEvent_attempts_witness :
    attemptsOf ((NewReconciliationConsumer 3).processEvent (failingFirst 1) sampleEvent).actions
        = [0, 1]
      ∧ ((NewReconciliationConsumer 3).processEvent (failingFirst 1) sampleEvent).err = none :=
  have h := (processEvent_attempts (NewReconciliationConsumer 3) (failingFirst 1) sampleEvent
    (by decide) (fun _ => rfl) (fun _ => rfl)).1 1 (by decide)
    (fun a ha => by
      have h0 : a = 0 := by omega
      subst h0
      decide)
    (by decide)
  ⟨h.1, h.2.1⟩

/-- C22: when `maxRetries ≥ 1`, the transaction is not in the processed cache, nothing is
cancelled and each of the `maxRetries` attempts fails, `processEvent` returns the error
`failed to reconcile transaction <id> after <maxRetries> attempts: ` followed by the error
of the last attempt, and leaves the consumer unchanged: the transaction ID is not in the
processed cache afterwards, and a later delivery of the event is not skipped but starts
with a new attempt. -/
theorem processEvent_all_fail (c : ReconciliationConsumer) (env : EventEnv)
    (evt : FailedTransactionEvent)
    (hmax : 1 ≤ c.maxRetries)
    (hnew : c.isAlreadyProcessed evt.TransactionID = false)
    (hctx : ∀ a, env.ctxDone a = false) (hbo : ∀ a, env.ctxDoneInBackoff a = false)
    (hfail : ∀ a : Nat, (a : Int) < c.maxRetries → env.reconcile a ≠ none) :
    ∃ e, env.reconcile (c.maxRetries.toNat - 1) = some e
      ∧ (c.processEvent env evt).err =
          some ("failed to reconcile transaction " ++ evt.TransactionID ++ " after "
            ++ toString c.maxRetries ++ " attempts: " ++ e)
      ∧ attemptsOf (c.processEvent env evt).actions = List.range c.maxRetries.toNat
      ∧ (c.processEvent env evt).consumer = c
      ∧ (c.processEvent env evt).consumer.isAlreadyProcessed evt.TransactionID = false
      ∧ ∀ env2 : EventEnv, env2.ctxDone 0 = false →
          ∃ rest, ((c.processEvent env evt).consumer.processEvent env2 evt).actions =
            ConsumerAction.reconcile 0 :: rest := by
  have hdef : ∀ env', c.processEvent env' evt =
      c.retryLoop env' evt c.maxRetries.toNat 0 none [] := by
    intro env'
    unfold ReconciliationConsumer.processEvent
    rw [if_neg (by simp [hnew])]
  obtain ⟨e, he, h⟩ := retryLoop_all_fail c env evt hctx hbo c.maxRetries.toNat 0 none []
    (by omega) (by simp; omega) (fun a _ h2 => hfail a (by omega))
  rw [hdef env, h]
  refine ⟨e, by simpa using he, rfl, ?_, rfl, hnew, ?_⟩
  · dsimp only
    rw [List.nil_append, attemptsOf_scheduleFrom, List.range_eq_range']
  · intro env2 h0
    dsimp only
    rw [hdef env2]
    obtain ⟨f, hf⟩ : ∃ f, c.maxRetries.toNat = f + 1 := ⟨c.maxRetries.toNat - 1, by omega⟩
    rw [hf]
    have hguard : ((0 : Nat) : Int) < c.maxRetries := by simp; omega
    unfold ReconciliationConsumer.retryLoop
    simp only [hguard, h0, not_true_eq_false, if_false, Bool.false_eq_true, gt_iff_lt,
      lt_self_iff_false, false_and, List.nil_append]
    cases hr : env2.reconcile 0 with
    | none => exact ⟨[], rfl⟩
    | some e2 =>
      dsimp only
      split
      · exact ⟨[], rfl⟩
      · obtain ⟨r, hr2, -⟩ := retryLoop_actions c env2 evt f (0 + 1) (some e2)
          [ConsumerAction.reconcile 0]
        exact ⟨r, by rw [hr2]; rfl⟩

/-- C22 (witness): the three attempts of a consumer built by `NewReconciliationConsumer`
fail; the error wraps the error of the last attempt. -/
theorem processEvent_all_fail_witness :
    ((NewReconciliationConsumer 3).processEvent alwaysFailing sampleEvent).err =
        some ("failed to reconcile transaction t2 after 3 attempts: "
          ++ "reconciliation failed (simulated transient error)")
      ∧ ((NewReconciliationConsumer 3).processEvent alwaysFailing
          sampleEvent).consumer.isAlreadyProcessed "t2" = false := by
  obtain ⟨e, he, h1, -, -, h4, -⟩ := processEvent_all_fail (NewReconciliationConsumer 3)
    alwaysFailing sampleEvent (by decide) (by decide) (fun _ => rfl) (fun _ => rfl)
    (fun _ _ => by simp [alwaysFailing])
  have he' : e = "reconciliation failed (simulated transient error)" := by
    have : some "reconciliation failed (simulated transient error)" = some e := he
    exact (Option.some.inj this).symm
  subst he'
  exact ⟨by rw [h1]; decide, h4⟩
